import Mathlib

/-!
# niltalk: the room actor loop, the hub registry and the in-memory store

A shallow embedding of `internal/hub/room.go`, `internal/hub/hub.go`,
`internal/hub/token.go` and `store/mem/mem.go`.

* Go maps are association lists (`lookupKey`, `setKey`, `deleteKey`); the peer
  set `map[*Peer]bool` is the list of its keys.
* Buffered channels are a buffer, a capacity and a closed flag (`Chan`).
* Calls into code that is not part of the sources at hand (the methods of
  `Peer`, the logger, goroutine starts) are recorded, in order, in a trace of
  `Effect`s.
* `time.Now()` and `crypto/rand.Read` are oracles carried by the state: every
  call consumes the next reading.
* A handler ends in one of four ways (`Outcome`): it returns, the loop exits,
  the goroutine parks for ever on a channel, or the Go runtime panics.
-/

namespace Niltalk

/-! ## Time -/

/-- Instants (Go time.Time), in nanoseconds since the zero time. -/
abbrev Time := Int

/-- Durations (Go time.Duration), in nanoseconds. -/
abbrev Duration := Int

/-- The constant time.Second. -/
def Second : Duration := 1000000000

/-- The constant time.Minute. -/
def Minute : Duration := 60 * Second

/-- Largest Duration (int64). -/
def maxDuration : Duration := 9223372036854775807

/-- Smallest Duration (int64). -/
def minDuration : Duration := -9223372036854775808

/-- Time.Sub: the difference t - u, saturated to the range of Duration. -/
def timeSub (t u : Time) : Duration :=
  if t - u > maxDuration then maxDuration
  else if t - u < minDuration then minDuration
  else t - u

/-- Time.Before. -/
def timeBefore (t u : Time) : Bool := decide (t < u)

/-- Time.Add. -/
def timeAdd (t : Time) (d : Duration) : Time := t + d

/-! ## Go maps -/

/-- Map read m[k]: the value of the first entry with key k. -/
def lookupKey {κ ν : Type} [DecidableEq κ] : List (κ × ν) → κ → Option ν
  | [], _ => none
  | (k', v) :: rest, k => if k' = k then some v else lookupKey rest k

/-- Map delete(m, k): every entry with key k is dropped. -/
def deleteKey {κ ν : Type} [DecidableEq κ] : List (κ × ν) → κ → List (κ × ν)
  | [], _ => []
  | (k', v) :: rest, k => if k' = k then deleteKey rest k else (k', v) :: deleteKey rest k

/-- Map write m[k] = v. -/
def setKey {κ ν : Type} [DecidableEq κ] (m : List (κ × ν)) (k : κ) (v : ν) : List (κ × ν) :=
  (k, v) :: deleteKey m k

/-! ## Channels -/

/-- A buffered Go channel: pending values (oldest first), capacity, closed flag. -/
structure Chan (α : Type) where
  buf : List α
  cap : Nat
  closed : Bool
deriving DecidableEq, Repr

/-- The result of a channel send. -/
inductive SendRes (α : Type) where
  /-- The value was appended to the buffer. -/
  | sent (c : Chan α)
  /-- The buffer is full: the sender parks until a receiver makes room. -/
  | full
  /-- Send on a closed channel: run-time panic. -/
  | closedPanic
deriving DecidableEq, Repr

/-- The statement c <- v. -/
def Chan.send {α : Type} (c : Chan α) (v : α) : SendRes α :=
  if c.closed then .closedPanic
  else if c.buf.length < c.cap then .sent { c with buf := c.buf ++ [v] }
  else .full

/-- The result of a channel receive v, ok := <-c. -/
inductive RecvRes (α : Type) where
  /-- A value was taken from the head of the buffer. -/
  | value (v : α) (c : Chan α)
  /-- The channel is closed and drained: ok is false. -/
  | notOk
  /-- The channel is open and empty: the select case is not ready. -/
  | empty
deriving DecidableEq, Repr

/-- The receive v, ok := <-c. -/
def Chan.recv {α : Type} (c : Chan α) : RecvRes α :=
  match c.buf with
  | v :: rest => .value v { c with buf := rest }
  | [] => if c.closed then .notOk else .empty

/-- The result of close(c). -/
def Chan.close {α : Type} (c : Chan α) : Option (Chan α) :=
  if c.closed then none else some { c with closed := true }

/-- How a handler or a call ends. -/
inductive Outcome (σ : Type) where
  /-- The call returned; for a select case of the room loop: the loop goes round again. -/
  | ok (s : σ)
  /-- The room loop left its for loop, ran remove and returned. -/
  | exit (s : σ)
  /-- The goroutine is parked on a send to a full channel; s is the state at that point. -/
  | blocked (s : σ)
  /-- Run-time panic; s is the state at that point. -/
  | panic (s : σ)
deriving Repr

/-- Whether the call returned. -/
def Outcome.isOk {σ : Type} : Outcome σ → Bool
  | .ok _ => true
  | _ => false

/-- Whether the room loop left its for loop. -/
def Outcome.isExit {σ : Type} : Outcome σ → Bool
  | .exit _ => true
  | _ => false

/-- Whether the call ended in a run-time panic. -/
def Outcome.isPanic {σ : Type} : Outcome σ → Bool
  | .panic _ => true
  | _ => false

/-- The state an outcome carries. -/
def Outcome.state {σ : Type} : Outcome σ → σ
  | .ok s => s
  | .exit s => s
  | .blocked s => s
  | .panic s => s

/-- Sequencing: the rest of a function body runs only when the call returned. -/
def Outcome.andThen {σ : Type} (o : Outcome σ) (f : σ → Outcome σ) : Outcome σ :=
  match o with
  | .ok s => f s
  | .exit s => .exit s
  | .blocked s => .blocked s
  | .panic s => .panic s

/-! ## The store (package store, store/mem/mem.go) -/

/-- Modelled from the spec: the declaration of store.Room (package store is not among the
sources); the fields are the ones hub.go fills in. -/
structure StoreRoom where
  ID : String
  Name : String
  CreatedAt : Time
  Password : List Nat
deriving DecidableEq, Repr

/-- Modelled from the spec: the declaration of store.Sess; the fields are the ones mem.go
fills in. -/
structure Sess where
  ID : String
  Handle : String
deriving DecidableEq, Repr

/-- Errors of the store and the hub. -/
inductive Err where
  | ErrRoomNotFound
  | ErrInvalidRoomPassword
  | ErrInvalidUserPassword
  | ErrAlreadyConnected
  | ErrInvalidToken
  | other (msg : String)
deriving DecidableEq, Repr

/-- The struct room of mem.go: the embedded store.Room, the sessions and the expiry. -/
structure MemRoom where
  Room : StoreRoom
  Sessions : List (String × String)
  Expire : Time
deriving DecidableEq, Repr

/-- The zero value of store.Room. -/
def StoreRoom.zero : StoreRoom := { ID := "", Name := "", CreatedAt := 0, Password := [] }

/-- The zero value of store.Sess. -/
def Sess.zero : Sess := { ID := "", Handle := "" }

/-- The in-memory store. The key of a room is fmt.Sprintf(cfg.PrefixRoom, id): the
formatting is a library call and PrefixRoom a configuration value, so the map from id to
key is the field key. -/
structure InMemory where
  key : String → String
  rooms : List (String × MemRoom)

/-- InMemory.cleanup at clock reading now: rooms whose expiry is before now are deleted. -/
def InMemory.cleanup (m : InMemory) (now : Time) : InMemory :=
  { m with rooms := m.rooms.filter (fun e => !timeBefore e.2.Expire now) }

/-- InMemory.AddRoom. -/
def InMemory.AddRoom (m : InMemory) (r : StoreRoom) (ttl : Duration) : InMemory × Option Err :=
  let entry : MemRoom := { Room := r, Expire := timeAdd r.CreatedAt ttl, Sessions := [] }
  ({ m with rooms := setKey m.rooms (m.key r.ID) entry }, none)

/-- InMemory.ExtendRoomTTL. -/
def InMemory.ExtendRoomTTL (m : InMemory) (id : String) (ttl : Duration) :
    InMemory × Option Err :=
  match lookupKey m.rooms (m.key id) with
  | none => (m, some .ErrRoomNotFound)
  | some room =>
    let room1 : MemRoom := { room with Expire := timeAdd room.Expire ttl }
    ({ m with rooms := setKey m.rooms (m.key id) room1 }, none)

/-- InMemory.GetRoom. None is the nil pointer dereference of out.Room on a missing key. -/
def InMemory.GetRoom (m : InMemory) (id : String) : Option (StoreRoom × Option Err) :=
  match lookupKey m.rooms (m.key id) with
  | none => none
  | some out => some (out.Room, none)

/-- InMemory.RoomExists. -/
def InMemory.RoomExists (m : InMemory) (id : String) : Bool × Option Err :=
  ((lookupKey m.rooms (m.key id)).isSome, none)

/-- InMemory.RemoveRoom. -/
def InMemory.RemoveRoom (m : InMemory) (id : String) : InMemory × Option Err :=
  ({ m with rooms := deleteKey m.rooms (m.key id) }, none)

/-- InMemory.AddSession. -/
def InMemory.AddSession (m : InMemory) (sessID handle roomID : String) (_ttl : Duration) :
    InMemory × Option Err :=
  match lookupKey m.rooms (m.key roomID) with
  | none => (m, some .ErrRoomNotFound)
  | some room =>
    let room1 : MemRoom := { room with Sessions := setKey room.Sessions sessID handle }
    ({ m with rooms := setKey m.rooms (m.key roomID) room1 }, none)

/-- InMemory.GetSession. -/
def InMemory.GetSession (m : InMemory) (sessID roomID : String) : Sess × Option Err :=
  match lookupKey m.rooms (m.key roomID) with
  | none => (Sess.zero, some .ErrRoomNotFound)
  | some room =>
    match lookupKey room.Sessions sessID with
    | none => (Sess.zero, none)
    | some handle => ({ ID := sessID, Handle := handle }, none)

/-- InMemory.RemoveSession. -/
def InMemory.RemoveSession (m : InMemory) (sessID roomID : String) : InMemory × Option Err :=
  match lookupKey m.rooms (m.key roomID) with
  | none => (m, some .ErrRoomNotFound)
  | some room =>
    let room1 : MemRoom := { room with Sessions := deleteKey room.Sessions sessID }
    ({ m with rooms := setKey m.rooms (m.key roomID) room1 }, none)

/-- InMemory.ClearSessions. -/
def InMemory.ClearSessions (m : InMemory) (roomID : String) : InMemory × Option Err :=
  match lookupKey m.rooms (m.key roomID) with
  | none => (m, some .ErrRoomNotFound)
  | some room =>
    let room1 : MemRoom := { room with Sessions := [] }
    ({ m with rooms := setKey m.rooms (m.key roomID) room1 }, none)

/-! ## Messages and payloads (internal/hub/hub.go, internal/hub/room.go) -/

/-- The constant TypePeerList. -/
def TypePeerList : String := "peer.list"

/-- The constant TypePeerInfo. -/
def TypePeerInfo : String := "peer.info"

/-- The constant TypePeerJoin. -/
def TypePeerJoin : String := "peer.join"

/-- The constant TypePeerLeave. -/
def TypePeerLeave : String := "peer.leave"

/-- The constant TypeRoomDispose. -/
def TypeRoomDispose : String := "room.dispose"

/-- The constant TypeRoomFull. -/
def TypeRoomFull : String := "room.full"

/-- Modelled from the spec: the constant TypeMotd, used by room.go and declared in a file
that is not among the sources; the frame type is motd. -/
def TypeMotd : String := "motd"

/-- The fields of hub.Config the room loop, the hub and the handlers read. -/
structure Config where
  RoomIDLen : Int
  MaxCachedMessages : Int
  MaxPeersPerRoom : Int
  RoomAge : Duration
  SessionCookie : String
deriving DecidableEq, Repr

/-- The struct PredefinedUser. -/
structure PredefinedUser where
  Name : String
  Password : String
  Growl : Bool
deriving DecidableEq, Repr

/-- Modelled from the spec: the struct Peer (peer.go is not among the sources): its id and
handle, as room.go reads them. The field ptr is the address of the object: the peer set
is keyed by *Peer, so two peers with equal id and handle are still two keys. -/
structure Peer where
  ptr : Nat
  ID : String
  Handle : String
deriving DecidableEq, Repr

/-- The struct payloadMsgPeer. -/
structure payloadMsgPeer where
  ID : String
  Handle : String
deriving DecidableEq, Repr

/-- The struct payloadMsgChat. -/
structure payloadMsgChat where
  PeerID : String
  PeerHandle : String
  Msg : String
deriving DecidableEq, Repr

/-- The struct payloadUpload; the untyped Data is kept as a string. -/
structure payloadUpload where
  PeerID : String
  PeerHandle : String
  Data : String
deriving DecidableEq, Repr

/-- The values makePayload is given as data. -/
inductive PayloadData where
  | peer (d : payloadMsgPeer)
  | peerList (ds : List payloadMsgPeer)
  | chat (d : payloadMsgChat)
  | upload (d : payloadUpload)
deriving DecidableEq, Repr

/-- The struct payloadMsgWrap (its field Type is Typ here). -/
structure payloadMsgWrap where
  Typ : String
  Timestamp : Time
  Data : PayloadData
deriving DecidableEq, Repr

/-- A byte slice handed to Broadcast or SendData: the output of json.Marshal on a wrapped
payload (the encoder is a library call, kept as a constructor), or any other bytes. -/
inductive Bytes where
  | marshal (m : payloadMsgWrap)
  | raw (b : List Nat)
deriving DecidableEq, Repr

/-- The struct peerReq. -/
structure peerReq where
  reqType : String
  peer : Peer
deriving DecidableEq, Repr

/-- The struct forwardReq (its field to is to_ here). -/
structure forwardReq where
  reqType : String
  to_ : String
  data : String
deriving DecidableEq, Repr

/-- The struct loginToken. -/
structure loginToken where
  handle : String
  token : String
  expires : Time
deriving DecidableEq, Repr

/-- The struct tokenStore. -/
structure tokenStore where
  tokens : List (String × loginToken)
deriving DecidableEq, Repr

/-- The function newTokenStore. -/
def newTokenStore : tokenStore := { tokens := [] }

/-- The struct Room. The unbuffered channels op and disposeSig hold no state: a send on
them is the select case of the loop that receives it. -/
structure Room where
  ptr : Nat
  ID : String
  Name : String
  Password : List Nat
  Predefined : Bool
  PredefinedUsers : List PredefinedUser
  peers : List Peer
  broadcastQ : Chan Bytes
  hasGrowlHandler : Bool
  growlTokens : tokenStore
  peerQ : Chan peerReq
  forwardQ : Chan forwardReq
  closed : Bool
  payloadCache : List Bytes
  timestamp : Time
  motd : String
deriving DecidableEq, Repr

/-- The struct Hub: the store, the registry of live rooms (id to room address) and the
configuration. -/
structure Hub where
  Store : InMemory
  rooms : List (String × Nat)
  cfg : Config

/-- Calls that leave the code at hand, in the order they are made. -/
inductive Effect where
  /-- The call p.SendData(b). -/
  | SendData (p : Peer) (b : Bytes)
  /-- The call p.writeWSControl(websocket.CloseMessage,
  websocket.FormatCloseMessage(websocket.CloseNormalClosure, reason)). -/
  | writeWSControl (p : Peer) (reason : String)
  /-- The call p.ws.Close(). -/
  | wsClose (p : Peer)
  /-- The statement go p.RunListener(). -/
  | goRunListener (p : Peer)
  /-- The statement go p.RunWriter(). -/
  | goRunWriter (p : Peer)
  /-- The statement go r.GrowlHandler(msg, fromPeer, tok). -/
  | goGrowlHandler (msg fromPeer tok : String)
  /-- A call of log.Printf with its format and arguments. -/
  | logPrintf (format : String) (args : List String)
  /-- The statement go r.run() of Hub.initRoom, for the room at the address ptr. -/
  | goRun (ptr : Nat)
deriving DecidableEq, Repr

/-- The state of one room within its hub. -/
structure World where
  hub : Hub
  room : Room
  /-- The peers whose dataQ has been closed. -/
  dataQClosed : List Peer
  /-- The calls made so far, oldest first. -/
  trace : List Effect
  /-- The readings of time.Now(), in call order. -/
  clock : Nat → Time
  /-- The number of readings taken so far. -/
  clockReads : Nat
  /-- The calls of crypto/rand.Read, in call order: none for an error, else the bytes
  delivered as a function of the position in the buffer. -/
  rand : Nat → Option (Nat → Nat)
  /-- The number of calls of crypto/rand.Read so far. -/
  randCalls : Nat
  /-- The function bcrypt.CompareHashAndPassword: true when it returns a nil error. -/
  bcryptCompare : List Nat → String → Bool

/-- The function NewRoom; none is the panic of make on a negative capacity. -/
def NewRoom (ptr : Nat) (id name : String) (password : List Nat) (cfg : Config)
    (predefined : Bool) : Option Room :=
  if cfg.MaxCachedMessages < 0 then none
  else some
    { ptr := ptr
      ID := id
      Name := name
      Password := password
      Predefined := predefined
      PredefinedUsers := []
      peers := []
      broadcastQ := { buf := [], cap := 100, closed := false }
      hasGrowlHandler := false
      growlTokens := newTokenStore
      peerQ := { buf := [], cap := 100, closed := false }
      forwardQ := { buf := [], cap := 100, closed := false }
      closed := false
      payloadCache := []
      timestamp := 0
      motd := "" }

/-- Append one call to the trace. -/
def World.emit (w : World) (e : Effect) : World := { w with trace := w.trace ++ [e] }

/-- Replace the room. -/
def World.setRoom (w : World) (r : Room) : World := { w with room := r }

/-- Replace the store of the hub. -/
def World.setStore (w : World) (s : InMemory) : World := { w with hub := { w.hub with Store := s } }

/-- Replace the set of peers whose dataQ is closed. -/
def World.setDataQClosed (w : World) (l : List Peer) : World := { w with dataQClosed := l }

/-- Replace the registry of the hub. -/
def World.setHubRooms (w : World) (l : List (String × Nat)) : World :=
  { w with hub := { w.hub with rooms := l } }

/-- The call time.Now(). -/
def World.now (w : World) : Time × World :=
  (w.clock w.clockReads, { w with clockReads := w.clockReads + 1 })

/-- The call rand.Read on a buffer of n bytes: none for an error, else the n bytes. -/
def World.randRead (w : World) (n : Nat) : Option (List Nat) × World :=
  ((w.rand w.randCalls).map (fun src => (List.range n).map (fun i => src i % 256)),
    { w with randCalls := w.randCalls + 1 })

/-- Append several calls to the trace. -/
def World.emitAll (w : World) (es : List Effect) : World := { w with trace := w.trace ++ es }

/-! ## GenerateGUID and the token store (hub.go, token.go) -/

/-- The constant dictionary of GenerateGUID. -/
def dictionary : String := "0123456789ABCDEFGHIJKLMNOPQRSTUVWXYZabcdefghijklmnopqrstuvwxyz"

/-- The index expression dictionary[i]; none is the index-out-of-range panic. -/
def dictionaryAt (i : Nat) : Option Char := dictionary.toList.get? i

/-- The loop of GenerateGUID over the random bytes: each byte v is replaced by
dictionary[v % byte(len(dictionary))]. -/
def guidChars : List Nat → Option (List Char)
  | [] => some []
  | v :: vs =>
    match dictionaryAt (v % dictionary.length) with
    | none => none
    | some c =>
      match guidChars vs with
      | none => none
      | some cs => some (c :: cs)

/-- The function GenerateGUID. A negative n panics in make. -/
def GenerateGUID (w : World) (n : Int) : Outcome ((String × Option Err) × World) :=
  if n < 0 then .panic (("", none), w)
  else
    match (w.randRead n.toNat).1 with
    | none => .ok (("", some (.other "rand.Read")), (w.randRead n.toNat).2)
    | some bytes =>
      match guidChars bytes with
      | none => .panic (("", none), (w.randRead n.toNat).2)
      | some cs => .ok ((String.mk cs, none), (w.randRead n.toNat).2)

/-- The second half of getOrCreateToken, reached when the handle has no token that is
still valid: a fresh token is generated and stored. The error of GenerateGUID is dropped. -/
def createToken (w : World) (handle : String) : Outcome (String × World) :=
  match GenerateGUID w 32 with
  | .ok ((uid, _), w1) =>
    let tok : loginToken :=
      { expires := timeAdd w1.now.1 (Minute * 10), handle := handle, token := uid }
    .ok (tok.token, w1.now.2.setRoom
      { w1.now.2.room with
        growlTokens := { tokens := setKey w1.now.2.room.growlTokens.tokens handle tok } })
  | .exit (_, w1) => .exit ("", w1)
  | .blocked (_, w1) => .blocked ("", w1)
  | .panic (_, w1) => .panic ("", w1)

/-- The method tokenStore.getOrCreateToken on the growl tokens of the room. The clock is
read for the expiry test only when the handle has a token. -/
def getOrCreateToken (w : World) (handle : String) : Outcome (String × World) :=
  match lookupKey w.room.growlTokens.tokens handle with
  | none => createToken w handle
  | some tok =>
    if !timeBefore tok.expires w.now.1 then
      let tok1 : loginToken := { tok with expires := timeAdd tok.expires (Minute * 10) }
      .ok (tok1.token, w.now.2.setRoom
        { w.now.2.room with
          growlTokens := { tokens := setKey w.now.2.room.growlTokens.tokens handle tok1 } })
    else createToken w.now.2 handle

/-- The range loop of checkToken over the tokens still to visit (the model visits them in
list order): the first token with the value given that has not expired is deleted, under
the handle it carries, and that handle is returned. The clock is read for each token
with the value given. -/
def checkTokenLoop (tokvalue : String) : List (String × loginToken) → World → String × World
  | [], w => ("", w)
  | (_, tok) :: rest, w =>
    if tok.token = tokvalue then
      if !timeBefore tok.expires w.now.1 then
        (tok.handle, w.now.2.setRoom
          { w.now.2.room with
            growlTokens := { tokens := deleteKey w.now.2.room.growlTokens.tokens tok.handle } })
      else checkTokenLoop tokvalue rest w.now.2
    else checkTokenLoop tokvalue rest w

/-- The method tokenStore.checkToken on the growl tokens of the room. -/
def checkToken (w : World) (tokvalue : String) : String × World :=
  checkTokenLoop tokvalue w.room.growlTokens.tokens w

/-! ## The room (room.go) -/

/-- The map write r.peers[p] = true. -/
def insertPeer (peers : List Peer) (p : Peer) : List Peer :=
  if p ∈ peers then peers else peers ++ [p]

/-- The map delete delete(r.peers, p). -/
def deletePeer (peers : List Peer) (p : Peer) : List Peer :=
  peers.filter (fun q => decide (q ≠ p))

/-- The method makePayload: the wrapped payload is stamped with time.Now() and encoded. -/
def makePayload (w : World) (data : PayloadData) (typ : String) : Bytes × World :=
  (.marshal { Timestamp := w.now.1, Typ := typ, Data := data }, w.now.2)

/-- The method makePeerListPayload. -/
def makePeerListPayload (w : World) : Bytes × World :=
  makePayload w (.peerList (w.room.peers.map (fun p => { ID := p.ID, Handle := p.Handle })))
    TypePeerList

/-- The method makePeerUpdatePayload. -/
def makePeerUpdatePayload (w : World) (p : Peer) (peerUpdateType : String) : Bytes × World :=
  makePayload w (.peer { ID := p.ID, Handle := p.Handle }) peerUpdateType

/-- The method makeMessagePayload. -/
def makeMessagePayload (w : World) (msg : String) (p : Peer) (typ : String) : Bytes × World :=
  makePayload w (.chat { PeerID := p.ID, PeerHandle := p.Handle, Msg := msg }) typ

/-- The method makeUploadPayload. -/
def makeUploadPayload (w : World) (data : String) (p : Peer) (typ : String) : Bytes × World :=
  makePayload w (.upload { PeerID := p.ID, PeerHandle := p.Handle, Data := data }) typ

/-- The body of recordMsgPayload on the cache alone, for the configured
MaxCachedMessages; none is the panic of the slice expression [1:] on an empty slice. -/
def recordPayload (maxCached : Int) (cache : List Bytes) (b : Bytes) : Option (List Bytes) :=
  if maxCached = 0 then some cache
  else if (cache.length : Int) ≥ maxCached then
    match cache with
    | [] => none
    | _ :: rest => some (rest ++ [b])
  else some (cache ++ [b])

/-- The method Room.recordMsgPayload. -/
def Room.recordMsgPayload (w : World) (b : Bytes) : Outcome World :=
  match recordPayload w.hub.cfg.MaxCachedMessages w.room.payloadCache b with
  | none => .panic w
  | some cache => .ok (w.setRoom { w.room with payloadCache := cache })

/-- The method Room.Broadcast. -/
def Room.Broadcast (w : World) (data : Bytes) (record : Bool) : Outcome World :=
  match w.room.broadcastQ.send data with
  | .closedPanic => .panic w
  | .full => .blocked w
  | .sent q =>
    let w1 := w.setRoom { w.room with broadcastQ := q }
    if record then Room.recordMsgPayload w1 data else .ok w1

/-- The method Room.extendTTL. -/
def Room.extendTTL (w : World) : World :=
  w.setStore (w.hub.Store.ExtendRoomTTL w.room.ID w.hub.cfg.RoomAge).1

/-- The method Room.removePeer; the panic is close of a closed channel. -/
def Room.removePeer (w : World) (p : Peer) : Outcome World :=
  if p ∈ w.dataQClosed then .panic w
  else
    let w1 := w.setDataQClosed (p :: w.dataQClosed)
    .ok (w1.setRoom { w1.room with peers := deletePeer w1.room.peers p })

/-- The method Hub.removeRoom. -/
def Hub.removeRoom (w : World) (id : String) : World :=
  let w1 := w.setHubRooms (deleteKey w.hub.rooms id)
  match w1.hub.Store.RemoveRoom id with
  | (st, none) => w1.setStore st
  | (st, some _) => (w1.setStore st).emit (.logPrintf "error removing room from store: %v" [])

/-- The range loop of Room.remove over the peers: each one is sent the close control
frame and deleted from the peer set. -/
def removeLoop : List Peer → World → World
  | [], w => w
  | p :: ps, w =>
    let w1 := w.emit (.writeWSControl p TypeRoomDispose)
    removeLoop ps (w1.setRoom { w1.room with peers := deletePeer w1.room.peers p })

/-- The method Room.remove; the panics are closes of a closed channel. -/
def Room.remove (w : World) : Outcome World :=
  let w1 := w.setRoom { w.room with closed := true }
  let w2 := removeLoop w1.room.peers w1
  match w2.room.broadcastQ.close with
  | none => .panic w2
  | some bq =>
    let w3 := w2.setRoom { w2.room with broadcastQ := bq }
    match w3.room.peerQ.close with
    | none => .panic w3
    | some pq =>
      let w4 := w3.setRoom { w3.room with peerQ := pq }
      match w4.room.forwardQ.close with
      | none => .panic w4
      | some fq =>
        let w5 := w4.setRoom { w4.room with forwardQ := fq }
        .ok (Hub.removeRoom w5 w5.room.ID)

/-- The closures that the sources send on the channel op. -/
inductive OpClosure where
  /-- The closure of Login and of LoginWithToken: it sets connected when a peer has the
  handle, and signals the wait group. -/
  | connected (handle : String)
  /-- The closure of HandleGrowlNotifications. -/
  | growl (msg fromPeer to_ : String)
deriving DecidableEq, Repr

/-- The tests of HandleGrowlNotifications before it sends its closure on op: a growl
handler is set and a predefined user with the growl flag has the name. -/
def growlWanted (r : Room) (to_ : String) : Bool :=
  r.hasGrowlHandler && r.PredefinedUsers.any (fun u => u.Growl && decide (u.Name = to_))

/-- Whether a closure can be on its way on the channel op. -/
def opSent (r : Room) : OpClosure → Bool
  | .connected _ => true
  | .growl _ _ to_ => growlWanted r to_

/-- The loop of the closure of Login: whether some peer has the handle. -/
def handleConnected (peers : List Peer) (handle : String) : Bool :=
  peers.any (fun p => decide (p.Handle = handle))

/-- The select case op: the closure received is run. -/
def runOp (w : World) : OpClosure → Outcome World
  | .connected _ => .ok w
  | .growl msg fromPeer to_ =>
    if handleConnected w.room.peers to_ then .ok w
    else
      match getOrCreateToken w to_ with
      | .ok (tok, w1) => .ok (w1.emit (.goGrowlHandler msg fromPeer tok))
      | .exit (_, w1) => .exit w1
      | .blocked (_, w1) => .blocked w1
      | .panic (_, w1) => .panic w1

/-- The select case forwardQ, after a successful receive. The range over the peer set
stops at the first peer with the handle; the model visits the peers in list order. -/
def handleForward (w : World) (fw : forwardReq) : Outcome World :=
  match w.room.peers.find? (fun p => decide (p.Handle = fw.to_)) with
  | none => .ok w
  | some toPeer =>
    let b := makeUploadPayload w fw.data toPeer fw.reqType
    .ok (b.2.emit (.SendData toPeer b.1))

/-- The three sends to a peer that has just been admitted: its own peer.info frame, the
cached payloads when MaxCachedMessages > 0, and the motd frame when the motd is not
empty. -/
def greetPeer (w : World) (p : Peer) : World :=
  let info := makePeerUpdatePayload w p TypePeerInfo
  let w4 := info.2.emit (.SendData p info.1)
  let w5 :=
    if w4.hub.cfg.MaxCachedMessages > 0 then
      w4.emitAll (w4.room.payloadCache.map (fun b => .SendData p b))
    else w4
  if w5.room.motd.utf8ByteSize > 0 then
    let motd := makeMessagePayload w5 w5.room.motd p TypeMotd
    motd.2.emit (.SendData p motd.1)
  else w5

/-- The case TypePeerJoin of the switch on a peer request. -/
def handlePeerJoin (w : World) (p : Peer) : Outcome World :=
  if (w.room.peers.length : Int) ≥ w.hub.cfg.MaxPeersPerRoom then
    let w1 := w.setStore (w.hub.Store.RemoveSession p.ID w.room.ID).1
    let w2 := w1.emit (.writeWSControl p TypeRoomFull)
    .ok (w2.emit (.wsClose p))
  else
    let w1 := w.setRoom { w.room with peers := insertPeer w.room.peers p }
    let w2 := (w1.emit (.goRunListener p)).emit (.goRunWriter p)
    let w6 := greetPeer w2 p
    let join := makePeerUpdatePayload w6 p TypePeerJoin
    (Room.Broadcast join.2 join.1 true).andThen fun w8 =>
      .ok (w8.emit (.logPrintf "%s@%s joined %s" [p.Handle, p.ID, w8.room.ID]))

/-- The case TypePeerLeave of the switch on a peer request. -/
def handlePeerLeave (w : World) (p : Peer) : Outcome World :=
  (Room.removePeer w p).andThen fun w1 =>
    let leave := makePeerUpdatePayload w1 p TypePeerLeave
    (Room.Broadcast leave.2 leave.1 true).andThen fun w3 =>
      .ok (w3.emit (.logPrintf "%s@%s left %s" [p.Handle, p.ID, w3.room.ID]))

/-- The case TypePeerList of the switch on a peer request. -/
def handlePeerList (w : World) (p : Peer) : Outcome World :=
  let b := makePeerListPayload w
  .ok (b.2.emit (.SendData p b.1))

/-- The select case peerQ, after a successful receive: the switch on req.reqType. -/
def handlePeerReq (w : World) (req : peerReq) : Outcome World :=
  if req.reqType = TypePeerJoin then handlePeerJoin w req.peer
  else if req.reqType = TypePeerLeave then handlePeerLeave w req.peer
  else if req.reqType = TypePeerList then handlePeerList w req.peer
  else .ok w

/-- The select case broadcastQ, after a successful receive: the fan-out (the model
visits the peers in list order) and the extension of the expiry. -/
def handleBroadcast (w : World) (m : Bytes) : Outcome World :=
  let w1 := w.emitAll (w.room.peers.map (fun p => .SendData p m))
  if !w1.room.Predefined then
    let w2 := w1.now.2
    if timeSub w1.now.1 w2.room.timestamp > 30 * Second then
      let w3 := w2.now.2
      .ok (Room.extendTTL (w3.setRoom { w3.room with timestamp := w2.now.1 }))
    else .ok w2
  else .ok w1

/-- What follows the for loop of Room.run: the log line and remove. -/
def Room.exitLoop (w : World) : Outcome World :=
  match Room.remove (w.emit (.logPrintf "stopped room: %v" [w.room.ID])) with
  | .ok w1 => .exit w1
  | .exit w1 => .exit w1
  | .blocked w1 => .blocked w1
  | .panic w1 => .panic w1

/-- The cases of the select statement of Room.run. -/
inductive SelectCase where
  | op (c : OpClosure)
  | disposeSig
  | forwardQ
  | peerQ
  | broadcastQ
  | timeAfter
deriving DecidableEq, Repr

/-- One round of the for loop of Room.run, with the select case that fires. None: the
case is not ready (no caller sends this closure on op; an open, empty queue; a timer
while a queue has something to receive). Outcome ok: the loop goes round again. -/
def Room.run (w : World) : SelectCase → Option (Outcome World)
  | .op c => if opSent w.room c then some (runOp w c) else none
  | .disposeSig =>
    if w.room.Predefined then some (.ok w)
    else some (Room.exitLoop (w.setStore (w.hub.Store.ClearSessions w.room.ID).1))
  | .forwardQ =>
    match w.room.forwardQ.recv with
    | .empty => none
    | .notOk => some (Room.exitLoop w)
    | .value fw q => some (handleForward (w.setRoom { w.room with forwardQ := q }) fw)
  | .peerQ =>
    match w.room.peerQ.recv with
    | .empty => none
    | .notOk => some (Room.exitLoop w)
    | .value req q => some (handlePeerReq (w.setRoom { w.room with peerQ := q }) req)
  | .broadcastQ =>
    match w.room.broadcastQ.recv with
    | .empty => none
    | .notOk => some (Room.exitLoop w)
    | .value m q => some (handleBroadcast (w.setRoom { w.room with broadcastQ := q }) m)
  | .timeAfter =>
    if w.room.forwardQ.recv = .empty ∧ w.room.peerQ.recv = .empty
        ∧ w.room.broadcastQ.recv = .empty then
      some (Room.exitLoop w)
    else none

/-! ## Calls made by other goroutines -/

/-- The method Room.queuePeerReq (the room of the peer is this room). -/
def Room.queuePeerReq (w : World) (reqType : String) (p : Peer) : Outcome World :=
  if w.room.closed then .ok w
  else
    match w.room.peerQ.send { reqType := reqType, peer := p } with
    | .closedPanic => .panic w
    | .full => .blocked w
    | .sent q => .ok (w.setRoom { w.room with peerQ := q })

/-- Modelled from the spec: the function newPeer of peer.go, which is not among the
sources: a new peer object (at the address ptr) with the id and handle given. -/
def newPeer (ptr : Nat) (id handle : String) : Peer := { ptr := ptr, ID := id, Handle := handle }

/-- The method Room.AddPeer. -/
def Room.AddPeer (w : World) (ptr : Nat) (id handle : String) : Outcome World :=
  Room.queuePeerReq w TypePeerJoin (newPeer ptr id handle)

/-- The method Room.forwardTo. -/
def Room.forwardTo (w : World) (typ to_ data : String) : Outcome World :=
  match w.room.forwardQ.send { reqType := typ, to_ := to_, data := data } with
  | .closedPanic => .panic w
  | .full => .blocked w
  | .sent q => .ok (w.setRoom { w.room with forwardQ := q })

/-- The method Room.sendPeerList. -/
def Room.sendPeerList (w : World) (p : Peer) : Outcome World :=
  match w.room.peerQ.send { reqType := TypePeerList, peer := p } with
  | .closedPanic => .panic w
  | .full => .blocked w
  | .sent q => .ok (w.setRoom { w.room with peerQ := q })

/-- The method Room.Login. The send on op is received by the loop between two rounds;
once the loop has returned (closed is set) nobody receives and the caller stays parked. -/
def Room.Login (w : World) (roomPwd handle handlePwd : String) (roomAge : Duration) :
    Outcome ((String × Option Err) × World) :=
  if !w.bcryptCompare w.room.Password roomPwd then
    .ok (("", some .ErrInvalidRoomPassword), w)
  else if w.room.PredefinedUsers.any
      (fun u => decide (u.Name = handle) && decide (u.Password ≠ handlePwd)) then
    .ok (("", some .ErrInvalidUserPassword), w)
  else if w.room.closed then .blocked (("", none), w)
  else if handleConnected w.room.peers handle then
    .ok (("", some .ErrAlreadyConnected), w)
  else
    match GenerateGUID w 32 with
    | .ok ((_, some _), w1) =>
      .ok (("", some (.other "error generating session ID")),
        w1.emit (.logPrintf "error generating session ID: %v" []))
    | .ok ((sessID, none), w1) =>
      match w1.hub.Store.AddSession sessID handle w1.room.ID roomAge with
      | (st, some _) =>
        .ok (("", some (.other "error storing session")),
          (w1.setStore st).emit (.logPrintf "error creating session: %v" []))
      | (st, none) => .ok ((sessID, none), w1.setStore st)
    | .exit x => .exit x
    | .blocked x => .blocked x
    | .panic x => .panic x

/-- The method Room.LoginWithToken. -/
def Room.LoginWithToken (w : World) (token : String) (roomAge : Duration) :
    Outcome ((String × Option Err) × World) :=
  let handle := (checkToken w token).1
  let w0 := (checkToken w token).2
  if handle.utf8ByteSize < 1 then .ok (("", some .ErrInvalidToken), w0)
  else if w0.room.closed then .blocked (("", none), w0)
  else if handleConnected w0.room.peers handle then
    .ok (("", some .ErrAlreadyConnected), w0)
  else
    match GenerateGUID w0 32 with
    | .ok ((_, some _), w1) =>
      .ok (("", some (.other "error generating session ID")),
        w1.emit (.logPrintf "error generating session ID: %v" []))
    | .ok ((sessID, none), w1) =>
      match w1.hub.Store.AddSession sessID handle w1.room.ID roomAge with
      | (st, some _) =>
        .ok (("", some (.other "error storing session")),
          (w1.setStore st).emit (.logPrintf "error creating session: %v" []))
      | (st, none) => .ok ((sessID, none), w1.setStore st)
    | .exit x => .exit x
    | .blocked x => .blocked x
    | .panic x => .panic x

/-- The result of a call without the value returned. -/
def Outcome.dropValue {α σ : Type} : Outcome (α × σ) → Outcome σ
  | .ok x => .ok x.2
  | .exit x => .exit x.2
  | .blocked x => .blocked x.2
  | .panic x => .panic x.2

/-- The steps of the system around one room: a round of the room loop, or a call made by
another goroutine. A call of Broadcast from outside the loop is its two statements, the
send and the recording, which other steps may separate. -/
inductive Action where
  | loop (c : SelectCase)
  | AddPeer (ptr : Nat) (id handle : String)
  | queuePeerReq (reqType : String) (p : Peer)
  | sendPeerList (p : Peer)
  | forwardTo (typ to_ data : String)
  | broadcastSend (data : Bytes)
  | broadcastRecord (data : Bytes)
  | Login (roomPwd handle handlePwd : String) (roomAge : Duration)
  | LoginWithToken (token : String) (roomAge : Duration)
  /-- The call Store.RemoveSession(sessID, room.ID) of handleLogout. -/
  | Logout (sessID : String)
  /-- A run of InMemory.cleanup by the goroutine watch. -/
  | storeCleanup
deriving DecidableEq, Repr

/-- The effect of one step; none when a select case is not ready. -/
def World.act (w : World) : Action → Option (Outcome World)
  | .loop c => Room.run w c
  | .AddPeer ptr id handle => some (Room.AddPeer w ptr id handle)
  | .queuePeerReq reqType p => some (Room.queuePeerReq w reqType p)
  | .sendPeerList p => some (Room.sendPeerList w p)
  | .forwardTo typ to_ data => some (Room.forwardTo w typ to_ data)
  | .broadcastSend data => some (Room.Broadcast w data false)
  | .broadcastRecord data => some (Room.recordMsgPayload w data)
  | .Login roomPwd handle handlePwd roomAge =>
    some (Room.Login w roomPwd handle handlePwd roomAge).dropValue
  | .LoginWithToken token roomAge => some (Room.LoginWithToken w token roomAge).dropValue
  | .Logout sessID => some (.ok (w.setStore (w.hub.Store.RemoveSession sessID w.room.ID).1))
  | .storeCleanup => some (.ok (w.now.2.setStore (w.now.2.hub.Store.cleanup w.now.1)))

/-- Run a list of steps; none as soon as a step is not ready or does not return. -/
def World.runAll (w : World) : List Action → Option World
  | [] => some w
  | a :: rest =>
    match w.act a with
    | some (.ok w1) => World.runAll w1 rest
    | _ => none

/-- Run a list of steps and stay at the start when one of them does not return. -/
def World.runAllD (w : World) (as : List Action) : World := (w.runAll as).getD w

/-- The states reachable from w0: every step taken returned (for the loop: went round
again). -/
inductive Reach (w0 : World) : World → Prop where
  | init : Reach w0 w0
  | step {w w1 : World} (a : Action) : Reach w0 w → w.act a = some (.ok w1) → Reach w0 w1

/-- The method recordMsgPayload applied to the payloads of a list, first to last. -/
def recordMsgPayloads (w : World) : List Bytes → Outcome World
  | [] => .ok w
  | b :: bs => (Room.recordMsgPayload w b).andThen fun w1 => recordMsgPayloads w1 bs

/-- The parts of the state that only the exit of the loop changes: the configuration, the
id and the predefined flag of the room, its closed flag and the closed flags of its three
queues. -/
def World.fixedPart (w : World) : Config × String × Bool × Bool × Bool × Bool × Bool :=
  (w.hub.cfg, w.room.ID, w.room.Predefined, w.room.closed, w.room.broadcastQ.closed,
    w.room.peerQ.closed, w.room.forwardQ.closed)

/-- The parts of the state that only a join, a leave, a recording or the exit of the loop
change: the fixed part, the peer set and the backlog. -/
def World.core (w : World) :
    (Config × String × Bool × Bool × Bool × Bool × Bool) × List Peer × List Bytes :=
  (w.fixedPart, w.room.peers, w.room.payloadCache)

/-- The backlog is empty unless caching is switched on (MaxCachedMessages > 0). -/
def World.cacheOK (w : World) : Prop :=
  w.hub.cfg.MaxCachedMessages ≤ 0 → w.room.payloadCache = []

/-- What one step can do to the peer set: nothing, one insertion while the set is below
the limit, one deletion, or the emptying by remove. -/
def peersStep (limit : Int) (old new : List Peer) : Prop :=
  new = old ∨ (∃ p, new = insertPeer old p ∧ (old.length : Int) < limit) ∨
    (∃ p, new = deletePeer old p) ∨ new = []

/-! ## Example states -/

/-- An example configuration: two cached messages, two peers per room. -/
def exConfig : Config :=
  { RoomIDLen := 5, MaxCachedMessages := 2, MaxPeersPerRoom := 2, RoomAge := 10 * Second,
    SessionCookie := "niltalk_session" }

/-- The room NewRoom returns for the id lobby under the example configuration. -/
def exNewRoom : Room :=
  { ptr := 1
    ID := "lobby"
    Name := "Lobby"
    Password := [112, 119]
    Predefined := false
    PredefinedUsers := []
    peers := []
    broadcastQ := { buf := [], cap := 100, closed := false }
    hasGrowlHandler := false
    growlTokens := newTokenStore
    peerQ := { buf := [], cap := 100, closed := false }
    forwardQ := { buf := [], cap := 100, closed := false }
    closed := false
    payloadCache := []
    timestamp := 0
    motd := "" }

/-- The example room with a message of the day. -/
def exRoom : Room := { exNewRoom with motd := "welcome" }

/-- An example store that holds the room lobby with one session. -/
def exStore : InMemory :=
  { key := fun id => "room:" ++ id
    rooms := [("room:lobby",
      { Room := { ID := "lobby", Name := "Lobby", CreatedAt := 0, Password := [112, 119] }
        Sessions := [("s0", "zoe")]
        Expire := 10 * Second })] }

/-- An example state: the room lobby, registered and stored, with a clock that advances
by one at each reading and a deterministic source of random bytes. -/
def exWorld : World :=
  { hub := { Store := exStore, rooms := [("lobby", 1)], cfg := exConfig }
    room := exRoom
    dataQClosed := []
    trace := []
    clock := fun n => 1000 + n
    clockReads := 0
    rand := fun k => some (fun i => 7 * i + k)
    randCalls := 0
    bcryptCompare := fun hash pwd => decide (hash = pwd.toList.map Char.toNat) }

/-- The example state with the room marked predefined. -/
def exPredefined : World := exWorld.setRoom { exRoom with Predefined := true }

/-- The peer alice, at address 1. -/
def alice : Peer := { ptr := 1, ID := "s1", Handle := "alice" }

/-- The peer bob, at address 2. -/
def bob : Peer := { ptr := 2, ID := "s2", Handle := "bob" }

/-- Three peers connect one after the other and the loop handles each request. -/
def exJoins : List Action :=
  [.AddPeer 1 "s1" "alice", .loop .peerQ, .AddPeer 2 "s2" "bob", .loop .peerQ,
    .AddPeer 3 "s3" "carol", .loop .peerQ]

/-- Two logins for the handle alice, both before any peer connects, then the two
websocket connections with the session ids the logins returned, then two rounds of the
loop on the peer queue. -/
def exTwoAlices : List Action :=
  [.Login "pw" "alice" "" Minute, .Login "pw" "alice" "" Minute,
    .AddPeer 1 "07ELSZgnu18FMTahov29GNUbipw3AHOV" "alice",
    .AddPeer 2 "18FMTahov29GNUbipw3AHOVcjqx4BIPW" "alice",
    .loop .peerQ, .loop .peerQ]

/-- The frame peer.join that the loop broadcasts when alice joins the example room. -/
def aliceJoined : Bytes :=
  .marshal { Typ := TypePeerJoin, Timestamp := 1002,
             Data := .peer { ID := "s1", Handle := "alice" } }

/-- Alice joins, bob joins before the loop has fanned out the frame about alice, then the
loop takes that frame from the broadcast queue. -/
def exReplay : List Action :=
  [.AddPeer 1 "s1" "alice", .loop .peerQ, .AddPeer 2 "s2" "bob", .loop .peerQ,
    .loop .broadcastQ]

/-- The example room after its loop has exited on the inactivity timer. -/
def exClosed : World :=
  match Room.run exWorld .timeAfter with
  | some o => o.state
  | none => exWorld

/-- The example state after alice and bob have joined. -/
def exTwoPeers : World :=
  exWorld.runAllD
    [.AddPeer 1 "s1" "alice", .loop .peerQ, .AddPeer 2 "s2" "bob", .loop .peerQ]

/-- The example state after alice has joined. -/
def exAliceIn : World := exWorld.runAllD [.AddPeer 1 "s1" "alice", .loop .peerQ]

/-- The example state after alice has joined and her PeerLeave has been handled. -/
def exAliceLeft : World :=
  (handlePeerReq exAliceIn { reqType := TypePeerLeave, peer := alice }).state

/-- Three payloads A, B and C. -/
def exABC : List Bytes := [.raw [65], .raw [66], .raw [67]]

/-- Alice, in the room with bob, forwards an upload to the handle bob, and the loop
handles the request. -/
def exForward : List Action := [.forwardTo "upload" "bob" "file1", .loop .forwardQ]

/-- What a step that is not a broadcast round leaves of the timing state: the clock is
the same, no reading is given back, and r.timestamp is the same. -/
def World.ticks (w w1 : World) : Prop :=
  w1.clock = w.clock ∧ w.clockReads ≤ w1.clockReads ∧ w1.room.timestamp = w.room.timestamp

/-- The two tests of the select case broadcastQ that guard r.extendTTL: the room is not
predefined and time.Since(r.timestamp), at the next clock reading, exceeds 30 seconds. -/
def extendDue (w : World) : Bool :=
  !w.room.Predefined && decide (timeSub w.now.1 w.room.timestamp > 30 * Second)

/-- The example state with a clock that starts 40 seconds after the zero time. -/
def exLate : World := { exWorld with clock := fun n => 40 * Second + n }

/-- The function New of mem.go, for the key formatting given: a store with no room. -/
def InMemory.New (key : String → String) : InMemory := { key := key, rooms := [] }

/-- A Go map has one entry for a key: the keys of the association list are distinct. -/
def InMemory.uniqueKeys (m : InMemory) : Prop := (m.rooms.map Prod.fst).Nodup

/-- The calls that change the store: the methods of InMemory that write, and a run of
cleanup at a clock reading. -/
inductive StoreOp where
  | AddRoom (r : StoreRoom) (ttl : Duration)
  | ExtendRoomTTL (id : String) (ttl : Duration)
  | RemoveRoom (id : String)
  | AddSession (sessID handle roomID : String) (ttl : Duration)
  | RemoveSession (sessID roomID : String)
  | ClearSessions (roomID : String)
  | cleanup (now : Time)
deriving DecidableEq, Repr

/-- One call on the store; the error returned is dropped. -/
def InMemory.applyOp (m : InMemory) : StoreOp → InMemory
  | .AddRoom r ttl => (m.AddRoom r ttl).1
  | .ExtendRoomTTL id ttl => (m.ExtendRoomTTL id ttl).1
  | .RemoveRoom id => (m.RemoveRoom id).1
  | .AddSession sessID handle roomID ttl => (m.AddSession sessID handle roomID ttl).1
  | .RemoveSession sessID roomID => (m.RemoveSession sessID roomID).1
  | .ClearSessions roomID => (m.ClearSessions roomID).1
  | .cleanup now => m.cleanup now

/-- The calls of a list on the store, first to last. -/
def InMemory.applyOps (m : InMemory) : List StoreOp → InMemory
  | [] => m
  | op :: rest => InMemory.applyOps (m.applyOp op) rest

/-- What the store holds for one session of the room under the key k: none when the room
is absent, else the expiry of the room and the handle stored for the session, if any. -/
def InMemory.sessionView (m : InMemory) (k sessID : String) : Option (Time × Option String) :=
  (lookupKey m.rooms k).map (fun row => (row.Expire, lookupKey row.Sessions sessID))

/-- Modelled from the spec: the effect of one call of the store on the session sessID of
the room under the key k, in the words of the claims: AddRoom for the room puts a room
with no session and the expiry created_at + ttl in its place, ExtendRoomTTL adds ttl to
its expiry, RemoveRoom removes it, a sweep removes it when its expiry is before now;
AddSession for the session stores the handle when the room is present, RemoveSession for
the session and ClearSessions remove it. Calls for other rooms or sessions change
nothing. -/
def sessionStep (key : String → String) (k sessID : String)
    (st : Option (Time × Option String)) : StoreOp → Option (Time × Option String)
  | .AddRoom r ttl => if key r.ID = k then some (r.CreatedAt + ttl, none) else st
  | .ExtendRoomTTL id ttl => if key id = k then st.map (fun x => (x.1 + ttl, x.2)) else st
  | .RemoveRoom id => if key id = k then none else st
  | .AddSession s handle id _ =>
    if key id = k ∧ s = sessID then st.map (fun x => (x.1, some handle)) else st
  | .RemoveSession s id => if key id = k ∧ s = sessID then st.map (fun x => (x.1, none)) else st
  | .ClearSessions id => if key id = k then st.map (fun x => (x.1, none)) else st
  | .cleanup now =>
    match st with
    | none => none
    | some x => if x.1 < now then none else some x

/-- Modelled from the spec: what the store holds for the session after a list of calls:
the handle most recently stored for it by AddSession and not since removed by
RemoveSession or ClearSessions, or dropped with the sessions of the room by an AddRoom
for the room or by the removal of the room. -/
def sessionAfter (key : String → String) (k sessID : String) :
    Option (Time × Option String) → List StoreOp → Option (Time × Option String)
  | st, [] => st
  | st, op :: rest => sessionAfter key k sessID (sessionStep key k sessID st op) rest

/-- What GetSession returns for what the store holds for the session. -/
def sessionAnswer (sessID : String) : Option (Time × Option String) → Sess × Option Err
  | none => (Sess.zero, some .ErrRoomNotFound)
  | some (_, none) => (Sess.zero, none)
  | some (_, some handle) => ({ ID := sessID, Handle := handle }, none)

/-- A history of the store: the room lobby is added, the session s0 of zoe is stored for
it, and a room with the id lobby is added again. -/
def exSessionLost : List StoreOp :=
  [.AddRoom { ID := "lobby", Name := "Lobby", CreatedAt := 0, Password := [112, 119] } 10,
    .AddSession "s0" "zoe" "lobby" 10,
    .AddRoom { ID := "lobby", Name := "Lobby", CreatedAt := 5, Password := [112, 119] } 10]

/-! ## Creating rooms (hub.go) -/

/-- The result of a call with the value returned changed by f. -/
def Outcome.mapValue {α β σ : Type} (f : α → β) : Outcome (α × σ) → Outcome (β × σ)
  | .ok x => .ok (f x.1, x.2)
  | .exit x => .exit (f x.1, x.2)
  | .blocked x => .blocked (f x.1, x.2)
  | .panic x => .panic (f x.1, x.2)

/-- The method Hub.initRoom; ptr is the address of the room that NewRoom allocates. The
room returned is registered under id and its loop is started; the panic is the one of
NewRoom. -/
def Hub.initRoom (w : World) (ptr : Nat) (id name : String) (password : List Nat)
    (predefined : Bool) : Outcome (Option Room × World) :=
  match NewRoom ptr id name password w.hub.cfg predefined with
  | none => .panic (none, w)
  | some r => .ok (some r, (w.setHubRooms (setKey w.hub.rooms id ptr)).emit (.goRun ptr))

/-- The for loop of Hub.generateRoomID with tries rounds to go. -/
def Hub.generateRoomIDLoop (length : Int) :
    Nat → World → Outcome ((String × Option Err) × World)
  | 0, w => .ok (("", some (.other "unable to generate unique room ID")), w)
  | tries + 1, w =>
    match GenerateGUID w length with
    | .ok ((_, some _), w1) =>
      .ok (("", some (.other "error generating room ID")),
        w1.emit (.logPrintf "error generating room ID: %v" []))
    | .ok ((id, none), w1) =>
      match w1.hub.Store.RoomExists id with
      | (_, some _) =>
        .ok (("", some (.other "error checking room ID")),
          w1.emit (.logPrintf "error checking room ID in store: %v" []))
      | (true, none) => Hub.generateRoomIDLoop length tries w1
      | (false, none) => .ok ((id, none), w1)
    | .exit x => .exit x
    | .blocked x => .blocked x
    | .panic x => .panic x

/-- The method Hub.generateRoomID: up to numTries candidates from GenerateGUID(length),
each one looked up with Store.RoomExists. -/
def Hub.generateRoomID (w : World) (length numTries : Int) :
    Outcome ((String × Option Err) × World) :=
  Hub.generateRoomIDLoop length numTries.toNat w

/-- The tail shared by Hub.AddRoom and Hub.AddPredefinedRoom: the room is written to the
store with the clock reading as CreatedAt and cfg.RoomAge as ttl, then initRoom. -/
def Hub.storeAndInit (w : World) (ptr : Nat) (id name : String) (pwdHash : List Nat)
    (predefined : Bool) : Outcome ((Option Room × Option Err) × World) :=
  match w.now.2.hub.Store.AddRoom
      { ID := id, Name := name, CreatedAt := w.now.1, Password := pwdHash }
      w.hub.cfg.RoomAge with
  | (st, some _) =>
    .ok ((none, some (.other "error creating room")),
      (w.now.2.setStore st).emit (.logPrintf "error creating room in the store: %v" []))
  | (st, none) =>
    (Hub.initRoom (w.now.2.setStore st) ptr id name pwdHash predefined).mapValue
      (fun r => (r, none))

/-- The method Hub.AddRoom. The function bcryptGenerate is bcrypt.GenerateFromPassword
(none for an error) and ptr the address of the room that is allocated. -/
def Hub.AddRoom (w : World) (bcryptGenerate : String → Nat → Option (List Nat)) (ptr : Nat)
    (name password : String) : Outcome ((Option Room × Option Err) × World) :=
  match bcryptGenerate password 8 with
  | none =>
    .ok ((none, some (.other "bcrypt")), w.emit (.logPrintf "error hashing password: %v" []))
  | some pwdHash =>
    match Hub.generateRoomID w w.hub.cfg.RoomIDLen 5 with
    | .ok ((_, some e), w1) => .ok ((none, some e), w1)
    | .ok ((id, none), w1) => Hub.storeAndInit w1 ptr id name pwdHash false
    | .exit x => .exit ((none, none), x.2)
    | .blocked x => .blocked ((none, none), x.2)
    | .panic x => .panic ((none, none), x.2)

/-- The method Hub.AddPredefinedRoom. -/
def Hub.AddPredefinedRoom (w : World) (bcryptGenerate : String → Nat → Option (List Nat))
    (ptr : Nat) (ID name password : String) :
    Outcome ((Option Room × Option Err) × World) :=
  match bcryptGenerate password 8 with
  | none =>
    .ok ((none, some (.other "bcrypt")), w.emit (.logPrintf "error hashing password: %v" []))
  | some pwdHash => Hub.storeAndInit w ptr ID name pwdHash true

/-- The id that the call number i, counted from 0, of GenerateGUID(length) after the
state w returns; none when that call fails. -/
def candidateAt (w : World) (length : Int) (i : Nat) : Option String :=
  match GenerateGUID { w with randCalls := w.randCalls + i } length with
  | .ok ((id, none), _) => some id
  | _ => none

/-- An example of bcrypt.GenerateFromPassword: the hash is the bytes of the password. -/
def exBcrypt : String → Nat → Option (List Nat) := fun pwd _ => some (pwd.toList.map Char.toNat)

/-- The example state of the late clock with a source of random bytes that spells the
id lobby at each call. -/
def exLucky : World :=
  { exLate with rand := fun _ => some (fun i => [47, 50, 37, 37, 60].getD i 0) }

/-- The state of exLucky after a run of the store sweeper: the row of the room lobby has
expired and is gone from the store, the room is still in the registry of the hub. -/
def exSwept : World := exLucky.runAllD [.storeCleanup]

/-! ## The distribution of the characters of GenerateGUID -/

/-- The byte values that the loop of GenerateGUID replaces by the character c: the v
below 256 with dictionary[v % len(dictionary)] equal to c. -/
def guidPreimages (c : Char) : List Nat :=
  (List.range 256).filter (fun v => decide (dictionaryAt (v % dictionary.length) = some c))

/-- The probability that GenerateGUID writes the character c at a position whose random
byte is uniform over the 256 byte values. -/
def guidCharProb (c : Char) : ℚ := (guidPreimages c).length / 256

/-- Every entry of the token store is under the handle it carries, as getOrCreateToken,
the one writer of the map, stores them. -/
def tokenStore.keyedByHandle (t : tokenStore) : Prop := ∀ e ∈ t.tokens, e.2.handle = e.1

/-- The example state with a token store that holds, for alice, the token value that the
next call of GenerateGUID(32) produces. -/
def exSameToken : World :=
  exWorld.setRoom
    { exRoom with
      growlTokens :=
        { tokens := [("alice", { handle := "alice", token := "07ELSZgnu18FMTahov29GNUbipw3AHOV",
                                 expires := 5000 })] } }

/-- The example state after getOrCreateToken for alice. -/
def exTokAlice : World := (getOrCreateToken exWorld "alice").state.2

/-! ## The HTTP handlers (handlers.go) -/

/-- The constant http.StatusOK. -/
def StatusOK : Nat := 200

/-- The constant http.StatusBadRequest. -/
def StatusBadRequest : Nat := 400

/-- The constant http.StatusForbidden. -/
def StatusForbidden : Nat := 403

/-- The constant http.StatusTooManyRequests. -/
def StatusTooManyRequests : Nat := 429

/-- The constant http.StatusInternalServerError. -/
def StatusInternalServerError : Nat := 500

/-- The function http.StatusText, on the codes above. -/
def StatusText (code : Nat) : String :=
  if code = 200 then "OK"
  else if code = 400 then "Bad Request"
  else if code = 403 then "Forbidden"
  else if code = 429 then "Too Many Requests"
  else if code = 500 then "Internal Server Error"
  else ""

/-- The struct fileRes of handleUpload. -/
structure fileRes where
  ID : String
  Err : String
deriving DecidableEq, Repr

/-- The values that the handlers pass as data to respondJSON: nil, true, or the map from
file name to fileRes. -/
inductive RespData where
  | null
  | bool (b : Bool)
  | files (res : List (String × fileRes))
deriving DecidableEq, Repr

/-- The struct jsonResp; Error holds the error whose text is written. -/
structure jsonResp where
  Error : Option Err
  Data : RespData
deriving DecidableEq, Repr

/-- The calls made on the http.ResponseWriter of a request, in the order they are made. -/
inductive HttpCall where
  /-- The call w.WriteHeader(statusCode). -/
  | WriteHeader (statusCode : Nat)
  /-- The call w.Header().Set(key, value). -/
  | HeaderSet (key value : String)
  /-- The call http.SetCookie(w, ck) with the name, value and path of the cookie. -/
  | SetCookie (name value path : String)
  /-- The call w.Write(b) with the encoding of the envelope. -/
  | Write (body : jsonResp)
deriving DecidableEq, Repr

/-- The status of the response that net/http sends for a list of calls: the code of the
first WriteHeader, or 200 when Write comes first. -/
def respStatus : List HttpCall → Option Nat
  | [] => none
  | .WriteHeader code :: _ => some code
  | .Write _ :: _ => some StatusOK
  | _ :: rest => respStatus rest

/-- The cookies of the response that net/http sends for a list of calls: those set before
the header is written. -/
def respCookies : List HttpCall → List (String × String × String)
  | [] => []
  | .WriteHeader _ :: _ => []
  | .Write _ :: _ => []
  | .SetCookie name value path :: rest => (name, value, path) :: respCookies rest
  | _ :: rest => respCookies rest

/-- The function respondJSON, as calls appended to those made so far. The values that the
handlers pass as data are always encoded by json.Marshal, so the branch for its error is
not taken. -/
def respondJSON (rw : List HttpCall) (data : RespData) (err : Option Err) (statusCode : Nat) :
    List HttpCall :=
  let code := if statusCode = 0 then StatusOK else statusCode
  rw ++ [.WriteHeader code, .HeaderSet "Content-Type" "application/json; charset=utf-8",
    .Write { Error := err, Data := data }]

/-- The struct reqRoom. -/
structure reqRoom where
  Name : String
  Handle : String
  Password : String
  UserPwd : String
deriving DecidableEq, Repr

/-- The handle that handleLogin passes to Room.Login: the one of the request, or, when
that is empty, the result of GenerateGUID(8). -/
def loginHandle (w : World) (req : reqRoom) : Outcome ((String × Option Err) × World) :=
  if req.Handle = "" then GenerateGUID w 8 else .ok ((req.Handle, none), w)

/-- The function handleLogin. The flag roomNil says that ctx.room is nil, otherwise it is
the room of the state; body is the request as readJSONReq decodes it, none when it
returns an error. -/
def handleLogin (w : World) (rw : List HttpCall) (roomNil : Bool) (body : Option reqRoom) :
    Outcome (List HttpCall × World) :=
  if roomNil then
    .ok (respondJSON rw .null (some (.other "room is invalid or has expired")) StatusBadRequest,
      w)
  else
    match body with
    | none =>
      .ok (respondJSON rw .null (some (.other "error parsing JSON request")) StatusBadRequest, w)
    | some req =>
      match loginHandle w req with
      | .ok ((_, some _), w1) =>
        .ok (respondJSON rw .null (some (.other "error generating uniq handle"))
            StatusInternalServerError,
          w1.emit (.logPrintf "error generating uniq handle: %v" []))
      | .ok ((handle, none), w1) =>
        match Room.Login w1 req.Password handle req.UserPwd w1.hub.cfg.RoomAge with
        | .ok ((sessID, err), w2) =>
          if err = some .ErrInvalidRoomPassword ∨ err = some .ErrInvalidUserPassword then
            .ok (respondJSON rw .null (some (.other "incorrect password")) StatusForbidden, w2)
          else
            match err with
            | some e => .ok (respondJSON rw .null (some e) StatusInternalServerError, w2)
            | none =>
              .ok (respondJSON
                  (rw ++ [.SetCookie w2.hub.cfg.SessionCookie sessID ("/r/" ++ w2.room.ID)])
                  (.bool true) none StatusOK,
                w2)
        | .exit x => .exit (rw, x.2)
        | .blocked x => .blocked (rw, x.2)
        | .panic x => .panic (rw, x.2)
      | .exit x => .exit (rw, x.2)
      | .blocked x => .blocked (rw, x.2)
      | .panic x => .panic (rw, x.2)

/-- Modelled from the spec: the upload store (package upload is not among the sources), as
far as handleUpload uses it: the limits it reads, and the files that store.Add has been
given, each with its name, type and bytes; mkID is the id that Add gives to the file
number n. -/
structure UploadStore where
  MaxUploadSize : Int
  RlPeriod : Duration
  RlCount : Int
  RlBurst : Int
  added : List (String × String × List Nat)
  mkID : Nat → String

/-- Modelled from the spec: the method Add of the upload store: the file is kept and
comes back with its id and name. -/
def UploadStore.Add (s : UploadStore) (name mimeType : String) (b : List Nat) :
    (String × String) × UploadStore :=
  ((s.mkID s.added.length, name), { s with added := s.added ++ [(name, mimeType, b)] })

/-- The struct roomLimiter of handleUpload; limiter is the address of the rate.Limiter. -/
structure roomLimiter where
  limiter : Nat
  expire : Time
deriving DecidableEq, Repr

/-- The state that the closure of handleUpload works on: the upload store, the map
roomLimiters and the clock. -/
structure UploadState where
  store : UploadStore
  roomLimiters : List (String × roomLimiter)
  /-- The readings of time.Now(), in call order. -/
  clock : Nat → Time
  /-- The number of readings taken so far. -/
  clockReads : Nat

/-- One file of the form: its name, what ioutil.ReadAll gives for it (the bytes, or the
text of the error) and what http.DetectContentType gives for the bytes. -/
structure FormFile where
  Filename : String
  content : Except String (List Nat)
  mimeType : String

/-- The result of r.FormFile for one key. -/
inductive FormFileRes where
  /-- The error http.ErrMissingFile. -/
  | missing
  /-- Another error. -/
  | failed (e : Err)
  | file (f : FormFile)

/-- An upload request: the result of r.ParseMultipartForm, the URL parameter roomID, the
result of Allow on the limiter of the room at this request, and the result of r.FormFile
for the key number i. -/
structure UploadReq where
  parseErr : Option Err
  roomID : String
  allow : Bool
  formFile : Nat → FormFileRes

/-- The first block of the closure of handleUpload, entered when the form was parsed: the
limiter of the room is looked up, made when there is none, and its expiry is set to 10
minutes after the clock reading. The division by store.RlCount panics when it is 0. -/
def touchLimiter (st : UploadState) (ptr : Nat) (roomID : String) :
    Outcome (roomLimiter × UploadState) :=
  match lookupKey st.roomLimiters roomID with
  | none =>
    if st.store.RlCount = 0 then .panic ({ limiter := ptr, expire := 0 }, st)
    else
      let x : roomLimiter :=
        { limiter := ptr, expire := timeAdd (st.clock st.clockReads) (Minute * 10) }
      let x1 : roomLimiter :=
        { x with expire := timeAdd (st.clock (st.clockReads + 1)) (Minute * 10) }
      .ok (x1, { st with
        roomLimiters := setKey (setKey st.roomLimiters roomID x) roomID x1
        clockReads := st.clockReads + 2 })
  | some x =>
    let x1 : roomLimiter := { x with expire := timeAdd (st.clock st.clockReads) (Minute * 10) }
    .ok (x1, { st with
      roomLimiters := setKey st.roomLimiters roomID x1
      clockReads := st.clockReads + 1 })

/-- The loop of handleUpload over the keys file0 to file19, from the key number i with n
rounds to go: the files found, and the error that ended the loop, if any. -/
def collectFiles (formFile : Nat → FormFileRes) : Nat → Nat → List FormFile × Option Err
  | 0, _ => ([], none)
  | n + 1, i =>
    match formFile i with
    | .missing => ([], none)
    | .failed e => ([], some e)
    | .file f => (f :: (collectFiles formFile n (i + 1)).1, (collectFiles formFile n (i + 1)).2)

/-- The test of handleUpload on the type of a file. -/
def isImage (mimeType : String) : Bool :=
  mimeType = "image/gif" || mimeType = "image/jpeg" || mimeType = "image/png"

/-- The loop of handleUpload over the files found: a file that cannot be read or is not an
image gets an error text in the result, an image is given to store.Add and gets the id
made of the id and the name that Add returns. The test on err after store.Add is never
true there, as the loop is entered with err nil. -/
def storeFiles : List FormFile → List (String × fileRes) → UploadStore →
    List (String × fileRes) × UploadStore
  | [], res, s => (res, s)
  | f :: rest, res, s =>
    match f.content with
    | .error e => storeFiles rest (setKey res f.Filename { ID := "", Err := e }) s
    | .ok b =>
      if isImage f.mimeType then
        storeFiles rest
          (setKey res f.Filename
            { ID := (s.Add f.Filename f.mimeType b).1.1 ++ "_" ++ (s.Add f.Filename f.mimeType b).1.2,
              Err := "" })
          (s.Add f.Filename f.mimeType b).2
      else storeFiles rest (setKey res f.Filename { ID := "", Err := "invalid file type" }) s

/-- The part of the closure of handleUpload after the rate limiter, with the error so
far: the files are collected and stored when there is no error, and the response is
written, with the status 200, or 400 when there is an error. -/
def uploadRespond (st : UploadState) (rw : List HttpCall) (req : UploadReq) (err : Option Err) :
    List HttpCall × UploadState :=
  match err with
  | some e => (respondJSON rw (.files []) (some e) StatusBadRequest, st)
  | none =>
    match (collectFiles req.formFile 20 0).2 with
    | some e => (respondJSON rw (.files []) (some e) StatusBadRequest, st)
    | none =>
      (respondJSON rw (.files (storeFiles (collectFiles req.formFile 20 0).1 [] st.store).1) none
          StatusOK,
        { st with store := (storeFiles (collectFiles req.formFile 20 0).1 [] st.store).2 })

/-- The closure that handleUpload returns; ptr is the address of the limiter that
rate.NewLimiter allocates when the room has none. -/
def handleUpload (st : UploadState) (ptr : Nat) (rw : List HttpCall) (req : UploadReq) :
    Outcome (List HttpCall × UploadState) :=
  match req.parseErr with
  | some e => .ok (uploadRespond st rw req (some e))
  | none =>
    match touchLimiter st ptr req.roomID with
    | .ok (_, st1) =>
      if !req.allow then
        .ok (uploadRespond st1 rw req (some (.other (StatusText StatusTooManyRequests))))
      else .ok (uploadRespond st1 rw req none)
    | .exit x => .exit (rw, x.2)
    | .blocked x => .blocked (rw, x.2)
    | .panic x => .panic (rw, x.2)

/-- An example upload store and state: no limiter yet, no file stored. -/
def exUploadState : UploadState :=
  { store :=
      { MaxUploadSize := 1000, RlPeriod := Minute, RlCount := 10, RlBurst := 1, added := [],
        mkID := fun n => String.mk (Nat.toDigits 10 n) }
    roomLimiters := []
    clock := fun n => 1000 + n
    clockReads := 0 }

/-- An example upload of one image, file0, for the room lobby; allow is the answer of the
rate limiter. -/
def exUploadReq (allow : Bool) : UploadReq :=
  { parseErr := none
    roomID := "lobby"
    allow := allow
    formFile := fun i =>
      if i = 0 then
        .file { Filename := "cat.png", content := .ok [137, 80, 78, 71], mimeType := "image/png" }
      else .missing }

/-- The example state with a source of random bytes that fails at each call. -/
def exNoRand : World := { exWorld with rand := fun _ => none }

/-! ## Theorems -/

/-! ### Projections of the elementary updates -/

@[simp] theorem emit_hub (w : World) (e : Effect) : (w.emit e).hub = w.hub := rfl
@[simp] theorem emit_room (w : World) (e : Effect) : (w.emit e).room = w.room := rfl
@[simp] theorem emit_trace (w : World) (e : Effect) : (w.emit e).trace = w.trace ++ [e] := rfl
@[simp] theorem emit_dataQClosed (w : World) (e : Effect) :
    (w.emit e).dataQClosed = w.dataQClosed := rfl
@[simp] theorem emit_clock (w : World) (e : Effect) : (w.emit e).clock = w.clock := rfl
@[simp] theorem emit_clockReads (w : World) (e : Effect) :
    (w.emit e).clockReads = w.clockReads := rfl

@[simp] theorem emitAll_hub (w : World) (es : List Effect) : (w.emitAll es).hub = w.hub := rfl
@[simp] theorem emitAll_room (w : World) (es : List Effect) : (w.emitAll es).room = w.room := rfl
@[simp] theorem emitAll_trace (w : World) (es : List Effect) :
    (w.emitAll es).trace = w.trace ++ es := rfl
@[simp] theorem emitAll_dataQClosed (w : World) (es : List Effect) :
    (w.emitAll es).dataQClosed = w.dataQClosed := rfl
@[simp] theorem emitAll_clock (w : World) (es : List Effect) : (w.emitAll es).clock = w.clock := rfl
@[simp] theorem emitAll_clockReads (w : World) (es : List Effect) :
    (w.emitAll es).clockReads = w.clockReads := rfl

@[simp] theorem setRoom_hub (w : World) (r : Room) : (w.setRoom r).hub = w.hub := rfl
@[simp] theorem setRoom_room (w : World) (r : Room) : (w.setRoom r).room = r := rfl
@[simp] theorem setRoom_trace (w : World) (r : Room) : (w.setRoom r).trace = w.trace := rfl
@[simp] theorem setRoom_dataQClosed (w : World) (r : Room) :
    (w.setRoom r).dataQClosed = w.dataQClosed := rfl
@[simp] theorem setRoom_clock (w : World) (r : Room) : (w.setRoom r).clock = w.clock := rfl
@[simp] theorem setRoom_clockReads (w : World) (r : Room) :
    (w.setRoom r).clockReads = w.clockReads := rfl

@[simp] theorem setStore_cfg (w : World) (s : InMemory) : (w.setStore s).hub.cfg = w.hub.cfg := rfl
@[simp] theorem setStore_rooms (w : World) (s : InMemory) :
    (w.setStore s).hub.rooms = w.hub.rooms := rfl
@[simp] theorem setStore_Store (w : World) (s : InMemory) : (w.setStore s).hub.Store = s := rfl
@[simp] theorem setStore_room (w : World) (s : InMemory) : (w.setStore s).room = w.room := rfl
@[simp] theorem setStore_trace (w : World) (s : InMemory) : (w.setStore s).trace = w.trace := rfl
@[simp] theorem setStore_dataQClosed (w : World) (s : InMemory) :
    (w.setStore s).dataQClosed = w.dataQClosed := rfl
@[simp] theorem setStore_clock (w : World) (s : InMemory) : (w.setStore s).clock = w.clock := rfl
@[simp] theorem setStore_clockReads (w : World) (s : InMemory) :
    (w.setStore s).clockReads = w.clockReads := rfl

@[simp] theorem setDataQClosed_hub (w : World) (l : List Peer) :
    (w.setDataQClosed l).hub = w.hub := rfl
@[simp] theorem setDataQClosed_room (w : World) (l : List Peer) :
    (w.setDataQClosed l).room = w.room := rfl
@[simp] theorem setDataQClosed_trace (w : World) (l : List Peer) :
    (w.setDataQClosed l).trace = w.trace := rfl
@[simp] theorem setDataQClosed_dataQClosed (w : World) (l : List Peer) :
    (w.setDataQClosed l).dataQClosed = l := rfl
@[simp] theorem setDataQClosed_clock (w : World) (l : List Peer) :
    (w.setDataQClosed l).clock = w.clock := rfl
@[simp] theorem setDataQClosed_clockReads (w : World) (l : List Peer) :
    (w.setDataQClosed l).clockReads = w.clockReads := rfl

@[simp] theorem setHubRooms_cfg (w : World) (l : List (String × Nat)) :
    (w.setHubRooms l).hub.cfg = w.hub.cfg := rfl
@[simp] theorem setHubRooms_rooms (w : World) (l : List (String × Nat)) :
    (w.setHubRooms l).hub.rooms = l := rfl
@[simp] theorem setHubRooms_Store (w : World) (l : List (String × Nat)) :
    (w.setHubRooms l).hub.Store = w.hub.Store := rfl
@[simp] theorem setHubRooms_room (w : World) (l : List (String × Nat)) :
    (w.setHubRooms l).room = w.room := rfl
@[simp] theorem setHubRooms_trace (w : World) (l : List (String × Nat)) :
    (w.setHubRooms l).trace = w.trace := rfl
@[simp] theorem setHubRooms_dataQClosed (w : World) (l : List (String × Nat)) :
    (w.setHubRooms l).dataQClosed = w.dataQClosed := rfl

@[simp] theorem now_fst (w : World) : w.now.1 = w.clock w.clockReads := rfl
@[simp] theorem now_hub (w : World) : w.now.2.hub = w.hub := rfl
@[simp] theorem now_room (w : World) : w.now.2.room = w.room := rfl
@[simp] theorem now_trace (w : World) : w.now.2.trace = w.trace := rfl
@[simp] theorem now_dataQClosed (w : World) : w.now.2.dataQClosed = w.dataQClosed := rfl
@[simp] theorem now_clock (w : World) : w.now.2.clock = w.clock := rfl
@[simp] theorem now_clockReads (w : World) : w.now.2.clockReads = w.clockReads + 1 := rfl

@[simp] theorem andThen_ok {σ : Type} (s : σ) (f : σ → Outcome σ) :
    (Outcome.ok s).andThen f = f s := rfl
@[simp] theorem andThen_exit {σ : Type} (s : σ) (f : σ → Outcome σ) :
    (Outcome.exit s).andThen f = .exit s := rfl
@[simp] theorem andThen_blocked {σ : Type} (s : σ) (f : σ → Outcome σ) :
    (Outcome.blocked s).andThen f = .blocked s := rfl
@[simp] theorem andThen_panic {σ : Type} (s : σ) (f : σ → Outcome σ) :
    (Outcome.panic s).andThen f = .panic s := rfl

@[simp] theorem state_ok {σ : Type} (s : σ) : (Outcome.ok s).state = s := rfl
@[simp] theorem state_exit {σ : Type} (s : σ) : (Outcome.exit s).state = s := rfl
@[simp] theorem state_blocked {σ : Type} (s : σ) : (Outcome.blocked s).state = s := rfl
@[simp] theorem state_panic {σ : Type} (s : σ) : (Outcome.panic s).state = s := rfl

theorem send_sent {α : Type} {c q : Chan α} {v : α} (h : c.send v = .sent q) :
    q = { c with buf := c.buf ++ [v] } ∧ c.closed = false ∧ c.buf.length < c.cap := by
  unfold Chan.send at h
  split at h
  · simp at h
  · split at h
    · simp at h
      subst h
      simp_all
    · simp at h

theorem recv_value {α : Type} {c q : Chan α} {v : α} (h : c.recv = .value v q) :
    c.buf = v :: q.buf ∧ q.closed = c.closed ∧ q.cap = c.cap := by
  unfold Chan.recv at h
  split at h
  · rename_i v1 rest hb
    simp at h
    obtain ⟨rfl, rfl⟩ := h
    simp [hb]
  · split at h <;> simp at h

theorem andThen_state {P : World → Prop} (o : Outcome World) (f : World → Outcome World)
    (h1 : P o.state) (h2 : ∀ s, o = .ok s → P (f s).state) : P (o.andThen f).state := by
  cases o <;> simp_all

/-! ### What the calls leave unchanged -/

@[simp] theorem fixedPart_emit (w : World) (e : Effect) : (w.emit e).fixedPart = w.fixedPart := rfl
@[simp] theorem fixedPart_emitAll (w : World) (es : List Effect) :
    (w.emitAll es).fixedPart = w.fixedPart := rfl
@[simp] theorem fixedPart_setStore (w : World) (s : InMemory) :
    (w.setStore s).fixedPart = w.fixedPart := rfl
@[simp] theorem fixedPart_setDataQClosed (w : World) (l : List Peer) :
    (w.setDataQClosed l).fixedPart = w.fixedPart := rfl
@[simp] theorem fixedPart_now (w : World) : w.now.2.fixedPart = w.fixedPart := rfl

@[simp] theorem core_emit (w : World) (e : Effect) : (w.emit e).core = w.core := rfl
@[simp] theorem core_emitAll (w : World) (es : List Effect) : (w.emitAll es).core = w.core := rfl
@[simp] theorem core_setStore (w : World) (s : InMemory) : (w.setStore s).core = w.core := rfl
@[simp] theorem core_setDataQClosed (w : World) (l : List Peer) :
    (w.setDataQClosed l).core = w.core := rfl
@[simp] theorem core_now (w : World) : w.now.2.core = w.core := rfl

@[simp] theorem makePayload_fst (w : World) (d : PayloadData) (t : String) :
    (makePayload w d t).1 =
      .marshal { Timestamp := w.clock w.clockReads, Typ := t, Data := d } := rfl
@[simp] theorem makePayload_snd (w : World) (d : PayloadData) (t : String) :
    (makePayload w d t).2 = w.now.2 := rfl
@[simp] theorem makePeerUpdatePayload_fst (w : World) (p : Peer) (t : String) :
    (makePeerUpdatePayload w p t).1 =
      .marshal { Timestamp := w.clock w.clockReads, Typ := t,
                 Data := .peer { ID := p.ID, Handle := p.Handle } } := rfl
@[simp] theorem makePeerUpdatePayload_snd (w : World) (p : Peer) (t : String) :
    (makePeerUpdatePayload w p t).2 = w.now.2 := rfl
@[simp] theorem makeMessagePayload_fst (w : World) (msg : String) (p : Peer) (t : String) :
    (makeMessagePayload w msg p t).1 =
      .marshal { Timestamp := w.clock w.clockReads, Typ := t,
                 Data := .chat { PeerID := p.ID, PeerHandle := p.Handle, Msg := msg } } := rfl
@[simp] theorem makeMessagePayload_snd (w : World) (msg : String) (p : Peer) (t : String) :
    (makeMessagePayload w msg p t).2 = w.now.2 := rfl
@[simp] theorem makeUploadPayload_fst (w : World) (data : String) (p : Peer) (t : String) :
    (makeUploadPayload w data p t).1 =
      .marshal { Timestamp := w.clock w.clockReads, Typ := t,
                 Data := .upload { PeerID := p.ID, PeerHandle := p.Handle, Data := data } } := rfl
@[simp] theorem makeUploadPayload_snd (w : World) (data : String) (p : Peer) (t : String) :
    (makeUploadPayload w data p t).2 = w.now.2 := rfl
@[simp] theorem makePeerListPayload_snd (w : World) : (makePeerListPayload w).2 = w.now.2 := rfl

theorem andThen_eq_ok {o : Outcome World} {f : World → Outcome World} {w1 : World}
    (h : o.andThen f = .ok w1) : ∃ s, o = .ok s ∧ f s = .ok w1 := by
  cases o <;> simp_all

theorem andThen_emit_fixed (o : Outcome World) (g : World → Effect) :
    (o.andThen fun s => .ok (s.emit (g s))).state.fixedPart = o.state.fixedPart := by
  cases o <;> rfl

theorem andThen_emit_room (o : Outcome World) (g : World → Effect) :
    (o.andThen fun s => .ok (s.emit (g s))).state.room = o.state.room := by
  cases o <;> rfl

theorem andThen_emit_hub (o : Outcome World) (g : World → Effect) :
    (o.andThen fun s => .ok (s.emit (g s))).state.hub = o.state.hub := by
  cases o <;> rfl

theorem andThen_emit_dataQClosed (o : Outcome World) (g : World → Effect) :
    (o.andThen fun s => .ok (s.emit (g s))).state.dataQClosed = o.state.dataQClosed := by
  cases o <;> rfl

theorem core_fixed {w w1 : World} (h : w1.core = w.core) : w1.fixedPart = w.fixedPart :=
  congrArg Prod.fst h

theorem core_peers {w w1 : World} (h : w1.core = w.core) : w1.room.peers = w.room.peers :=
  congrArg (fun c => c.2.1) h

theorem core_cache {w w1 : World} (h : w1.core = w.core) :
    w1.room.payloadCache = w.room.payloadCache :=
  congrArg (fun c => c.2.2) h

theorem fixed_cfg {w w1 : World} (h : w1.fixedPart = w.fixedPart) : w1.hub.cfg = w.hub.cfg :=
  congrArg (fun c => c.1) h

theorem recordMsgPayload_fixed (w : World) (b : Bytes) :
    (Room.recordMsgPayload w b).state.fixedPart = w.fixedPart := by
  unfold Room.recordMsgPayload
  split <;> simp [World.fixedPart]

theorem recordMsgPayload_peers (w : World) (b : Bytes) :
    (Room.recordMsgPayload w b).state.room.peers = w.room.peers := by
  unfold Room.recordMsgPayload
  split <;> simp

theorem Broadcast_fixed (w : World) (d : Bytes) (r : Bool) :
    (Room.Broadcast w d r).state.fixedPart = w.fixedPart := by
  unfold Room.Broadcast
  split
  · rfl
  · rfl
  · rename_i q hq
    obtain ⟨rfl, _, _⟩ := send_sent hq
    split
    · rw [recordMsgPayload_fixed]; rfl
    · rfl

theorem Broadcast_peers (w : World) (d : Bytes) (r : Bool) :
    (Room.Broadcast w d r).state.room.peers = w.room.peers := by
  unfold Room.Broadcast
  split
  · rfl
  · rfl
  · split
    · rw [recordMsgPayload_peers]; rfl
    · rfl

theorem Broadcast_false_core (w : World) (d : Bytes) :
    (Room.Broadcast w d false).state.core = w.core := by
  unfold Room.Broadcast
  split
  · rfl
  · rfl
  · rename_i q hq
    obtain ⟨rfl, _, _⟩ := send_sent hq
    rfl

@[simp] theorem randRead_core (w : World) (n : Nat) : (w.randRead n).2.core = w.core := rfl

theorem GenerateGUID_core (w : World) (n : Int) : (GenerateGUID w n).state.2.core = w.core := by
  unfold GenerateGUID
  split
  · rfl
  · split
    · rfl
    · split <;> rfl

theorem createToken_core (w : World) (handle : String) :
    (createToken w handle).state.2.core = w.core := by
  have hg := GenerateGUID_core w 32
  unfold createToken
  split <;> rename_i heq <;> rw [heq] at hg <;> simp at hg <;> rw [← hg] <;> rfl

theorem getOrCreateToken_core (w : World) (handle : String) :
    (getOrCreateToken w handle).state.2.core = w.core := by
  unfold getOrCreateToken
  split
  · exact createToken_core w handle
  · split
    · rfl
    · rw [createToken_core]; rfl

theorem checkTokenLoop_core (tokvalue : String) (l : List (String × loginToken)) :
    ∀ w : World, (checkTokenLoop tokvalue l w).2.core = w.core := by
  induction l with
  | nil => intro w; rfl
  | cons e rest ih =>
    intro w
    obtain ⟨k, tok⟩ := e
    simp only [checkTokenLoop]
    split
    · split
      · rfl
      · rw [ih]; rfl
    · exact ih w

theorem checkToken_core (w : World) (tokvalue : String) : (checkToken w tokvalue).2.core = w.core :=
  checkTokenLoop_core tokvalue _ w

theorem dropValue_state {α : Type} (o : Outcome (α × World)) :
    o.dropValue.state = o.state.2 := by
  cases o <;> rfl

theorem dropValue_eq_ok {α : Type} {o : Outcome (α × World)} {w1 : World}
    (h : o.dropValue = .ok w1) : o.state.2 = w1 := by
  cases o <;> simp_all [Outcome.dropValue]

theorem runOp_core (w : World) (c : OpClosure) : (runOp w c).state.core = w.core := by
  cases c with
  | connected h => rfl
  | growl msg fromPeer to_ =>
    simp only [runOp]
    split
    · rfl
    · have hg := getOrCreateToken_core w to_
      split <;> rename_i heq <;> rw [heq] at hg <;> simpa using hg

theorem handleForward_core (w : World) (fw : forwardReq) :
    (handleForward w fw).state.core = w.core := by
  unfold handleForward
  split <;> rfl

theorem handlePeerList_core (w : World) (p : Peer) : (handlePeerList w p).state.core = w.core :=
  rfl

theorem handleBroadcast_core (w : World) (m : Bytes) :
    (handleBroadcast w m).state.core = w.core := by
  unfold handleBroadcast
  simp only []
  split
  · split <;> rfl
  · rfl

theorem queuePeerReq_core (w : World) (t : String) (p : Peer) :
    (Room.queuePeerReq w t p).state.core = w.core := by
  unfold Room.queuePeerReq
  split
  · rfl
  · split
    · rfl
    · rfl
    · rename_i q hq
      obtain ⟨rfl, _, _⟩ := send_sent hq
      rfl

theorem sendPeerList_core (w : World) (p : Peer) : (Room.sendPeerList w p).state.core = w.core := by
  unfold Room.sendPeerList
  split
  · rfl
  · rfl
  · rename_i q hq
    obtain ⟨rfl, _, _⟩ := send_sent hq
    rfl

theorem forwardTo_core (w : World) (typ to_ data : String) :
    (Room.forwardTo w typ to_ data).state.core = w.core := by
  unfold Room.forwardTo
  split
  · rfl
  · rfl
  · rename_i q hq
    obtain ⟨rfl, _, _⟩ := send_sent hq
    rfl

theorem Login_core (w : World) (roomPwd handle handlePwd : String) (roomAge : Duration) :
    (Room.Login w roomPwd handle handlePwd roomAge).state.2.core = w.core := by
  unfold Room.Login
  split
  · rfl
  · split
    · rfl
    · split
      · rfl
      · split
        · rfl
        · have hg := GenerateGUID_core w 32
          split <;> rename_i heq <;> rw [heq] at hg <;> simp at hg
          · simpa using hg
          · split <;> simpa using hg
          · exact hg
          · exact hg
          · exact hg

theorem cacheOK_of_core {w w1 : World} (h : w1.core = w.core) (hc : w.cacheOK) : w1.cacheOK := by
  unfold World.cacheOK at *
  rw [core_cache h, fixed_cfg (core_fixed h)]
  exact hc

theorem LoginWithToken_core (w : World) (token : String) (roomAge : Duration) :
    (Room.LoginWithToken w token roomAge).state.2.core = w.core := by
  have hck := checkToken_core w token
  unfold Room.LoginWithToken
  simp only []
  split
  · exact hck
  · split
    · exact hck
    · split
      · exact hck
      · have hg := GenerateGUID_core (checkToken w token).2 32
        rw [hck] at hg
        split <;> rename_i heq <;> rw [heq] at hg <;> simp at hg
        · simpa using hg
        · split <;> simpa using hg
        · exact hg
        · exact hg
        · exact hg

theorem recordMsgPayload_cacheOK {w w1 : World} {b : Bytes}
    (h : Room.recordMsgPayload w b = .ok w1) (hc : w.cacheOK) : w1.cacheOK := by
  unfold Room.recordMsgPayload at h
  split at h
  · simp at h
  · rename_i cache hrec
    simp only [Outcome.ok.injEq] at h
    subst h
    intro hle
    simp only [setRoom_hub] at hle
    simp only [setRoom_room]
    have hnil := hc hle
    rw [hnil] at hrec
    unfold recordPayload at hrec
    split at hrec
    · simpa using hrec.symm
    · split at hrec
      · simp at hrec
      · rename_i h1 h2
        simp at h2
        omega

theorem Broadcast_cacheOK {w w1 : World} {d : Bytes} {r : Bool}
    (h : Room.Broadcast w d r = .ok w1) (hc : w.cacheOK) : w1.cacheOK := by
  unfold Room.Broadcast at h
  split at h
  · simp at h
  · simp at h
  · have hc1 : (w.setRoom { w.room with broadcastQ := ‹Chan Bytes› }).cacheOK := hc
    split at h
    · exact recordMsgPayload_cacheOK h hc1
    · simp only [Outcome.ok.injEq] at h
      subst h
      exact hc1

@[simp] theorem greetPeer_room (w : World) (p : Peer) : (greetPeer w p).room = w.room := by
  unfold greetPeer
  simp only []
  split <;> split <;> rfl

@[simp] theorem greetPeer_hub (w : World) (p : Peer) : (greetPeer w p).hub = w.hub := by
  unfold greetPeer
  simp only []
  split <;> split <;> rfl

@[simp] theorem greetPeer_dataQClosed (w : World) (p : Peer) :
    (greetPeer w p).dataQClosed = w.dataQClosed := by
  unfold greetPeer
  simp only []
  split <;> split <;> rfl

@[simp] theorem greetPeer_core (w : World) (p : Peer) : (greetPeer w p).core = w.core := by
  simp [World.core, World.fixedPart]

@[simp] theorem greetPeer_fixed (w : World) (p : Peer) :
    (greetPeer w p).fixedPart = w.fixedPart := by
  simp [World.fixedPart]

theorem handlePeerJoin_fixed (w : World) (p : Peer) :
    (handlePeerJoin w p).state.fixedPart = w.fixedPart := by
  unfold handlePeerJoin
  split
  · rfl
  · simp only [andThen_emit_fixed, Broadcast_fixed, makePeerUpdatePayload_snd, fixedPart_now,
      greetPeer_fixed, fixedPart_emit]
    rfl

theorem handlePeerJoin_peers (w : World) (p : Peer) :
    ((handlePeerJoin w p).state.room.peers = w.room.peers ∧
        (w.room.peers.length : Int) ≥ w.hub.cfg.MaxPeersPerRoom) ∨
      ((handlePeerJoin w p).state.room.peers = insertPeer w.room.peers p ∧
        (w.room.peers.length : Int) < w.hub.cfg.MaxPeersPerRoom) := by
  unfold handlePeerJoin
  split
  · rename_i h
    exact Or.inl ⟨rfl, h⟩
  · rename_i h
    refine Or.inr ⟨?_, by omega⟩
    simp only [andThen_emit_room, Broadcast_peers, makePeerUpdatePayload_snd, now_room,
      greetPeer_room, emit_room, setRoom_room]

theorem handlePeerJoin_cacheOK {w w1 : World} {p : Peer}
    (h : handlePeerJoin w p = .ok w1) (hc : w.cacheOK) : w1.cacheOK := by
  unfold handlePeerJoin at h
  split at h
  · simp only [Outcome.ok.injEq] at h
    subst h
    exact hc
  · simp only [] at h
    obtain ⟨s, hs, hf⟩ := andThen_eq_ok h
    simp only [Outcome.ok.injEq] at hf
    subst hf
    have := Broadcast_cacheOK hs (by
      unfold World.cacheOK
      simp only [makePeerUpdatePayload_snd, now_hub, now_room, greetPeer_hub, greetPeer_room,
        emit_hub, emit_room, setRoom_hub, setRoom_room]
      exact hc)
    exact this

theorem removePeer_fixed (w : World) (p : Peer) :
    (Room.removePeer w p).state.fixedPart = w.fixedPart := by
  unfold Room.removePeer
  split <;> rfl

theorem handlePeerLeave_fixed (w : World) (p : Peer) :
    (handlePeerLeave w p).state.fixedPart = w.fixedPart := by
  unfold handlePeerLeave
  apply andThen_state (P := fun s => s.fixedPart = w.fixedPart)
  · exact removePeer_fixed w p
  · intro s hs
    have h := removePeer_fixed w p
    rw [hs] at h
    simp only [andThen_emit_fixed, Broadcast_fixed, makePeerUpdatePayload_snd, fixedPart_now]
    exact h

theorem handlePeerLeave_peers (w : World) (p : Peer) :
    (handlePeerLeave w p).state.room.peers = w.room.peers ∨
      (handlePeerLeave w p).state.room.peers = deletePeer w.room.peers p := by
  unfold handlePeerLeave Room.removePeer
  split
  · left; rfl
  · right
    simp only [andThen_ok, andThen_emit_room, Broadcast_peers, makePeerUpdatePayload_snd, now_room,
      setRoom_room, setDataQClosed_room]

theorem handlePeerLeave_cacheOK {w w1 : World} {p : Peer}
    (h : handlePeerLeave w p = .ok w1) (hc : w.cacheOK) : w1.cacheOK := by
  unfold handlePeerLeave Room.removePeer at h
  split at h
  · simp at h
  · simp only [andThen_ok] at h
    obtain ⟨s, hs, hf⟩ := andThen_eq_ok h
    simp only [Outcome.ok.injEq] at hf
    subst hf
    have := Broadcast_cacheOK hs (by
      unfold World.cacheOK
      simp only [makePeerUpdatePayload_snd, now_hub, now_room, setRoom_hub, setRoom_room,
        setDataQClosed_hub, setDataQClosed_room]
      exact hc)
    exact this

theorem removeLoop_spec (ps : List Peer) :
    ∀ w : World,
      (removeLoop ps w).room
          = { w.room with peers := w.room.peers.filter (fun q => decide (q ∉ ps)) } ∧
        (removeLoop ps w).hub = w.hub ∧
        (removeLoop ps w).dataQClosed = w.dataQClosed ∧
        (removeLoop ps w).trace
          = w.trace ++ ps.map (fun p => Effect.writeWSControl p TypeRoomDispose) := by
  induction ps with
  | nil =>
    intro w
    simp [removeLoop]
  | cons p ps ih =>
    intro w
    simp only [removeLoop]
    obtain ⟨h1, h2, h3, h4⟩ := ih ((w.emit (.writeWSControl p TypeRoomDispose)).setRoom
      { (w.emit (.writeWSControl p TypeRoomDispose)).room with
        peers := deletePeer (w.emit (.writeWSControl p TypeRoomDispose)).room.peers p })
    refine ⟨?_, ?_, ?_, ?_⟩
    · rw [h1]
      simp only [setRoom_room, emit_room, deletePeer, List.filter_filter]
      congr 1
      apply List.filter_congr
      intro q _
      simp only [List.mem_cons, not_or, ne_eq, decide_not, Bool.decide_and, Bool.and_comm]
    · rw [h2]; rfl
    · rw [h3]; rfl
    · rw [h4]
      simp

theorem removeLoop_peers (w : World) : (removeLoop w.room.peers w).room.peers = [] := by
  rw [(removeLoop_spec w.room.peers w).1]
  simp

theorem remove_state (w : World) :
    (Room.remove w).state.room.peers = [] ∧ (Room.remove w).state.hub.cfg = w.hub.cfg := by
  have hp := removeLoop_peers (w.setRoom { w.room with closed := true })
  have hh := (removeLoop_spec (w.setRoom { w.room with closed := true }).room.peers
    (w.setRoom { w.room with closed := true })).2.1
  simp only [setRoom_room, setRoom_hub] at hp hh
  unfold Room.remove
  simp only [setRoom_room]
  split
  · exact ⟨hp, by rw [state_panic, hh]⟩
  · split
    · exact ⟨hp, by rw [state_panic, setRoom_hub, hh]⟩
    · split
      · exact ⟨hp, by rw [state_panic, setRoom_hub, setRoom_hub, hh]⟩
      · simp only [state_ok, Hub.removeRoom, InMemory.RemoveRoom, setHubRooms_room, setStore_room,
          setRoom_room, setStore_cfg, setHubRooms_cfg, setRoom_hub, hh]
        exact ⟨hp, trivial⟩

theorem exitLoop_state (w : World) :
    (Room.exitLoop w).state.room.peers = [] ∧ (Room.exitLoop w).state.hub.cfg = w.hub.cfg := by
  have h := remove_state (w.emit (.logPrintf "stopped room: %v" [w.room.ID]))
  unfold Room.exitLoop
  split <;> rename_i heq <;> rw [heq] at h <;> exact h

theorem exitLoop_ne_ok (w w1 : World) : Room.exitLoop w ≠ .ok w1 := by
  unfold Room.exitLoop
  split <;> simp

theorem peersStep_inv {limit : Int} {old new : List Peer} (h : peersStep limit old new)
    (hnd : old.Nodup) (hlen : (old.length : Int) ≤ limit) (h0 : 0 ≤ limit) :
    new.Nodup ∧ (new.length : Int) ≤ limit := by
  rcases h with rfl | ⟨p, rfl, hlt⟩ | ⟨p, rfl⟩ | rfl
  · exact ⟨hnd, hlen⟩
  · unfold insertPeer
    split
    · exact ⟨hnd, hlen⟩
    · rename_i hp
      refine ⟨?_, ?_⟩
      · rw [List.nodup_append]
        refine ⟨hnd, List.nodup_singleton p, ?_⟩
        intro a ha hb
        simp only [List.mem_singleton] at hb
        subst hb
        exact hp ha
      · simp only [List.length_append, List.length_singleton]
        omega
  · unfold deletePeer
    refine ⟨hnd.filter _, ?_⟩
    have := List.length_filter_le (fun q => decide (q ≠ p)) old
    omega
  · exact ⟨List.nodup_nil, by simpa using h0⟩

theorem peersStep_of_core {limit : Int} {w w1 : World} (h : w1.core = w.core) :
    peersStep limit w.room.peers w1.room.peers :=
  Or.inl (core_peers h)

theorem handlePeerReq_peers (w : World) (req : peerReq) :
    peersStep w.hub.cfg.MaxPeersPerRoom w.room.peers (handlePeerReq w req).state.room.peers := by
  unfold handlePeerReq
  split
  · rcases handlePeerJoin_peers w req.peer with ⟨h, _⟩ | ⟨h, hlt⟩
    · exact Or.inl h
    · exact Or.inr (Or.inl ⟨req.peer, h, hlt⟩)
  · split
    · rcases handlePeerLeave_peers w req.peer with h | h
      · exact Or.inl h
      · exact Or.inr (Or.inr (Or.inl ⟨req.peer, h⟩))
    · split
      · exact peersStep_of_core (handlePeerList_core w req.peer)
      · exact Or.inl rfl

theorem handlePeerReq_fixed (w : World) (req : peerReq) :
    (handlePeerReq w req).state.fixedPart = w.fixedPart := by
  unfold handlePeerReq
  split
  · exact handlePeerJoin_fixed w req.peer
  · split
    · exact handlePeerLeave_fixed w req.peer
    · split
      · exact core_fixed (handlePeerList_core w req.peer)
      · rfl

theorem handlePeerReq_cacheOK {w w1 : World} {req : peerReq}
    (h : handlePeerReq w req = .ok w1) (hc : w.cacheOK) : w1.cacheOK := by
  unfold handlePeerReq at h
  split at h
  · exact handlePeerJoin_cacheOK h hc
  · split at h
    · exact handlePeerLeave_cacheOK h hc
    · split at h
      · have := handlePeerList_core w req.peer
        rw [h] at this
        exact cacheOK_of_core this hc
      · simp only [Outcome.ok.injEq] at h
        subst h
        exact hc

theorem recv_forwardQ_core {w : World} {fw : forwardReq} {q : Chan forwardReq}
    (h : w.room.forwardQ.recv = .value fw q) :
    (w.setRoom { w.room with forwardQ := q }).core = w.core := by
  simp [World.core, World.fixedPart, (recv_value h).2.1]

theorem recv_peerQ_core {w : World} {req : peerReq} {q : Chan peerReq}
    (h : w.room.peerQ.recv = .value req q) :
    (w.setRoom { w.room with peerQ := q }).core = w.core := by
  simp [World.core, World.fixedPart, (recv_value h).2.1]

theorem recv_broadcastQ_core {w : World} {m : Bytes} {q : Chan Bytes}
    (h : w.room.broadcastQ.recv = .value m q) :
    (w.setRoom { w.room with broadcastQ := q }).core = w.core := by
  simp [World.core, World.fixedPart, (recv_value h).2.1]

theorem exitLoop_peersStep (limit : Int) (w w0 : World) :
    peersStep limit w0.room.peers (Room.exitLoop w).state.room.peers :=
  Or.inr (Or.inr (Or.inr (exitLoop_state w).1))

theorem run_peers {w : World} {c : SelectCase} {o : Outcome World} (h : Room.run w c = some o) :
    peersStep w.hub.cfg.MaxPeersPerRoom w.room.peers o.state.room.peers ∧
      o.state.hub.cfg = w.hub.cfg := by
  cases c with
  | op cl =>
    simp only [Room.run] at h
    split at h
    · simp only [Option.some.injEq] at h
      subst h
      exact ⟨peersStep_of_core (runOp_core w cl), fixed_cfg (core_fixed (runOp_core w cl))⟩
    · simp at h
  | disposeSig =>
    simp only [Room.run] at h
    split at h
    · simp only [Option.some.injEq] at h
      subst h
      exact ⟨Or.inl rfl, rfl⟩
    · simp only [Option.some.injEq] at h
      subst h
      exact ⟨exitLoop_peersStep _ _ _, (exitLoop_state _).2⟩
  | forwardQ =>
    simp only [Room.run] at h
    split at h
    · simp at h
    · simp only [Option.some.injEq] at h
      subst h
      exact ⟨exitLoop_peersStep _ _ _, (exitLoop_state _).2⟩
    · rename_i fw q hq
      simp only [Option.some.injEq] at h
      subst h
      have hc := (handleForward_core (w.setRoom { w.room with forwardQ := q }) fw).trans
        (recv_forwardQ_core hq)
      exact ⟨peersStep_of_core hc, fixed_cfg (core_fixed hc)⟩
  | peerQ =>
    simp only [Room.run] at h
    split at h
    · simp at h
    · simp only [Option.some.injEq] at h
      subst h
      exact ⟨exitLoop_peersStep _ _ _, (exitLoop_state _).2⟩
    · rename_i req q hq
      simp only [Option.some.injEq] at h
      subst h
      have hp := handlePeerReq_peers (w.setRoom { w.room with peerQ := q }) req
      have hf := handlePeerReq_fixed (w.setRoom { w.room with peerQ := q }) req
      exact ⟨hp, fixed_cfg (hf.trans (core_fixed (recv_peerQ_core hq)))⟩
  | broadcastQ =>
    simp only [Room.run] at h
    split at h
    · simp at h
    · simp only [Option.some.injEq] at h
      subst h
      exact ⟨exitLoop_peersStep _ _ _, (exitLoop_state _).2⟩
    · rename_i m q hq
      simp only [Option.some.injEq] at h
      subst h
      have hc := (handleBroadcast_core (w.setRoom { w.room with broadcastQ := q }) m).trans
        (recv_broadcastQ_core hq)
      exact ⟨peersStep_of_core hc, fixed_cfg (core_fixed hc)⟩
  | timeAfter =>
    simp only [Room.run] at h
    split at h
    · simp only [Option.some.injEq] at h
      subst h
      exact ⟨exitLoop_peersStep _ _ _, (exitLoop_state _).2⟩
    · simp at h

theorem run_ok {w w1 : World} {c : SelectCase} (h : Room.run w c = some (.ok w1)) :
    w1.fixedPart = w.fixedPart ∧ (w.cacheOK → w1.cacheOK) := by
  cases c with
  | op cl =>
    simp only [Room.run] at h
    split at h
    · simp only [Option.some.injEq] at h
      have hc := runOp_core w cl
      rw [h] at hc
      exact ⟨core_fixed hc, cacheOK_of_core hc⟩
    · simp at h
  | disposeSig =>
    simp only [Room.run] at h
    split at h
    · simp only [Option.some.injEq, Outcome.ok.injEq] at h
      subst h
      exact ⟨rfl, id⟩
    · simp only [Option.some.injEq] at h
      exact absurd h (exitLoop_ne_ok _ _)
  | forwardQ =>
    simp only [Room.run] at h
    split at h
    · simp at h
    · simp only [Option.some.injEq] at h
      exact absurd h (exitLoop_ne_ok _ _)
    · rename_i fw q hq
      simp only [Option.some.injEq] at h
      have hc := (handleForward_core (w.setRoom { w.room with forwardQ := q }) fw).trans
        (recv_forwardQ_core hq)
      rw [h] at hc
      exact ⟨core_fixed hc, cacheOK_of_core hc⟩
  | peerQ =>
    simp only [Room.run] at h
    split at h
    · simp at h
    · simp only [Option.some.injEq] at h
      exact absurd h (exitLoop_ne_ok _ _)
    · rename_i req q hq
      simp only [Option.some.injEq] at h
      have hf := handlePeerReq_fixed (w.setRoom { w.room with peerQ := q }) req
      rw [h] at hf
      refine ⟨hf.trans (core_fixed (recv_peerQ_core hq)), fun hc => ?_⟩
      exact handlePeerReq_cacheOK h (cacheOK_of_core (recv_peerQ_core hq) hc)
  | broadcastQ =>
    simp only [Room.run] at h
    split at h
    · simp at h
    · simp only [Option.some.injEq] at h
      exact absurd h (exitLoop_ne_ok _ _)
    · rename_i m q hq
      simp only [Option.some.injEq] at h
      have hc := (handleBroadcast_core (w.setRoom { w.room with broadcastQ := q }) m).trans
        (recv_broadcastQ_core hq)
      rw [h] at hc
      exact ⟨core_fixed hc, cacheOK_of_core hc⟩
  | timeAfter =>
    simp only [Room.run] at h
    split at h
    · simp only [Option.some.injEq] at h
      exact absurd h (exitLoop_ne_ok _ _)
    · simp at h

theorem act_peers {w : World} {a : Action} {o : Outcome World} (h : w.act a = some o) :
    peersStep w.hub.cfg.MaxPeersPerRoom w.room.peers o.state.room.peers ∧
      o.state.hub.cfg = w.hub.cfg := by
  have key : ∀ o1 : Outcome World, o1.state.core = w.core → some o1 = some o →
      peersStep w.hub.cfg.MaxPeersPerRoom w.room.peers o.state.room.peers ∧
        o.state.hub.cfg = w.hub.cfg := by
    intro o1 hc ho
    simp only [Option.some.injEq] at ho
    subst ho
    exact ⟨peersStep_of_core hc, fixed_cfg (core_fixed hc)⟩
  cases a with
  | loop c => exact run_peers h
  | AddPeer ptr id handle => exact key _ (queuePeerReq_core w _ _) h
  | queuePeerReq t p => exact key _ (queuePeerReq_core w _ _) h
  | sendPeerList p => exact key _ (sendPeerList_core w p) h
  | forwardTo typ to_ data => exact key _ (forwardTo_core w typ to_ data) h
  | broadcastSend d => exact key _ (Broadcast_false_core w d) h
  | broadcastRecord d =>
    simp only [World.act, Option.some.injEq] at h
    subst h
    exact ⟨Or.inl (recordMsgPayload_peers w d), fixed_cfg (recordMsgPayload_fixed w d)⟩
  | Login roomPwd handle handlePwd roomAge =>
    refine key _ ?_ h
    rw [dropValue_state]
    exact Login_core w roomPwd handle handlePwd roomAge
  | LoginWithToken token roomAge =>
    refine key _ ?_ h
    rw [dropValue_state]
    exact LoginWithToken_core w token roomAge
  | Logout sessID =>
    exact key (.ok (w.setStore (w.hub.Store.RemoveSession sessID w.room.ID).1)) rfl h
  | storeCleanup =>
    exact key (.ok (w.now.2.setStore (w.now.2.hub.Store.cleanup w.now.1))) rfl h

theorem act_ok {w w1 : World} {a : Action} (h : w.act a = some (.ok w1)) :
    w1.fixedPart = w.fixedPart ∧ (w.cacheOK → w1.cacheOK) := by
  have key : ∀ o1 : Outcome World, o1.state.core = w.core → some o1 = some (.ok w1) →
      w1.fixedPart = w.fixedPart ∧ (w.cacheOK → w1.cacheOK) := by
    intro o1 hc ho
    simp only [Option.some.injEq] at ho
    subst ho
    exact ⟨core_fixed hc, cacheOK_of_core hc⟩
  cases a with
  | loop c => exact run_ok h
  | AddPeer ptr id handle => exact key _ (queuePeerReq_core w _ _) h
  | queuePeerReq t p => exact key _ (queuePeerReq_core w _ _) h
  | sendPeerList p => exact key _ (sendPeerList_core w p) h
  | forwardTo typ to_ data => exact key _ (forwardTo_core w typ to_ data) h
  | broadcastSend d => exact key _ (Broadcast_false_core w d) h
  | broadcastRecord d =>
    simp only [World.act, Option.some.injEq] at h
    have hf := recordMsgPayload_fixed w d
    rw [h] at hf
    exact ⟨hf, recordMsgPayload_cacheOK h⟩
  | Login roomPwd handle handlePwd roomAge =>
    refine key _ ?_ h
    rw [dropValue_state]
    exact Login_core w roomPwd handle handlePwd roomAge
  | LoginWithToken token roomAge =>
    refine key _ ?_ h
    rw [dropValue_state]
    exact LoginWithToken_core w token roomAge
  | Logout sessID =>
    exact key (.ok (w.setStore (w.hub.Store.RemoveSession sessID w.room.ID).1)) rfl h
  | storeCleanup =>
    exact key (.ok (w.now.2.setStore (w.now.2.hub.Store.cleanup w.now.1))) rfl h

theorem reach_fixed {w0 w : World} (hr : Reach w0 w) : w.fixedPart = w0.fixedPart := by
  induction hr with
  | init => rfl
  | step a _ hact ih => exact (act_ok hact).1.trans ih

theorem reach_cacheOK {w0 w : World} (hr : Reach w0 w) (h0 : w0.cacheOK) : w.cacheOK := by
  induction hr with
  | init => exact h0
  | step a _ hact ih => exact (act_ok hact).2 ih

theorem reach_peers {w0 w : World} (hr : Reach w0 w) (hnd : w0.room.peers.Nodup)
    (hlen : (w0.room.peers.length : Int) ≤ w0.hub.cfg.MaxPeersPerRoom)
    (h0 : 0 ≤ w0.hub.cfg.MaxPeersPerRoom) :
    w.room.peers.Nodup ∧ (w.room.peers.length : Int) ≤ w0.hub.cfg.MaxPeersPerRoom := by
  induction hr with
  | init => exact ⟨hnd, hlen⟩
  | step a hr1 hact ih =>
    have hcfg := fixed_cfg (reach_fixed hr1)
    have hs := (act_peers hact).1
    rw [hcfg] at hs
    exact peersStep_inv hs ih.1 ih.2 h0

theorem reach_runAll {w0 : World} (as : List Action) :
    ∀ {w w1 : World}, Reach w0 w → w.runAll as = some w1 → Reach w0 w1 := by
  induction as with
  | nil =>
    intro w w1 hr h
    simp only [World.runAll, Option.some.injEq] at h
    subst h
    exact hr
  | cons a rest ih =>
    intro w w1 hr h
    simp only [World.runAll] at h
    split at h
    · rename_i w2 hact
      exact ih (Reach.step a hr hact) h
    · simp at h

theorem reach_runAllD (w0 : World) (as : List Action) : Reach w0 (w0.runAllD as) := by
  unfold World.runAllD
  cases h : w0.runAll as with
  | none => exact Reach.init
  | some w1 => exact reach_runAll as Reach.init h

theorem run_join_full (w : World) (p : Peer) (rest : List peerReq)
    (hq : w.room.peerQ.buf = { reqType := TypePeerJoin, peer := p } :: rest)
    (hfull : (w.room.peers.length : Int) ≥ w.hub.cfg.MaxPeersPerRoom) :
    ∃ w1, Room.run w .peerQ = some (.ok w1) ∧ w1.room.peers = w.room.peers := by
  simp only [Room.run, Chan.recv, hq, handlePeerReq, handlePeerJoin, setRoom_room, setRoom_hub,
    if_true, hfull]
  exact ⟨_, rfl, rfl⟩

/-! ### The backlog -/
theorem drop_drop_append (l bs : List Bytes) (k : Nat) :
    List.drop ((List.drop (l.length - k) l ++ bs).length - k) (List.drop (l.length - k) l ++ bs)
      = List.drop ((l ++ bs).length - k) (l ++ bs) := by
  have hd : l.length - k ≤ l.length := Nat.sub_le _ _
  rw [← List.drop_append_of_le_length hd, List.drop_drop]
  congr 1
  simp only [List.length_drop, List.length_append]
  omega

theorem recordPayload_pos (k : Nat) (hk : 0 < k) (cache : List Bytes) (b : Bytes)
    (hlen : cache.length ≤ k) :
    recordPayload (k : Int) cache b = some ((cache ++ [b]).drop ((cache ++ [b]).length - k)) := by
  unfold recordPayload
  have h0 : ¬ ((k : Int) = 0) := by omega
  rw [if_neg h0]
  by_cases hfull : (cache.length : Int) ≥ (k : Int)
  · rw [if_pos hfull]
    have hk' : cache.length = k := by omega
    cases cache with
    | nil => simp at hk'; omega
    | cons x rest =>
      simp only [List.length_cons] at hk'
      have : ((x :: rest) ++ [b]).length - k = 1 := by
        simp only [List.length_cons, List.length_append, List.length_nil]; omega
      rw [this]
      simp
  · rw [if_neg hfull]
    have : (cache ++ [b]).length - k = 0 := by
      simp only [List.length_cons, List.length_append, List.length_nil]; omega
    rw [this]
    simp

theorem recordMsgPayloads_pos (k : Nat) (hk : 0 < k) (bs : List Bytes) :
    ∀ w : World, w.hub.cfg.MaxCachedMessages = (k : Int) → w.room.payloadCache.length ≤ k →
      recordMsgPayloads w bs = .ok (w.setRoom { w.room with
        payloadCache := (w.room.payloadCache ++ bs).drop ((w.room.payloadCache ++ bs).length - k) }) := by
  induction bs with
  | nil =>
    intro w _ hlen
    have : (w.room.payloadCache ++ []).length - k = 0 := by simp; omega
    rw [this]
    simp [recordMsgPayloads]
    rfl
  | cons b bs ih =>
    intro w hc hlen
    simp only [recordMsgPayloads, Room.recordMsgPayload, hc, recordPayload_pos k hk _ b hlen, andThen_ok]
    rw [ih]
    · simp only [setRoom_room, setRoom_hub]
      rw [drop_drop_append]
      simp [World.setRoom]
    · simpa using hc
    · simp
      omega

theorem recordMsgPayloads_zero (bs : List Bytes) :
    ∀ w : World, w.hub.cfg.MaxCachedMessages = 0 → recordMsgPayloads w bs = .ok w := by
  induction bs with
  | nil => intro w _; rfl
  | cons b bs ih =>
    intro w hc
    simp only [recordMsgPayloads, Room.recordMsgPayload, recordPayload, hc, if_true, andThen_ok]
    exact ih _ hc

/-! ### The claims -/

/-- C1. From a room with no peers and a limit max_peers_per_room >= 0, after any sequence
of steps (rounds of the room loop on its op, dispose, forward, peer and broadcast cases,
and calls made by other goroutines) the peer set has no duplicate key and at most
max_peers_per_room elements; the same holds in the state any further step ends in, also
when it blocks, panics or exits; and a round that receives a PeerJoin while
len(peers) >= max_peers_per_room returns with the peer set unchanged. -/
theorem C1_peers_within_limit (w0 w : World) (hempty : w0.room.peers = [])
    (hmax : 0 ≤ w0.hub.cfg.MaxPeersPerRoom) (hr : Reach w0 w) :
    (w.room.peers.Nodup ∧ (w.room.peers.length : Int) ≤ w0.hub.cfg.MaxPeersPerRoom) ∧
    (∀ a o, w.act a = some o →
      o.state.room.peers.Nodup ∧
        (o.state.room.peers.length : Int) ≤ w0.hub.cfg.MaxPeersPerRoom) ∧
    (∀ p rest, w.room.peerQ.buf = { reqType := TypePeerJoin, peer := p } :: rest →
      (w.room.peers.length : Int) ≥ w0.hub.cfg.MaxPeersPerRoom →
      ∃ w1, Room.run w .peerQ = some (.ok w1) ∧ w1.room.peers = w.room.peers) := by
  have hinv := reach_peers hr (by simp [hempty]) (by simpa [hempty] using hmax) hmax
  have hcfg := fixed_cfg (reach_fixed hr)
  refine ⟨hinv, ?_, ?_⟩
  · intro a o hact
    have hs := (act_peers hact).1
    rw [hcfg] at hs
    exact peersStep_inv hs hinv.1 hinv.2 hmax
  · intro p rest hq hfull
    rw [← hcfg] at hfull
    exact run_join_full w p rest hq hfull

/-- C1, at the example: after three peers asked to join a room limited to two, the peer
set holds two peers. -/
theorem C1_peers_within_limit_witness :
    exWorld.room.peers = [] ∧ 0 ≤ exWorld.hub.cfg.MaxPeersPerRoom ∧
      Reach exWorld (exWorld.runAllD exJoins) ∧
      ((exWorld.runAllD exJoins).room.peers.Nodup ∧
        ((exWorld.runAllD exJoins).room.peers.length : Int)
          ≤ exWorld.hub.cfg.MaxPeersPerRoom) :=
  ⟨rfl, by decide, reach_runAllD exWorld exJoins,
    (C1_peers_within_limit exWorld (exWorld.runAllD exJoins) rfl (by decide)
      (reach_runAllD exWorld exJoins)).1⟩



/-- C2, the run that breaks it. In the room NewRoom returns, two logins for the handle
alice both succeed while no peer is connected (each finds the peer set empty); the two
connections that follow are both admitted by the loop, and the peer set then holds two
distinct peers with the handle alice. -/
theorem C2_two_peers_one_handle :
    NewRoom 1 "lobby" "Lobby" [112, 119] exConfig false = some exNewRoom ∧
    (Room.Login exWorld "pw" "alice" "" Minute).state.1
      = ("07ELSZgnu18FMTahov29GNUbipw3AHOV", none) ∧
    (Room.Login (exWorld.runAllD [.Login "pw" "alice" "" Minute]) "pw" "alice" "" Minute).state.1
      = ("18FMTahov29GNUbipw3AHOVcjqx4BIPW", none) ∧
    (exWorld.runAll exTwoAlices).map (fun w => w.room.peers)
      = some [{ ptr := 1, ID := "07ELSZgnu18FMTahov29GNUbipw3AHOV", Handle := "alice" },
              { ptr := 2, ID := "18FMTahov29GNUbipw3AHOVcjqx4BIPW", Handle := "alice" }] := by
  refine ⟨by decide, by decide, by decide, by decide⟩


/-- C3. From an empty backlog, recordMsgPayload applied to the payloads m1..mk in that
order returns every time and, with max_cached_messages = c > 0, leaves as backlog exactly
the last min(k, c) of them in the same order (the list without its first k - min(k, c)
elements), of length min(k, c), and nothing else of the room changed; with c = 0 the state
is unchanged, so the backlog stays empty. -/
theorem C3_backlog_keeps_last (w : World) (ms : List Bytes) (hempty : w.room.payloadCache = []) :
    (0 < w.hub.cfg.MaxCachedMessages →
      recordMsgPayloads w ms = .ok (w.setRoom { w.room with
          payloadCache :=
            ms.drop (ms.length - min ms.length w.hub.cfg.MaxCachedMessages.toNat) }) ∧
        (ms.drop (ms.length - min ms.length w.hub.cfg.MaxCachedMessages.toNat)).length
          = min ms.length w.hub.cfg.MaxCachedMessages.toNat) ∧
    (w.hub.cfg.MaxCachedMessages = 0 → recordMsgPayloads w ms = .ok w) := by
  refine ⟨fun hc => ?_, fun hc => recordMsgPayloads_zero ms w hc⟩
  obtain ⟨k, hk⟩ := Int.eq_ofNat_of_zero_le (le_of_lt hc)
  have hkpos : 0 < k := by omega
  have h := recordMsgPayloads_pos k hkpos ms w hk (by simp [hempty])
  rw [hempty] at h
  simp only [List.nil_append] at h
  have hmin : ms.length - min ms.length k = ms.length - k := by omega
  rw [hk]
  simp only [Int.toNat_ofNat, hmin]
  refine ⟨h, ?_⟩
  simp only [List.length_drop]
  omega

/-- C3, at the example: with max_cached_messages = 2 and an empty backlog, recording A, B
and C leaves the backlog B, C. -/
theorem C3_backlog_keeps_last_witness :
    exWorld.room.payloadCache = [] ∧ 0 < exWorld.hub.cfg.MaxCachedMessages ∧
      recordMsgPayloads exWorld exABC
        = .ok (exWorld.setRoom { exWorld.room with payloadCache := [.raw [66], .raw [67]] }) :=
  ⟨rfl, by decide, ((C3_backlog_keeps_last exWorld exABC rfl).1 (by decide)).1⟩

theorem utf8ByteSize_go_pos (c : Char) (cs : List Char) : 0 < String.utf8ByteSize.go (c :: cs) := by
  simp only [String.utf8ByteSize.go]
  have := Char.utf8Size_pos c
  omega

theorem utf8ByteSize_pos_iff (s : String) : s.utf8ByteSize > 0 ↔ s ≠ "" := by
  cases s with
  | mk data =>
    cases data with
    | nil => simp [String.utf8ByteSize, String.utf8ByteSize.go]
    | cons c cs =>
      simp only [String.utf8ByteSize, gt_iff_lt, ne_eq]
      constructor
      · intro _ h
        have := congrArg String.data h
        simp at this
      · intro _
        exact utf8ByteSize_go_pos c cs

theorem greetPeer_trace (w : World) (p : Peer) (hc : w.cacheOK) :
    (greetPeer w p).trace = w.trace ++
      ([Bytes.marshal { Typ := TypePeerInfo, Timestamp := w.clock w.clockReads,
                        Data := .peer { ID := p.ID, Handle := p.Handle } }]
        ++ w.room.payloadCache
        ++ (if w.room.motd = "" then []
            else [Bytes.marshal { Typ := TypeMotd, Timestamp := w.clock (w.clockReads + 1),
                                  Data := .chat { PeerID := p.ID, PeerHandle := p.Handle,
                                                  Msg := w.room.motd } }])).map
        (fun b => Effect.SendData p b) ∧
    (greetPeer w p).clockReads = w.clockReads + (if w.room.motd = "" then 1 else 2) ∧
    (greetPeer w p).clock = w.clock := by
  unfold greetPeer
  simp only [makePeerUpdatePayload_fst, makePeerUpdatePayload_snd, emit_hub, now_hub, emit_room,
    now_room, makeMessagePayload_fst, makeMessagePayload_snd, utf8ByteSize_pos_iff]
  by_cases hm : w.room.motd = ""
  · by_cases hpos : w.hub.cfg.MaxCachedMessages > 0
    · simp [hm, hpos]
    · have hnil := hc (by omega)
      simp [hm, hpos, hnil]
  · by_cases hpos : w.hub.cfg.MaxCachedMessages > 0
    · simp [hm, hpos]
    · have hnil := hc (by omega)
      simp [hm, hpos, hnil]

theorem recordMsgPayload_trace (w : World) (b : Bytes) :
    (Room.recordMsgPayload w b).state.trace = w.trace := by
  unfold Room.recordMsgPayload
  split <;> rfl

theorem Broadcast_trace (w : World) (d : Bytes) (r : Bool) :
    (Room.Broadcast w d r).state.trace = w.trace := by
  unfold Room.Broadcast
  split
  · rfl
  · rfl
  · split
    · rw [recordMsgPayload_trace]; rfl
    · rfl

/-- C4. In a state reached from a room created with an empty backlog, when the loop
admits a peer (the peer set is below the limit) the handler first starts the two pumps and
makes exactly these calls of SendData on the new peer, in this order: the peer.info frame
with the id and handle of the peer, every payload of the backlog in backlog order, and the
motd frame if and only if the motd is not empty. Up to that point (the state w6) the
broadcast queue and the backlog are untouched; the rest of the handler is the call
Broadcast(peer.join frame, true) followed by the log line, and it makes no further call
of SendData. -/
theorem C4_join_sends_in_order (w0 w : World) (p : Peer) (hcache : w0.room.payloadCache = [])
    (hr : Reach w0 w) (hroom : (w.room.peers.length : Int) < w.hub.cfg.MaxPeersPerRoom) :
    ∃ w6 : World,
      w6.trace = w.trace ++ [Effect.goRunListener p, Effect.goRunWriter p] ++
        ([Bytes.marshal { Typ := TypePeerInfo, Timestamp := w.clock w.clockReads,
                          Data := .peer { ID := p.ID, Handle := p.Handle } }]
          ++ w.room.payloadCache
          ++ (if w.room.motd = "" then []
              else [Bytes.marshal { Typ := TypeMotd, Timestamp := w.clock (w.clockReads + 1),
                                    Data := .chat { PeerID := p.ID, PeerHandle := p.Handle,
                                                    Msg := w.room.motd } }])).map
          (fun b => Effect.SendData p b) ∧
      w6.room.broadcastQ = w.room.broadcastQ ∧
      w6.room.payloadCache = w.room.payloadCache ∧
      handlePeerJoin w p =
        (Room.Broadcast w6
          (Bytes.marshal { Typ := TypePeerJoin,
                           Timestamp := w.clock (w.clockReads + (if w.room.motd = "" then 1 else 2)),
                           Data := .peer { ID := p.ID, Handle := p.Handle } }) true).andThen
          (fun w8 => .ok (w8.emit (.logPrintf "%s@%s joined %s" [p.Handle, p.ID, w8.room.ID]))) ∧
      ((handlePeerJoin w p).state.trace = w6.trace ∨
        (handlePeerJoin w p).state.trace
          = w6.trace ++ [Effect.logPrintf "%s@%s joined %s" [p.Handle, p.ID, w.room.ID]]) := by
  have hc : w.cacheOK := reach_cacheOK hr (fun _ => hcache)
  have hnot : ¬ ((w.room.peers.length : Int) ≥ w.hub.cfg.MaxPeersPerRoom) := by omega
  have hg := greetPeer_trace (((w.setRoom { w.room with peers := insertPeer w.room.peers p }).emit
      (.goRunListener p)).emit (.goRunWriter p)) p hc
  obtain ⟨hg1, hg2, hg3⟩ := hg
  simp only [emit_trace, setRoom_trace, emit_clock, setRoom_clock, emit_clockReads,
    setRoom_clockReads, emit_room, setRoom_room] at hg1 hg2 hg3
  have hjoin : handlePeerJoin w p =
      (Room.Broadcast (greetPeer (((w.setRoom { w.room with peers := insertPeer w.room.peers p }).emit
        (.goRunListener p)).emit (.goRunWriter p)) p).now.2
        (Bytes.marshal { Typ := TypePeerJoin,
                         Timestamp := w.clock (w.clockReads + (if w.room.motd = "" then 1 else 2)),
                         Data := .peer { ID := p.ID, Handle := p.Handle } }) true).andThen
        (fun w8 => .ok (w8.emit (.logPrintf "%s@%s joined %s" [p.Handle, p.ID, w8.room.ID]))) := by
    unfold handlePeerJoin
    rw [if_neg hnot]
    simp only [makePeerUpdatePayload_fst, makePeerUpdatePayload_snd, hg2, hg3]
  refine ⟨_, ?_, ?_, ?_, hjoin, ?_⟩
  · rw [now_trace, hg1]
    simp
  · simp
  · simp
  · rw [hjoin]
    cases hB : Room.Broadcast (greetPeer (((w.setRoom { w.room with
        peers := insertPeer w.room.peers p }).emit (.goRunListener p)).emit (.goRunWriter p)) p).now.2
        (Bytes.marshal { Typ := TypePeerJoin,
                         Timestamp := w.clock (w.clockReads + (if w.room.motd = "" then 1 else 2)),
                         Data := .peer { ID := p.ID, Handle := p.Handle } }) true with
    | ok s =>
      right
      have ht := Broadcast_trace (greetPeer (((w.setRoom { w.room with
        peers := insertPeer w.room.peers p }).emit (.goRunListener p)).emit (.goRunWriter p)) p).now.2
        (Bytes.marshal { Typ := TypePeerJoin,
                         Timestamp := w.clock (w.clockReads + (if w.room.motd = "" then 1 else 2)),
                         Data := .peer { ID := p.ID, Handle := p.Handle } }) true
      have hf := Broadcast_fixed (greetPeer (((w.setRoom { w.room with
        peers := insertPeer w.room.peers p }).emit (.goRunListener p)).emit (.goRunWriter p)) p).now.2
        (Bytes.marshal { Typ := TypePeerJoin,
                         Timestamp := w.clock (w.clockReads + (if w.room.motd = "" then 1 else 2)),
                         Data := .peer { ID := p.ID, Handle := p.Handle } }) true
      rw [hB] at ht hf
      simp only [state_ok] at ht hf
      have hid : s.room.ID = w.room.ID := by
        have := congrArg (fun c => c.2.1) hf
        simpa [World.fixedPart] using this
      simp only [andThen_ok, state_ok, emit_trace, ht, hid]
    | exit s =>
      left
      have ht := Broadcast_trace (greetPeer (((w.setRoom { w.room with
        peers := insertPeer w.room.peers p }).emit (.goRunListener p)).emit (.goRunWriter p)) p).now.2
        (Bytes.marshal { Typ := TypePeerJoin,
                         Timestamp := w.clock (w.clockReads + (if w.room.motd = "" then 1 else 2)),
                         Data := .peer { ID := p.ID, Handle := p.Handle } }) true
      rw [hB] at ht
      simpa using ht
    | blocked s =>
      left
      have ht := Broadcast_trace (greetPeer (((w.setRoom { w.room with
        peers := insertPeer w.room.peers p }).emit (.goRunListener p)).emit (.goRunWriter p)) p).now.2
        (Bytes.marshal { Typ := TypePeerJoin,
                         Timestamp := w.clock (w.clockReads + (if w.room.motd = "" then 1 else 2)),
                         Data := .peer { ID := p.ID, Handle := p.Handle } }) true
      rw [hB] at ht
      simpa using ht
    | panic s =>
      left
      have ht := Broadcast_trace (greetPeer (((w.setRoom { w.room with
        peers := insertPeer w.room.peers p }).emit (.goRunListener p)).emit (.goRunWriter p)) p).now.2
        (Bytes.marshal { Typ := TypePeerJoin,
                         Timestamp := w.clock (w.clockReads + (if w.room.motd = "" then 1 else 2)),
                         Data := .peer { ID := p.ID, Handle := p.Handle } }) true
      rw [hB] at ht
      simpa using ht


/-- C4, at the example: bob joins the room in which alice is, with the motd set. -/
theorem C4_join_sends_in_order_witness :
    exWorld.room.payloadCache = [] ∧ Reach exWorld exAliceIn ∧
      (exAliceIn.room.peers.length : Int) < exAliceIn.hub.cfg.MaxPeersPerRoom ∧
      ∃ w6 : World,
        w6.trace = exAliceIn.trace ++ [Effect.goRunListener bob, Effect.goRunWriter bob] ++
          ([Bytes.marshal { Typ := TypePeerInfo,
                            Timestamp := exAliceIn.clock exAliceIn.clockReads,
                            Data := .peer { ID := bob.ID, Handle := bob.Handle } }]
            ++ exAliceIn.room.payloadCache
            ++ (if exAliceIn.room.motd = "" then []
                else [Bytes.marshal { Typ := TypeMotd,
                                      Timestamp := exAliceIn.clock (exAliceIn.clockReads + 1),
                                      Data := .chat { PeerID := bob.ID, PeerHandle := bob.Handle,
                                                      Msg := exAliceIn.room.motd } }])).map
            (fun b => Effect.SendData bob b) ∧
        w6.room.broadcastQ = exAliceIn.room.broadcastQ ∧
        w6.room.payloadCache = exAliceIn.room.payloadCache ∧
        handlePeerJoin exAliceIn bob =
          (Room.Broadcast w6
            (Bytes.marshal { Typ := TypePeerJoin,
                             Timestamp := exAliceIn.clock
                               (exAliceIn.clockReads + (if exAliceIn.room.motd = "" then 1 else 2)),
                             Data := .peer { ID := bob.ID, Handle := bob.Handle } }) true).andThen
            (fun w8 =>
              .ok (w8.emit (.logPrintf "%s@%s joined %s" [bob.Handle, bob.ID, w8.room.ID]))) ∧
        ((handlePeerJoin exAliceIn bob).state.trace = w6.trace ∨
          (handlePeerJoin exAliceIn bob).state.trace
            = w6.trace ++
              [Effect.logPrintf "%s@%s joined %s" [bob.Handle, bob.ID, exAliceIn.room.ID]]) :=
  ⟨rfl, reach_runAllD exWorld _, by decide,
    C4_join_sends_in_order exWorld exAliceIn bob rfl (reach_runAllD exWorld _) (by decide)⟩

theorem peersStep_nodup {limit : Int} {old new : List Peer} (h : peersStep limit old new)
    (hnd : old.Nodup) : new.Nodup := by
  rcases h with rfl | ⟨p, rfl, _⟩ | ⟨p, rfl⟩ | rfl
  · exact hnd
  · unfold insertPeer
    split
    · exact hnd
    · rename_i hp
      rw [List.nodup_append]
      refine ⟨hnd, List.nodup_singleton p, ?_⟩
      intro a ha hb
      simp only [List.mem_singleton] at hb
      subst hb
      exact hp ha
  · exact hnd.filter _
  · exact List.nodup_nil

theorem reach_nodup {w0 w : World} (hr : Reach w0 w) (hnd : w0.room.peers.Nodup) :
    w.room.peers.Nodup := by
  induction hr with
  | init => exact hnd
  | step a _ hact ih => exact peersStep_nodup (act_peers hact).1 ih

theorem handleBroadcast_trace (w : World) (m : Bytes) :
    (handleBroadcast w m).state.trace
      = w.trace ++ w.room.peers.map (fun p => Effect.SendData p m) ∧
    ∃ w1, handleBroadcast w m = .ok w1 := by
  unfold handleBroadcast
  simp only []
  split
  · split
    · exact ⟨rfl, _, rfl⟩
    · exact ⟨rfl, _, rfl⟩
  · exact ⟨rfl, _, rfl⟩

theorem handleBroadcast_broadcastQ (w : World) (m : Bytes) :
    (handleBroadcast w m).state.room.broadcastQ = w.room.broadcastQ := by
  unfold handleBroadcast
  simp only []
  split
  · split <;> rfl
  · rfl

theorem count_sendData (peers : List Peer) (hnd : peers.Nodup) (m : Bytes) (p : Peer) :
    (peers.map (fun q => Effect.SendData q m)).count (Effect.SendData p m)
      = if p ∈ peers then 1 else 0 := by
  have hinj : Function.Injective (fun q => Effect.SendData q m) := by
    intro a b h
    simpa using h
  rw [List.count_map_of_injective peers _ hinj p]
  split
  · rename_i hp
    exact List.count_eq_one_of_mem hnd hp
  · rename_i hp
    exact List.count_eq_zero_of_not_mem hp

/-- C5, a run that breaks it. Alice joins, so the loop calls Broadcast once with the
peer.join frame about her: the frame is put on the broadcast queue and in the backlog. Bob
joins before the loop takes the frame from the queue (the queue then holds it once and bob
is in the peer set): the backlog replay hands him the frame. The loop then takes the frame
from the queue and the fan-out hands it to bob again: two calls of SendData on bob with
the one payload. -/
theorem C5_payload_handed_twice :
    (exWorld.runAll [.AddPeer 1 "s1" "alice", .loop .peerQ, .AddPeer 2 "s2" "bob", .loop .peerQ]).map
        (fun w => (w.room.broadcastQ.buf.count aliceJoined, decide (bob ∈ w.room.peers)))
      = some (1, true) ∧
    (exWorld.runAll exReplay).map (fun w => w.trace.count (.SendData bob aliceJoined)) = some 2 := by
  refine ⟨by decide, by decide⟩

/-- C5, amended. In a state reached from a room with no peers, the round of the loop that
takes a payload from the broadcast queue returns, removes the payload from the queue,
leaves the peer set as it is and makes exactly one call of SendData with that payload for
each peer of the peer set and none for any other peer. -/
theorem C5_fanout_exactly_once (w0 w : World) (m : Bytes) (rest : List Bytes)
    (hempty : w0.room.peers = []) (hr : Reach w0 w) (hq : w.room.broadcastQ.buf = m :: rest) :
    ∃ w1, Room.run w .broadcastQ = some (.ok w1) ∧
      w1.room.broadcastQ.buf = rest ∧
      w1.room.peers = w.room.peers ∧
      w1.trace = w.trace ++ w.room.peers.map (fun p => Effect.SendData p m) ∧
      ∀ p, (w.room.peers.map (fun q => Effect.SendData q m)).count (Effect.SendData p m)
        = if p ∈ w.room.peers then 1 else 0 := by
  have hnd : w.room.peers.Nodup := reach_nodup hr (by simp [hempty])
  have hrecv : w.room.broadcastQ.recv = .value m { w.room.broadcastQ with buf := rest } := by
    simp [Chan.recv, hq]
  obtain ⟨ht, w1, hw1⟩ := handleBroadcast_trace
    (w.setRoom { w.room with broadcastQ := { w.room.broadcastQ with buf := rest } }) m
  have hcore := handleBroadcast_core
    (w.setRoom { w.room with broadcastQ := { w.room.broadcastQ with buf := rest } }) m
  refine ⟨w1, ?_, ?_, ?_, ?_, fun p => count_sendData _ hnd m p⟩
  · simp only [Room.run, hrecv, hw1]
  · have hb := handleBroadcast_broadcastQ
      (w.setRoom { w.room with broadcastQ := { w.room.broadcastQ with buf := rest } }) m
    rw [hw1] at hb
    simp only [state_ok] at hb
    rw [hb]
    rfl
  · rw [hw1] at hcore
    exact core_peers hcore
  · rw [hw1] at ht
    simpa using ht


/-- C5 amended, at the example: the frame about alice is alone in the queue and alice
is the only peer. -/
theorem C5_fanout_exactly_once_witness :
    exWorld.room.peers = [] ∧ Reach exWorld exAliceIn ∧
      exAliceIn.room.broadcastQ.buf = aliceJoined :: [] ∧
      ∃ w1, Room.run exAliceIn .broadcastQ = some (.ok w1) ∧
        w1.room.broadcastQ.buf = [] ∧
        w1.room.peers = exAliceIn.room.peers ∧
        w1.trace = exAliceIn.trace
          ++ exAliceIn.room.peers.map (fun p => Effect.SendData p aliceJoined) ∧
        ∀ p, (exAliceIn.room.peers.map (fun q => Effect.SendData q aliceJoined)).count
            (Effect.SendData p aliceJoined)
          = if p ∈ exAliceIn.room.peers then 1 else 0 :=
  ⟨rfl, reach_runAllD exWorld _, by decide,
    C5_fanout_exactly_once exWorld exAliceIn aliceJoined [] rfl (reach_runAllD exWorld _)
      (by decide)⟩

theorem lookupKey_deleteKey_self {κ ν : Type} [DecidableEq κ] (m : List (κ × ν)) (k : κ) :
    lookupKey (deleteKey m k) k = none := by
  induction m with
  | nil => rfl
  | cons e rest ih =>
    obtain ⟨k1, v⟩ := e
    by_cases h : k1 = k
    · simp [deleteKey, h, ih]
    · simp [deleteKey, lookupKey, h, ih]

theorem lookupKey_deleteKey_ne {κ ν : Type} [DecidableEq κ] (m : List (κ × ν)) (k k1 : κ)
    (hne : k1 ≠ k) : lookupKey (deleteKey m k) k1 = lookupKey m k1 := by
  induction m with
  | nil => rfl
  | cons e rest ih =>
    obtain ⟨k2, v⟩ := e
    by_cases h : k2 = k
    · subst h
      have h2 : ¬ k2 = k1 := fun h3 => hne h3.symm
      simp [deleteKey, lookupKey, h2, ih]
    · by_cases h2 : k2 = k1
      · subst h2
        simp [deleteKey, lookupKey, h]
      · simp [deleteKey, lookupKey, h, h2, ih]

theorem lookupKey_setKey_self {κ ν : Type} [DecidableEq κ] (m : List (κ × ν)) (k : κ) (v : ν) :
    lookupKey (setKey m k v) k = some v := by
  simp [setKey, lookupKey]

theorem lookupKey_setKey_ne {κ ν : Type} [DecidableEq κ] (m : List (κ × ν)) (k k1 : κ) (v : ν)
    (hne : k1 ≠ k) : lookupKey (setKey m k v) k1 = lookupKey m k1 := by
  have h : ¬ k = k1 := fun h => hne h.symm
  simp [setKey, lookupKey, h, lookupKey_deleteKey_ne m k k1 hne]

theorem remove_open (w : World) (hb : w.room.broadcastQ.closed = false)
    (hp : w.room.peerQ.closed = false) (hf : w.room.forwardQ.closed = false) :
    ∃ w1, Room.remove w = .ok w1 ∧ w1.room.closed = true ∧ w1.room.peers = [] ∧
      w1.room.broadcastQ.closed = true ∧ w1.room.peerQ.closed = true ∧
      w1.room.forwardQ.closed = true ∧
      w1.trace = w.trace ++ w.room.peers.map (fun p => Effect.writeWSControl p TypeRoomDispose) ∧
      w1.hub.rooms = deleteKey w.hub.rooms w.room.ID ∧
      w1.hub.Store = (w.hub.Store.RemoveRoom w.room.ID).1 := by
  obtain ⟨h1, h2, h3, h4⟩ := removeLoop_spec (w.setRoom { w.room with closed := true }).room.peers
    (w.setRoom { w.room with closed := true })
  simp only [setRoom_room, setRoom_hub, setRoom_trace] at h1 h2 h3 h4
  unfold Room.remove
  simp only [setRoom_room, Chan.close, h1, hb, hp, hf, Bool.false_eq_true, if_false]
  refine ⟨_, rfl, ?_⟩
  simp [Hub.removeRoom, InMemory.RemoveRoom, h1, h2, h4]

/-- C6. In a state reached from a new room (no peers, open queues), the round of the loop
that receives the dispose signal on a room that is not predefined leaves the loop, and in
the state it ends in: closed is true; the peer set is empty; after the log line, the calls
made are exactly one close control frame with reason room.dispose for each former peer;
the registry of the hub has no room under the id; and the store has neither the room
(RoomExists is false) nor any session of it (GetSession reports ErrRoomNotFound). -/
theorem C6_dispose_removes_room (w0 w : World) (hempty : w0.room.peers = [])
    (hb : w0.room.broadcastQ.closed = false) (hp : w0.room.peerQ.closed = false)
    (hf : w0.room.forwardQ.closed = false) (hr : Reach w0 w)
    (hpre : w.room.Predefined = false) :
    ∃ w1, Room.run w .disposeSig = some (.exit w1) ∧
      w1.room.closed = true ∧
      w1.room.peers = [] ∧
      w1.trace = w.trace ++ [Effect.logPrintf "stopped room: %v" [w.room.ID]]
        ++ w.room.peers.map (fun p => Effect.writeWSControl p TypeRoomDispose) ∧
      (∀ p ∈ w.room.peers,
        (w1.trace.drop w.trace.length).count (Effect.writeWSControl p TypeRoomDispose) = 1) ∧
      lookupKey w1.hub.rooms w.room.ID = none ∧
      w1.hub.Store.RoomExists w.room.ID = (false, none) ∧
      ∀ sessID, w1.hub.Store.GetSession sessID w.room.ID = (Sess.zero, some .ErrRoomNotFound) := by
  have hfix := reach_fixed hr
  have hnd : w.room.peers.Nodup := reach_nodup hr (by simp [hempty])
  have hb1 : w.room.broadcastQ.closed = false := by
    have := congrArg (fun c => c.2.2.2.2.1) hfix
    simpa [World.fixedPart, hb] using this
  have hp1 : w.room.peerQ.closed = false := by
    have := congrArg (fun c => c.2.2.2.2.2.1) hfix
    simpa [World.fixedPart, hp] using this
  have hf1 : w.room.forwardQ.closed = false := by
    have := congrArg (fun c => c.2.2.2.2.2.2) hfix
    simpa [World.fixedPart, hf] using this
  obtain ⟨w1, hrem, hc, hpe, _, _, _, htr, hreg, hst⟩ := remove_open
    ((w.setStore (w.hub.Store.ClearSessions w.room.ID).1).emit
      (.logPrintf "stopped room: %v" [w.room.ID])) hb1 hp1 hf1
  simp only [emit_room, setStore_room, emit_trace, setStore_trace, emit_hub, setStore_rooms,
    setStore_Store] at htr hreg hst
  have hkey : w1.hub.Store.key = w.hub.Store.key := by
    rw [hst]
    unfold InMemory.ClearSessions InMemory.RemoveRoom
    split <;> rfl
  have hlk : lookupKey w1.hub.Store.rooms (w1.hub.Store.key w.room.ID) = none := by
    rw [hkey, hst]
    simp only [InMemory.RemoveRoom]
    have : (w.hub.Store.ClearSessions w.room.ID).1.key = w.hub.Store.key := by
      unfold InMemory.ClearSessions
      split <;> rfl
    rw [this]
    exact lookupKey_deleteKey_self _ _
  refine ⟨w1, ?_, hc, hpe, htr, ?_, ?_, ?_, ?_⟩
  · simp only [Room.run, hpre, Bool.false_eq_true, if_false, Room.exitLoop, setStore_room]
    rw [hrem]
  · intro p hmem
    rw [htr]
    have hinj : Function.Injective (fun q => Effect.writeWSControl q TypeRoomDispose) := by
      intro a b h
      simpa using h
    simp only [List.append_assoc, List.drop_left, List.singleton_append, List.count_cons]
    rw [List.count_map_of_injective w.room.peers _ hinj p, List.count_eq_one_of_mem hnd hmem]
    simp
  · rw [hreg]
    exact lookupKey_deleteKey_self _ _
  · simp [InMemory.RoomExists, hlk]
  · intro sessID
    simp [InMemory.GetSession, hlk]


/-- C6, at the example: the dispose signal with alice and bob in the room. -/
theorem C6_dispose_removes_room_witness :
    exWorld.room.peers = [] ∧ exWorld.room.broadcastQ.closed = false ∧
      exWorld.room.peerQ.closed = false ∧ exWorld.room.forwardQ.closed = false ∧
      Reach exWorld exTwoPeers ∧ exTwoPeers.room.Predefined = false ∧
      ∃ w1, Room.run exTwoPeers .disposeSig = some (.exit w1) ∧
        w1.room.closed = true ∧
        w1.room.peers = [] ∧
        w1.trace = exTwoPeers.trace
          ++ [Effect.logPrintf "stopped room: %v" [exTwoPeers.room.ID]]
          ++ exTwoPeers.room.peers.map (fun p => Effect.writeWSControl p TypeRoomDispose) ∧
        (∀ p ∈ exTwoPeers.room.peers,
          (w1.trace.drop exTwoPeers.trace.length).count
            (Effect.writeWSControl p TypeRoomDispose) = 1) ∧
        lookupKey w1.hub.rooms exTwoPeers.room.ID = none ∧
        w1.hub.Store.RoomExists exTwoPeers.room.ID = (false, none) ∧
        ∀ sessID, w1.hub.Store.GetSession sessID exTwoPeers.room.ID
          = (Sess.zero, some .ErrRoomNotFound) :=
  ⟨rfl, rfl, rfl, rfl, reach_runAllD exWorld _, by decide,
    C6_dispose_removes_room exWorld exTwoPeers rfl rfl rfl rfl (reach_runAllD exWorld _)
      (by decide)⟩

/-- C7, the event that breaks it. On the predefined example room, registered in the hub
and present in the store, the dispose signal is ignored (the guard on Predefined), but the
round in which the inactivity timer fires leaves the loop and runs remove: afterwards the
registry has no room under the id and the store has no such room. -/
theorem C7_timer_removes_predefined_room :
    exPredefined.room.Predefined = true ∧
    lookupKey exPredefined.hub.rooms "lobby" = some 1 ∧
    exPredefined.hub.Store.RoomExists "lobby" = (true, none) ∧
    (Room.run exPredefined .disposeSig).map
        (fun o => (o.isOk, lookupKey o.state.hub.rooms "lobby")) = some (true, some 1) ∧
    (Room.run exPredefined .timeAfter).map
        (fun o => (o.isExit, o.state.room.closed, lookupKey o.state.hub.rooms "lobby",
          o.state.hub.Store.RoomExists "lobby"))
      = some (true, true, none, (false, none)) := by
  refine ⟨by decide, by decide, by decide, by decide, by decide⟩

/-- C8, an input that breaks it. The store holds the session s0 of the predefined example
room; after the round that receives the dispose signal the loop goes on and the session
is still there, whereas ClearSessions on the room id would have removed it. -/
theorem C8_sessions_survive_dispose :
    exPredefined.room.Predefined = true ∧
    (Room.run exPredefined .disposeSig).map
        (fun o => (o.isOk, o.state.hub.Store.GetSession "s0" "lobby"))
      = some (true, ({ ID := "s0", Handle := "zoe" }, none)) ∧
    (exPredefined.hub.Store.ClearSessions "lobby").1.GetSession "s0" "lobby"
      = (Sess.zero, none) := by
  refine ⟨by decide, by decide, by decide⟩

/-- C8, amended. On a predefined room the round that receives the dispose signal changes
nothing: the loop goes round again in the same state, so the store (the sessions of the
room included), the registry and the room are as before. -/
theorem C8_dispose_ignored_when_predefined (w : World) (hpre : w.room.Predefined = true) :
    Room.run w .disposeSig = some (.ok w) := by
  simp [Room.run, hpre]

/-- C8 amended, at the example. -/
theorem C8_dispose_ignored_when_predefined_witness :
    exPredefined.room.Predefined = true ∧
      Room.run exPredefined .disposeSig = some (.ok exPredefined) :=
  ⟨by decide, C8_dispose_ignored_when_predefined exPredefined (by decide)⟩

/-- C9, what the code does. On a room whose closed flag is set and whose queues are
closed, queuePeerReq returns without touching the state, but Broadcast and forwardTo do
not look at the flag: both send on the closed queue, a run-time panic. -/
theorem C9_send_on_closed_queue (w : World) (data : Bytes) (record : Bool)
    (typ to_ d reqType : String) (p : Peer) (hc : w.room.closed = true)
    (hb : w.room.broadcastQ.closed = true) (hf : w.room.forwardQ.closed = true) :
    Room.queuePeerReq w reqType p = .ok w ∧
    Room.Broadcast w data record = .panic w ∧
    Room.forwardTo w typ to_ d = .panic w := by
  refine ⟨?_, ?_, ?_⟩
  · simp [Room.queuePeerReq, hc]
  · simp [Room.Broadcast, Chan.send, hb]
  · simp [Room.forwardTo, Chan.send, hf]

/-- C9, at the example room after its loop has exited. -/
theorem C9_send_on_closed_queue_witness :
    exClosed.room.closed = true ∧ exClosed.room.broadcastQ.closed = true ∧
      exClosed.room.forwardQ.closed = true ∧
      (Room.queuePeerReq exClosed TypePeerLeave alice = .ok exClosed ∧
        Room.Broadcast exClosed aliceJoined true = .panic exClosed ∧
        Room.forwardTo exClosed "upload" "bob" "file" = .panic exClosed) :=
  ⟨by decide, by decide, by decide,
    C9_send_on_closed_queue exClosed aliceJoined true "upload" "bob" "file" TypePeerLeave alice
      (by decide) (by decide) (by decide)⟩

theorem Broadcast_dataQClosed (w : World) (d : Bytes) (r : Bool) :
    (Room.Broadcast w d r).state.dataQClosed = w.dataQClosed := by
  unfold Room.Broadcast
  split
  · rfl
  · rfl
  · split
    · unfold Room.recordMsgPayload
      simp only [setRoom_room, setRoom_hub]
      split <;> rfl
    · rfl

/-- C10, what the code does. Whenever the handling of a PeerLeave request for a peer
returns, the dataQ of that peer is closed, and handling a second PeerLeave request for
the same peer in the resulting state panics in removePeer (close of a closed channel)
before anything else is done. -/
theorem C10_second_leave_panics (w w1 : World) (p : Peer)
    (h : handlePeerReq w { reqType := TypePeerLeave, peer := p } = .ok w1) :
    p ∈ w1.dataQClosed ∧
      handlePeerReq w1 { reqType := TypePeerLeave, peer := p } = .panic w1 := by
  have hne : ¬ (TypePeerLeave = TypePeerJoin) := by decide
  simp only [handlePeerReq, hne, if_false, if_true] at h ⊢
  have hmem : p ∈ w1.dataQClosed := by
    unfold handlePeerLeave Room.removePeer at h
    split at h
    · simp at h
    · simp only [andThen_ok] at h
      obtain ⟨s, hs, hf⟩ := andThen_eq_ok h
      simp only [Outcome.ok.injEq] at hf
      subst hf
      have hd := Broadcast_dataQClosed
        (makePeerUpdatePayload ((w.setDataQClosed (p :: w.dataQClosed)).setRoom
          { (w.setDataQClosed (p :: w.dataQClosed)).room with
            peers := deletePeer (w.setDataQClosed (p :: w.dataQClosed)).room.peers p })
          p TypePeerLeave).2
        (makePeerUpdatePayload ((w.setDataQClosed (p :: w.dataQClosed)).setRoom
          { (w.setDataQClosed (p :: w.dataQClosed)).room with
            peers := deletePeer (w.setDataQClosed (p :: w.dataQClosed)).room.peers p })
          p TypePeerLeave).1 true
      rw [hs] at hd
      simp only [state_ok, makePeerUpdatePayload_snd, now_dataQClosed, setRoom_dataQClosed,
        setDataQClosed_dataQClosed] at hd
      simp only [emit_dataQClosed, hd, List.mem_cons, true_or]
  refine ⟨hmem, ?_⟩
  simp [handlePeerLeave, Room.removePeer, hmem]

/-- C10, at the example: alice has joined, her first PeerLeave is handled, the second
one panics. -/
theorem C10_second_leave_panics_witness :
    handlePeerReq exAliceIn { reqType := TypePeerLeave, peer := alice } = .ok exAliceLeft ∧
      (alice ∈ exAliceLeft.dataQClosed ∧
        handlePeerReq exAliceLeft { reqType := TypePeerLeave, peer := alice }
          = .panic exAliceLeft) :=
  ⟨rfl, C10_second_leave_panics exAliceIn exAliceLeft alice rfl⟩

theorem find_unique_handle {peers : List Peer} {q : Peer} {h : String} (hq : q ∈ peers)
    (hh : q.Handle = h) (huniq : ∀ q1 ∈ peers, q1.Handle = h → q1 = q) :
    peers.find? (fun p => decide (p.Handle = h)) = some q := by
  induction peers with
  | nil => simp at hq
  | cons a rest ih =>
    by_cases ha : a.Handle = h
    · have := huniq a (List.mem_cons_self a rest) ha
      subst this
      simp [List.find?, ha]
    · have hne : q ≠ a := fun e => ha (e ▸ hh)
      have hq1 : q ∈ rest := by
        rcases List.mem_cons.mp hq with e | e
        · exact absurd e hne
        · exact e
      simp only [List.find?, ha, decide_False]
      exact ih hq1 (fun q1 hq1m => huniq q1 (List.mem_cons_of_mem a hq1m))

theorem find_no_handle {peers : List Peer} {h : String} (hnone : ∀ q ∈ peers, q.Handle ≠ h) :
    peers.find? (fun p => decide (p.Handle = h)) = none := by
  rw [List.find?_eq_none]
  intro q hq
  simpa using hnone q hq

/-- C11, a run that breaks it. Alice (id s1) and bob (id s2) are in the room; a forward
request of type upload for the handle bob is queued by alice and handled by the loop. The
one frame bob is handed carries bob's own id and handle, not alice's: no frame tagged
with alice's id and handle is handed to him. -/
theorem C11_frame_tagged_with_recipient :
    (exTwoPeers.runAll exForward).map (fun w => w.trace.drop exTwoPeers.trace.length)
      = some [Effect.SendData bob
          (.marshal { Typ := "upload", Timestamp := 1006,
                      Data := .upload { PeerID := "s2", PeerHandle := "bob", Data := "file1" } })] ∧
    (exTwoPeers.runAll exForward).map (fun w => w.trace.count (Effect.SendData bob
          (.marshal { Typ := "upload", Timestamp := 1006,
                      Data := .upload { PeerID := "s1", PeerHandle := "alice", Data := "file1" } })))
      = some 0 := by
  refine ⟨by decide, by decide⟩

/-- C11, amended. A forward request carries a type, a target handle and data, but not its
sender. When the loop takes a request for the handle H from the forward queue: if a peer
with handle H is in the room, the round returns and exactly one frame is handed out, to a
peer q of the room with handle H (to that peer, when it is the only one with the handle),
of the type of the request, carrying its data and tagged with the id and handle of q
itself, and nothing else is handed to anyone; if no peer has handle H, nothing is handed
to anyone and the state is unchanged but for the request having left the queue. -/
theorem C11_forward_reaches_target (w : World) (fw : forwardReq) (rest : List forwardReq)
    (hq : w.room.forwardQ.buf = fw :: rest) :
    ((∃ p ∈ w.room.peers, p.Handle = fw.to_) →
      ∃ q w1, q ∈ w.room.peers ∧ q.Handle = fw.to_ ∧
        Room.run w .forwardQ = some (.ok w1) ∧
        w1.trace = w.trace ++ [Effect.SendData q
          (.marshal { Typ := fw.reqType, Timestamp := w.clock w.clockReads,
                      Data := .upload { PeerID := q.ID, PeerHandle := q.Handle,
                                        Data := fw.data } })] ∧
        w1.room = { w.room with forwardQ := { w.room.forwardQ with buf := rest } } ∧
        w1.hub = w.hub) ∧
    (∀ q ∈ w.room.peers, q.Handle = fw.to_ →
      (∀ q1 ∈ w.room.peers, q1.Handle = fw.to_ → q1 = q) →
      ∃ w1, Room.run w .forwardQ = some (.ok w1) ∧
        w1.trace = w.trace ++ [Effect.SendData q
          (.marshal { Typ := fw.reqType, Timestamp := w.clock w.clockReads,
                      Data := .upload { PeerID := q.ID, PeerHandle := q.Handle,
                                        Data := fw.data } })] ∧
        w1.room = { w.room with forwardQ := { w.room.forwardQ with buf := rest } } ∧
        w1.hub = w.hub) ∧
    ((∀ q ∈ w.room.peers, q.Handle ≠ fw.to_) →
      Room.run w .forwardQ = some (.ok
        (w.setRoom { w.room with forwardQ := { w.room.forwardQ with buf := rest } }))) := by
  have hrecv : w.room.forwardQ.recv = .value fw { w.room.forwardQ with buf := rest } := by
    simp [Chan.recv, hq]
  refine ⟨?_, ?_, ?_⟩
  · intro hex
    cases hfind : w.room.peers.find? (fun p => decide (p.Handle = fw.to_)) with
    | none =>
      obtain ⟨p, hp, hh⟩ := hex
      have := List.find?_eq_none.mp hfind p hp
      simp [hh] at this
    | some q =>
      have hmem : q ∈ w.room.peers := List.mem_of_find?_eq_some hfind
      have hh : q.Handle = fw.to_ := by
        have := List.find?_some hfind
        simpa using this
      simp only [Room.run, hrecv, handleForward, setRoom_room, hfind]
      exact ⟨q, _, hmem, hh, rfl, rfl, rfl, rfl⟩
  · intro q hmem hh huniq
    have hfind := find_unique_handle hmem hh huniq
    simp only [Room.run, hrecv, handleForward, setRoom_room, hfind]
    exact ⟨_, rfl, rfl, rfl, rfl⟩
  · intro hnone
    have hfind := find_no_handle hnone
    simp only [Room.run, hrecv, handleForward, setRoom_room, hfind]

/-- C11 amended, at the examples: the request for bob with alice and bob in the room, and
a request for alice in the room that two peers with the handle alice have joined. -/
theorem C11_forward_reaches_target_witness :
    ((exTwoPeers.runAllD [.forwardTo "upload" "bob" "file1"]).room.forwardQ.buf
        = { reqType := "upload", to_ := "bob", data := "file1" } :: [] ∧
      bob ∈ (exTwoPeers.runAllD [.forwardTo "upload" "bob" "file1"]).room.peers ∧
      ∃ w1, Room.run (exTwoPeers.runAllD [.forwardTo "upload" "bob" "file1"]) .forwardQ
          = some (.ok w1) ∧
        w1.trace = (exTwoPeers.runAllD [.forwardTo "upload" "bob" "file1"]).trace ++
          [Effect.SendData bob
            (.marshal { Typ := "upload", Timestamp := 1006,
                        Data := .upload { PeerID := "s2", PeerHandle := "bob",
                                          Data := "file1" } })]) ∧
    (((exWorld.runAllD exTwoAlices).runAllD [.forwardTo "upload" "alice" "file1"]).room.peers.map
        (fun p => p.Handle) = ["alice", "alice"] ∧
      ∃ q w1,
        q ∈ ((exWorld.runAllD exTwoAlices).runAllD
          [.forwardTo "upload" "alice" "file1"]).room.peers ∧
        q.Handle = "alice" ∧
        Room.run ((exWorld.runAllD exTwoAlices).runAllD [.forwardTo "upload" "alice" "file1"])
          .forwardQ = some (.ok w1) ∧
        w1.trace.length
          = ((exWorld.runAllD exTwoAlices).runAllD
              [.forwardTo "upload" "alice" "file1"]).trace.length + 1) :=
  ⟨⟨by decide, by decide,
    match (C11_forward_reaches_target (exTwoPeers.runAllD [.forwardTo "upload" "bob" "file1"])
      { reqType := "upload", to_ := "bob", data := "file1" } [] (by decide)).2.1 bob
      (by decide) rfl (by decide) with
    | ⟨w1, h1, h2, _, _⟩ => ⟨w1, h1, h2⟩⟩,
   ⟨by decide,
    match (C11_forward_reaches_target
      ((exWorld.runAllD exTwoAlices).runAllD [.forwardTo "upload" "alice" "file1"])
      { reqType := "upload", to_ := "alice", data := "file1" } [] (by decide)).1
      (by decide) with
    | ⟨q, w1, h1, h2, h3, h4, _, _⟩ => ⟨q, w1, h1, h2, h3, by rw [h4]; simp⟩⟩⟩

theorem ticks_refl (w : World) : w.ticks w := ⟨rfl, le_refl _, rfl⟩

theorem ticks_trans {w w1 w2 : World} (h1 : w.ticks w1) (h2 : w1.ticks w2) : w.ticks w2 :=
  ⟨h2.1.trans h1.1, le_trans h1.2.1 h2.2.1, h2.2.2.trans h1.2.2⟩

theorem ticks_emit (w : World) (e : Effect) : w.ticks (w.emit e) := ⟨rfl, le_refl _, rfl⟩

theorem ticks_emitAll (w : World) (es : List Effect) : w.ticks (w.emitAll es) :=
  ⟨rfl, le_refl _, rfl⟩

theorem ticks_setStore (w : World) (s : InMemory) : w.ticks (w.setStore s) :=
  ⟨rfl, le_refl _, rfl⟩

theorem ticks_setDataQClosed (w : World) (l : List Peer) : w.ticks (w.setDataQClosed l) :=
  ⟨rfl, le_refl _, rfl⟩

theorem ticks_now (w : World) : w.ticks w.now.2 := ⟨rfl, Nat.le_succ _, rfl⟩

theorem ticks_randRead (w : World) (n : Nat) : w.ticks (w.randRead n).2 := ⟨rfl, le_refl _, rfl⟩

theorem ticks_setRoom (w : World) (r : Room) (h : r.timestamp = w.room.timestamp) :
    w.ticks (w.setRoom r) := ⟨rfl, le_refl _, h⟩

theorem ticks_andThen {w : World} (o : Outcome World) (f : World → Outcome World)
    (h1 : w.ticks o.state) (h2 : ∀ s, o = .ok s → s.ticks (f s).state) :
    w.ticks (o.andThen f).state := by
  cases o with
  | ok s => exact ticks_trans h1 (h2 s rfl)
  | exit s => exact h1
  | blocked s => exact h1
  | panic s => exact h1

theorem ticks_andThen_emit {w : World} (o : Outcome World) (g : World → Effect)
    (h1 : w.ticks o.state) : w.ticks (o.andThen fun s => .ok (s.emit (g s))).state :=
  ticks_andThen o _ h1 (fun s _ => ticks_emit s (g s))

theorem recordMsgPayload_ticks (w : World) (b : Bytes) :
    w.ticks (Room.recordMsgPayload w b).state := by
  unfold Room.recordMsgPayload
  split
  · exact ticks_refl w
  · exact ticks_setRoom w _ rfl

theorem Broadcast_ticks (w : World) (d : Bytes) (r : Bool) :
    w.ticks (Room.Broadcast w d r).state := by
  unfold Room.Broadcast
  split
  · exact ticks_refl w
  · exact ticks_refl w
  · split
    · exact ticks_trans (ticks_setRoom w _ rfl) (recordMsgPayload_ticks _ d)
    · exact ticks_setRoom w _ rfl

theorem GenerateGUID_ticks (w : World) (n : Int) : w.ticks (GenerateGUID w n).state.2 := by
  unfold GenerateGUID
  split
  · exact ticks_refl w
  · split
    · exact ticks_randRead w n.toNat
    · split <;> exact ticks_randRead w n.toNat

theorem createToken_ticks (w : World) (handle : String) :
    w.ticks (createToken w handle).state.2 := by
  have hg := GenerateGUID_ticks w 32
  unfold createToken
  split <;> rename_i heq <;> rw [heq] at hg <;> simp only [state_ok, state_exit, state_blocked,
    state_panic] at hg ⊢
  · exact ticks_trans hg (ticks_trans (ticks_now _) (ticks_setRoom _ _ rfl))
  · exact hg
  · exact hg
  · exact hg

theorem getOrCreateToken_ticks (w : World) (handle : String) :
    w.ticks (getOrCreateToken w handle).state.2 := by
  unfold getOrCreateToken
  split
  · exact createToken_ticks w handle
  · split
    · exact ticks_trans (ticks_now w) (ticks_setRoom _ _ rfl)
    · exact ticks_trans (ticks_now w) (createToken_ticks _ handle)

theorem checkTokenLoop_ticks (tokvalue : String) (l : List (String × loginToken)) :
    ∀ w : World, w.ticks (checkTokenLoop tokvalue l w).2 := by
  induction l with
  | nil => intro w; exact ticks_refl w
  | cons e rest ih =>
    intro w
    obtain ⟨k, tok⟩ := e
    simp only [checkTokenLoop]
    split
    · split
      · exact ticks_trans (ticks_now w) (ticks_setRoom _ _ rfl)
      · exact ticks_trans (ticks_now w) (ih _)
    · exact ih w

theorem runOp_ticks (w : World) (c : OpClosure) : w.ticks (runOp w c).state := by
  cases c with
  | connected h => exact ticks_refl w
  | growl msg fromPeer to_ =>
    simp only [runOp]
    split
    · exact ticks_refl w
    · have hg := getOrCreateToken_ticks w to_
      split <;> rename_i heq <;> rw [heq] at hg <;> simp only [state_ok, state_exit,
        state_blocked, state_panic] at hg ⊢
      · exact ticks_trans hg (ticks_emit _ _)
      · exact hg
      · exact hg
      · exact hg

theorem handleForward_ticks (w : World) (fw : forwardReq) : w.ticks (handleForward w fw).state := by
  unfold handleForward
  split
  · exact ticks_refl w
  · exact ticks_trans (ticks_now w) (ticks_emit _ _)

theorem greetPeer_ticks (w : World) (p : Peer) : w.ticks (greetPeer w p) := by
  unfold greetPeer
  simp only []
  split <;> split
  · exact ticks_trans (ticks_trans (ticks_trans (ticks_now w) (ticks_emit _ _)) (ticks_emitAll _ _))
      (ticks_trans (ticks_now _) (ticks_emit _ _))
  · exact ticks_trans (ticks_trans (ticks_now w) (ticks_emit _ _)) (ticks_emitAll _ _)
  · exact ticks_trans (ticks_trans (ticks_now w) (ticks_emit _ _))
      (ticks_trans (ticks_now _) (ticks_emit _ _))
  · exact ticks_trans (ticks_now w) (ticks_emit _ _)

theorem handlePeerJoin_ticks (w : World) (p : Peer) : w.ticks (handlePeerJoin w p).state := by
  unfold handlePeerJoin
  split
  · exact ticks_trans (ticks_setStore w _) (ticks_trans (ticks_emit _ _) (ticks_emit _ _))
  · simp only []
    apply ticks_andThen_emit
    refine ticks_trans ?_ (Broadcast_ticks _ _ _)
    rw [makePeerUpdatePayload_snd]
    refine ticks_trans ?_ (ticks_now _)
    refine ticks_trans ?_ (greetPeer_ticks _ p)
    exact ⟨rfl, le_refl _, rfl⟩

theorem removePeer_ticks (w : World) (p : Peer) : w.ticks (Room.removePeer w p).state := by
  unfold Room.removePeer
  split
  · exact ticks_refl w
  · exact ticks_trans (ticks_setDataQClosed w _) (ticks_setRoom _ _ rfl)

theorem handlePeerLeave_ticks (w : World) (p : Peer) : w.ticks (handlePeerLeave w p).state := by
  unfold handlePeerLeave
  apply ticks_andThen _ _ (removePeer_ticks w p)
  intro s _
  apply ticks_andThen_emit
  refine ticks_trans ?_ (Broadcast_ticks _ _ _)
  rw [makePeerUpdatePayload_snd]
  exact ticks_now s

theorem handlePeerList_ticks (w : World) (p : Peer) : w.ticks (handlePeerList w p).state :=
  ticks_trans (ticks_now w) (ticks_emit _ _)

theorem handlePeerReq_ticks (w : World) (req : peerReq) : w.ticks (handlePeerReq w req).state := by
  unfold handlePeerReq
  split
  · exact handlePeerJoin_ticks w req.peer
  · split
    · exact handlePeerLeave_ticks w req.peer
    · split
      · exact handlePeerList_ticks w req.peer
      · exact ticks_refl w

theorem queuePeerReq_ticks (w : World) (t : String) (p : Peer) :
    w.ticks (Room.queuePeerReq w t p).state := by
  unfold Room.queuePeerReq
  split
  · exact ticks_refl w
  · split
    · exact ticks_refl w
    · exact ticks_refl w
    · exact ticks_setRoom w _ rfl

theorem sendPeerList_ticks (w : World) (p : Peer) : w.ticks (Room.sendPeerList w p).state := by
  unfold Room.sendPeerList
  split
  · exact ticks_refl w
  · exact ticks_refl w
  · exact ticks_setRoom w _ rfl

theorem forwardTo_ticks (w : World) (typ to_ data : String) :
    w.ticks (Room.forwardTo w typ to_ data).state := by
  unfold Room.forwardTo
  split
  · exact ticks_refl w
  · exact ticks_refl w
  · exact ticks_setRoom w _ rfl

theorem Login_ticks (w : World) (roomPwd handle handlePwd : String) (roomAge : Duration) :
    w.ticks (Room.Login w roomPwd handle handlePwd roomAge).state.2 := by
  unfold Room.Login
  split
  · exact ticks_refl w
  · split
    · exact ticks_refl w
    · split
      · exact ticks_refl w
      · split
        · exact ticks_refl w
        · have hg := GenerateGUID_ticks w 32
          split <;> rename_i heq <;> rw [heq] at hg <;> simp only [state_ok, state_exit,
            state_blocked, state_panic] at hg ⊢
          · exact ticks_trans hg (ticks_emit _ _)
          · split
            · exact ticks_trans hg (ticks_trans (ticks_setStore _ _) (ticks_emit _ _))
            · exact ticks_trans hg (ticks_setStore _ _)
          · exact hg
          · exact hg
          · exact hg

theorem LoginWithToken_ticks (w : World) (token : String) (roomAge : Duration) :
    w.ticks (Room.LoginWithToken w token roomAge).state.2 := by
  have hck : w.ticks (checkToken w token).2 := checkTokenLoop_ticks token _ w
  unfold Room.LoginWithToken
  simp only []
  split
  · exact hck
  · split
    · exact hck
    · split
      · exact hck
      · have hg := ticks_trans hck (GenerateGUID_ticks (checkToken w token).2 32)
        split <;> rename_i heq <;> rw [heq] at hg <;> simp only [state_ok, state_exit,
          state_blocked, state_panic] at hg ⊢
        · exact ticks_trans hg (ticks_emit _ _)
        · split
          · exact ticks_trans hg (ticks_trans (ticks_setStore _ _) (ticks_emit _ _))
          · exact ticks_trans hg (ticks_setStore _ _)
        · exact hg
        · exact hg
        · exact hg
theorem timeSub_gt_iff (t u : Int) : timeSub t u > 30 * Second ↔ t - u > 30 * Second := by
  have h1 : Second = (1000000000 : Int) := rfl
  have h2 : maxDuration = (9223372036854775807 : Int) := rfl
  have h3 : minDuration = (-9223372036854775808 : Int) := rfl
  unfold timeSub
  rw [h1, h2, h3]
  by_cases ha : t - u > 9223372036854775807
  · rw [if_pos ha]
    constructor
    · intro _
      omega
    · intro _
      norm_num
  · rw [if_neg ha]
    by_cases hb : t - u < -9223372036854775808
    · rw [if_pos hb]
      constructor
      · intro h
        norm_num at h
      · intro h
        exfalso
        omega
    · rw [if_neg hb]

theorem extendDue_iff (w : World) :
    extendDue w = true ↔
      w.room.Predefined = false ∧ w.clock w.clockReads - w.room.timestamp > 30 * Second := by
  unfold extendDue
  simp only [Bool.and_eq_true, Bool.not_eq_true', decide_eq_true_eq, now_fst, timeSub_gt_iff]

theorem handleBroadcast_idle (w : World) (m : Bytes) (h : extendDue w = false) :
    (handleBroadcast w m).state.hub = w.hub ∧
      w.ticks (handleBroadcast w m).state := by
  unfold extendDue at h
  unfold handleBroadcast
  simp only [emitAll_room, now_room, now_fst, emitAll_clock, emitAll_clockReads]
  simp only [now_fst] at h
  cases hp : w.room.Predefined with
  | true =>
    simp only [Bool.not_true, Bool.false_eq_true, if_false, state_ok]
    exact ⟨rfl, ticks_emitAll w _⟩
  | false =>
    rw [hp] at h
    simp only [Bool.not_false, Bool.true_and, decide_eq_false_iff_not] at h
    simp only [Bool.not_false, if_true, h, if_false, state_ok]
    exact ⟨rfl, ticks_trans (ticks_emitAll w _) (ticks_now _)⟩

theorem handleBroadcast_due (w : World) (m : Bytes) (h : extendDue w = true) :
    (handleBroadcast w m).state.hub.Store
        = (w.hub.Store.ExtendRoomTTL w.room.ID w.hub.cfg.RoomAge).1 ∧
      (handleBroadcast w m).state.room.timestamp = w.clock (w.clockReads + 1) ∧
      (handleBroadcast w m).state.clock = w.clock ∧
      (handleBroadcast w m).state.clockReads = w.clockReads + 2 := by
  unfold extendDue at h
  simp only [now_fst, Bool.and_eq_true, Bool.not_eq_true', decide_eq_true_eq] at h
  unfold handleBroadcast
  simp only [emitAll_room, now_room, now_fst, emitAll_clock, emitAll_clockReads, h.1,
    Bool.not_false, if_true, h.2, state_ok, Room.extendTTL, setStore_Store, setStore_room,
    setRoom_room, setRoom_hub, now_hub, emitAll_hub, setStore_clock, setRoom_clock, now_clock,
    setStore_clockReads, setRoom_clockReads, now_clockReads, and_self]

theorem handleBroadcast_isOk (w : World) (m : Bytes) : (handleBroadcast w m).isOk = true := by
  obtain ⟨_, w1, h⟩ := handleBroadcast_trace w m
  rw [h]
  rfl

theorem run_timing {w w1 : World} {c : SelectCase} (h : Room.run w c = some (.ok w1)) :
    w1.clock = w.clock ∧ w.clockReads ≤ w1.clockReads ∧
      (w1.room.timestamp = w.room.timestamp ∨
        ∃ j, w.clockReads ≤ j ∧ w1.room.timestamp = w.clock j) := by
  have key : ∀ w0 : World, w.ticks w0 → ∀ o : Outcome World, w0.ticks o.state →
      some o = some (Outcome.ok w1) →
      w1.clock = w.clock ∧ w.clockReads ≤ w1.clockReads ∧
        (w1.room.timestamp = w.room.timestamp ∨
          ∃ j, w.clockReads ≤ j ∧ w1.room.timestamp = w.clock j) := by
    intro w0 h0 o ho heq
    simp only [Option.some.injEq] at heq
    subst heq
    have := ticks_trans h0 ho
    exact ⟨this.1, this.2.1, Or.inl this.2.2⟩
  cases c with
  | op cl =>
    simp only [Room.run] at h
    split at h
    · exact key w (ticks_refl w) _ (runOp_ticks w cl) h
    · simp at h
  | disposeSig =>
    simp only [Room.run] at h
    split at h
    · exact key w (ticks_refl w) (.ok w) (ticks_refl w) h
    · simp only [Option.some.injEq] at h
      exact absurd h (exitLoop_ne_ok _ _)
  | forwardQ =>
    simp only [Room.run] at h
    split at h
    · simp at h
    · simp only [Option.some.injEq] at h
      exact absurd h (exitLoop_ne_ok _ _)
    · rename_i fw q hq
      exact key (w.setRoom { w.room with forwardQ := q }) (ticks_setRoom w _ rfl) _
        (handleForward_ticks _ fw) h
  | peerQ =>
    simp only [Room.run] at h
    split at h
    · simp at h
    · simp only [Option.some.injEq] at h
      exact absurd h (exitLoop_ne_ok _ _)
    · rename_i req q hq
      exact key (w.setRoom { w.room with peerQ := q }) (ticks_setRoom w _ rfl) _
        (handlePeerReq_ticks _ req) h
  | broadcastQ =>
    simp only [Room.run] at h
    split at h
    · simp at h
    · simp only [Option.some.injEq] at h
      exact absurd h (exitLoop_ne_ok _ _)
    · rename_i m q hq
      cases hd : extendDue (w.setRoom { w.room with broadcastQ := q }) with
      | false =>
        exact key (w.setRoom { w.room with broadcastQ := q }) (ticks_setRoom w _ rfl) _
          (handleBroadcast_idle _ m hd).2 h
      | true =>
        obtain ⟨_, h2, h3, h4⟩ := handleBroadcast_due _ m hd
        simp only [Option.some.injEq] at h
        rw [h] at h2 h3 h4
        simp only [state_ok, setRoom_clock, setRoom_clockReads] at h2 h3 h4
        exact ⟨h3, by omega, Or.inr ⟨w.clockReads + 1, by omega, h2⟩⟩
  | timeAfter =>
    simp only [Room.run] at h
    split at h
    · simp only [Option.some.injEq] at h
      exact absurd h (exitLoop_ne_ok _ _)
    · simp at h

theorem act_timing {w w1 : World} {a : Action} (h : w.act a = some (.ok w1)) :
    w1.clock = w.clock ∧ w.clockReads ≤ w1.clockReads ∧
      (w1.room.timestamp = w.room.timestamp ∨
        ∃ j, w.clockReads ≤ j ∧ w1.room.timestamp = w.clock j) := by
  have key : ∀ o : Outcome World, w.ticks o.state → some o = some (Outcome.ok w1) →
      w1.clock = w.clock ∧ w.clockReads ≤ w1.clockReads ∧
        (w1.room.timestamp = w.room.timestamp ∨
          ∃ j, w.clockReads ≤ j ∧ w1.room.timestamp = w.clock j) := by
    intro o ho heq
    simp only [Option.some.injEq] at heq
    subst heq
    exact ⟨ho.1, ho.2.1, Or.inl ho.2.2⟩
  cases a with
  | loop c => exact run_timing h
  | AddPeer ptr id handle => exact key _ (queuePeerReq_ticks w _ _) h
  | queuePeerReq t p => exact key _ (queuePeerReq_ticks w _ _) h
  | sendPeerList p => exact key _ (sendPeerList_ticks w p) h
  | forwardTo typ to_ data => exact key _ (forwardTo_ticks w typ to_ data) h
  | broadcastSend d => exact key _ (Broadcast_ticks w d false) h
  | broadcastRecord d => exact key _ (recordMsgPayload_ticks w d) h
  | Login roomPwd handle handlePwd roomAge =>
    refine key _ ?_ h
    rw [dropValue_state]
    exact Login_ticks w roomPwd handle handlePwd roomAge
  | LoginWithToken token roomAge =>
    refine key _ ?_ h
    rw [dropValue_state]
    exact LoginWithToken_ticks w token roomAge
  | Logout sessID =>
    exact key (.ok (w.setStore (w.hub.Store.RemoveSession sessID w.room.ID).1))
      (ticks_setStore w _) h
  | storeCleanup =>
    exact key (.ok (w.now.2.setStore (w.now.2.hub.Store.cleanup w.now.1)))
      (ticks_trans (ticks_now w) (ticks_setStore _ _)) h

theorem reach_timing {w1 w2 : World} (hr : Reach w1 w2) (T : Time)
    (hT : ∀ j, w1.clockReads ≤ j → T ≤ w1.clock j) (h1 : T ≤ w1.room.timestamp) :
    w2.clock = w1.clock ∧ w1.clockReads ≤ w2.clockReads ∧ T ≤ w2.room.timestamp := by
  induction hr with
  | init => exact ⟨rfl, le_refl _, h1⟩
  | step a _ hact ih =>
    obtain ⟨hc, hk, ht⟩ := act_timing hact
    obtain ⟨ic, ik, it⟩ := ih
    refine ⟨hc.trans ic, le_trans ik hk, ?_⟩
    rcases ht with ht | ⟨j, hj, ht⟩
    · rw [ht]; exact it
    · rw [ht, ic]
      exact hT j (le_trans ik hj)
theorem ExtendRoomTTL_present (m : InMemory) (id : String) (ttl : Duration) (row : MemRoom)
    (h : lookupKey m.rooms (m.key id) = some row) :
    (m.ExtendRoomTTL id ttl).2 = none ∧
    (m.ExtendRoomTTL id ttl).1.key = m.key ∧
    lookupKey (m.ExtendRoomTTL id ttl).1.rooms (m.key id)
      = some { row with Expire := row.Expire + ttl } ∧
    ∀ k, k ≠ m.key id → lookupKey (m.ExtendRoomTTL id ttl).1.rooms k = lookupKey m.rooms k := by
  unfold InMemory.ExtendRoomTTL
  rw [h]
  refine ⟨rfl, rfl, ?_, ?_⟩
  · simp only [lookupKey_setKey_self, timeAdd]
  · intro k hk
    exact lookupKey_setKey_ne _ _ _ _ hk

theorem ExtendRoomTTL_absent (m : InMemory) (id : String) (ttl : Duration)
    (h : lookupKey m.rooms (m.key id) = none) :
    m.ExtendRoomTTL id ttl = (m, some .ErrRoomNotFound) := by
  unfold InMemory.ExtendRoomTTL
  rw [h]

/-- C12. A round of the loop on the broadcast queue always returns. It calls
Store.ExtendRoomTTL(id, room_age), once, exactly when the room is not predefined and the
clock reading taken by time.Since is more than 30 seconds after r.timestamp; it then
stores the next reading in r.timestamp. In every other round, in particular in every
round of a predefined room, the store and r.timestamp are left as they are. A call adds
exactly room_age to the expiry of the room when the store has the room, leaves every other
room alone, and changes nothing when the store does not have it. With non-decreasing
clock readings, in every state reached afterwards by any steps, a round that calls again
takes its reading more than 30 seconds after the instant stored at this call: two calls
are never within 30 seconds of each other. -/
theorem C12_ttl_extension (w w2 : World) (m : Bytes) (hmono : Monotone w.clock)
    (hr : Reach (handleBroadcast w m).state w2) :
    (handleBroadcast w m).isOk = true ∧
    (w.room.Predefined = true ∨ ¬ (w.clock w.clockReads - w.room.timestamp > 30 * Second) →
      (handleBroadcast w m).state.hub.Store = w.hub.Store ∧
        (handleBroadcast w m).state.room.timestamp = w.room.timestamp) ∧
    (w.room.Predefined = false → w.clock w.clockReads - w.room.timestamp > 30 * Second →
      (handleBroadcast w m).state.hub.Store
          = (w.hub.Store.ExtendRoomTTL w.room.ID w.hub.cfg.RoomAge).1 ∧
        (handleBroadcast w m).state.room.timestamp = w.clock (w.clockReads + 1) ∧
        (w2.room.Predefined = false →
          w2.clock w2.clockReads - w2.room.timestamp > 30 * Second →
          w2.clock w2.clockReads - w.clock (w.clockReads + 1) > 30 * Second)) ∧
    (∀ row, lookupKey w.hub.Store.rooms (w.hub.Store.key w.room.ID) = some row →
      lookupKey (w.hub.Store.ExtendRoomTTL w.room.ID w.hub.cfg.RoomAge).1.rooms
          (w.hub.Store.key w.room.ID)
        = some { row with Expire := row.Expire + w.hub.cfg.RoomAge } ∧
      ∀ k, k ≠ w.hub.Store.key w.room.ID →
        lookupKey (w.hub.Store.ExtendRoomTTL w.room.ID w.hub.cfg.RoomAge).1.rooms k
          = lookupKey w.hub.Store.rooms k) ∧
    (lookupKey w.hub.Store.rooms (w.hub.Store.key w.room.ID) = none →
      w.hub.Store.ExtendRoomTTL w.room.ID w.hub.cfg.RoomAge
        = (w.hub.Store, some .ErrRoomNotFound)) := by
  refine ⟨handleBroadcast_isOk w m, ?_, ?_, ?_, ?_⟩
  · intro hidle
    have hd : extendDue w = false := by
      cases hdue : extendDue w with
      | false => rfl
      | true =>
        have := (extendDue_iff w).mp hdue
        rcases hidle with hp | hn
        · rw [hp] at this
          exact absurd this.1 (by simp)
        · exact absurd this.2 hn
    obtain ⟨h1, h2⟩ := handleBroadcast_idle w m hd
    exact ⟨by rw [h1], h2.2.2⟩
  · intro hp hgt
    have hd : extendDue w = true := (extendDue_iff w).mpr ⟨hp, hgt⟩
    obtain ⟨h1, h2, h3, h4⟩ := handleBroadcast_due w m hd
    refine ⟨h1, h2, ?_⟩
    intro _ hgt2
    have hT : ∀ j, (handleBroadcast w m).state.clockReads ≤ j →
        w.clock (w.clockReads + 1) ≤ (handleBroadcast w m).state.clock j := by
      intro j hj
      rw [h3]
      apply hmono
      omega
    obtain ⟨i1, _, i3⟩ := reach_timing hr (w.clock (w.clockReads + 1)) hT (le_of_eq h2.symm)
    rw [i1, h3] at hgt2 ⊢
    have key : ∀ a b c d : Int, a - b > d → c ≤ b → a - c > d := by
      intro a b c d h1 h2
      omega
    exact key _ _ _ _ hgt2 i3
  · intro row hrow
    obtain ⟨_, _, h3, h4⟩ := ExtendRoomTTL_present w.hub.Store w.room.ID w.hub.cfg.RoomAge row hrow
    exact ⟨h3, h4⟩
  · intro habs
    exact ExtendRoomTTL_absent _ _ _ habs

/-- C12, at the example: the clock starts 40 seconds after the zero time, a first
broadcast is handled (it calls ExtendRoomTTL), then a second one is queued and handled. -/
theorem C12_ttl_extension_witness :
    Monotone exLate.clock ∧
      Reach (handleBroadcast exLate aliceJoined).state
        ((handleBroadcast exLate aliceJoined).state.runAllD
          [.broadcastSend aliceJoined, .loop .broadcastQ]) ∧
      (handleBroadcast exLate aliceJoined).state.hub.Store
          = (exLate.hub.Store.ExtendRoomTTL exLate.room.ID exLate.hub.cfg.RoomAge).1 ∧
      (handleBroadcast exLate aliceJoined).state.room.timestamp
          = exLate.clock (exLate.clockReads + 1) :=
  ⟨fun _ _ hab => Int.add_le_add_left (Int.ofNat_le.mpr hab) _,
    reach_runAllD _ _,
    ((C12_ttl_extension exLate _ aliceJoined
        (fun _ _ hab => Int.add_le_add_left (Int.ofNat_le.mpr hab) _)
        (reach_runAllD _ [.broadcastSend aliceJoined, .loop .broadcastQ])).2.2.1
      (by decide) (by decide)).1,
    ((C12_ttl_extension exLate _ aliceJoined
        (fun _ _ hab => Int.add_le_add_left (Int.ofNat_le.mpr hab) _)
        (reach_runAllD _ [.broadcastSend aliceJoined, .loop .broadcastQ])).2.2.1
      (by decide) (by decide)).2.1⟩

theorem lookupKey_none_of_not_mem {κ ν : Type} [DecidableEq κ] (l : List (κ × ν)) (k : κ)
    (h : k ∉ l.map Prod.fst) : lookupKey l k = none := by
  induction l with
  | nil => rfl
  | cons e rest ih =>
    obtain ⟨k1, v⟩ := e
    simp only [List.map_cons, List.mem_cons, not_or] at h
    have hne : ¬ k1 = k := fun e => h.1 e.symm
    simp only [lookupKey, hne, if_false]
    exact ih h.2

theorem deleteKey_of_lookup_none {κ ν : Type} [DecidableEq κ] (l : List (κ × ν)) (k : κ)
    (h : lookupKey l k = none) : deleteKey l k = l := by
  induction l with
  | nil => rfl
  | cons e rest ih =>
    obtain ⟨k1, v⟩ := e
    by_cases hk : k1 = k
    · simp [lookupKey, hk] at h
    · simp only [lookupKey, hk, if_false] at h
      simp only [deleteKey, hk, if_false, ih h]

theorem keys_deleteKey_subset {κ ν : Type} [DecidableEq κ] (l : List (κ × ν)) (k k1 : κ)
    (h : k1 ∈ (deleteKey l k).map Prod.fst) : k1 ∈ l.map Prod.fst ∧ k1 ≠ k := by
  induction l with
  | nil => simp [deleteKey] at h
  | cons e rest ih =>
    obtain ⟨k2, v⟩ := e
    by_cases hk : k2 = k
    · simp only [deleteKey, hk, if_true] at h
      have := ih h
      exact ⟨List.mem_cons_of_mem _ this.1, this.2⟩
    · simp only [deleteKey, hk, if_false, List.map_cons, List.mem_cons] at h
      rcases h with h | h
      · subst h
        exact ⟨List.mem_cons_self _ _, hk⟩
      · have := ih h
        exact ⟨List.mem_cons_of_mem _ this.1, this.2⟩

theorem nodup_keys_deleteKey {κ ν : Type} [DecidableEq κ] (l : List (κ × ν)) (k : κ)
    (h : (l.map Prod.fst).Nodup) : ((deleteKey l k).map Prod.fst).Nodup := by
  induction l with
  | nil => simp [deleteKey]
  | cons e rest ih =>
    obtain ⟨k2, v⟩ := e
    simp only [List.map_cons, List.nodup_cons] at h
    by_cases hk : k2 = k
    · simp only [deleteKey, hk, if_true]
      exact ih h.2
    · simp only [deleteKey, hk, if_false, List.map_cons, List.nodup_cons]
      exact ⟨fun hm => h.1 (keys_deleteKey_subset rest k k2 hm).1, ih h.2⟩

theorem nodup_keys_setKey {κ ν : Type} [DecidableEq κ] (l : List (κ × ν)) (k : κ) (v : ν)
    (h : (l.map Prod.fst).Nodup) : ((setKey l k v).map Prod.fst).Nodup := by
  simp only [setKey, List.map_cons, List.nodup_cons]
  exact ⟨fun hm => (keys_deleteKey_subset l k k hm).2 rfl, nodup_keys_deleteKey l k h⟩

theorem lookupKey_filter {κ ν : Type} [DecidableEq κ] (l : List (κ × ν)) (p : κ × ν → Bool)
    (k : κ) (h : (l.map Prod.fst).Nodup) :
    lookupKey (l.filter p) k
      = match lookupKey l k with
        | some v => if p (k, v) then some v else none
        | none => none := by
  induction l with
  | nil => rfl
  | cons e rest ih =>
    obtain ⟨k1, v⟩ := e
    simp only [List.map_cons, List.nodup_cons] at h
    by_cases hk : k1 = k
    · subst hk
      have hrest : lookupKey rest k1 = none := lookupKey_none_of_not_mem rest k1 h.1
      by_cases hp : p (k1, v) = true
      · simp [List.filter, hp, lookupKey]
      · simp only [List.filter, hp, lookupKey, if_true]
        rw [ih h.2, hrest]
        simp
    · by_cases hp : p (k1, v) = true
      · simp only [List.filter, hp, lookupKey, hk, if_false]
        exact ih h.2
      · simp only [List.filter, hp, lookupKey, hk, if_false]
        exact ih h.2

theorem nodup_keys_filter {κ ν : Type} (l : List (κ × ν)) (p : κ × ν → Bool)
    (h : (l.map Prod.fst).Nodup) : ((l.filter p).map Prod.fst).Nodup :=
  (List.filter_sublist l).map Prod.fst |>.nodup h

theorem GetRoom_absent (m : InMemory) (id : String)
    (h : lookupKey m.rooms (m.key id) = none) : m.GetRoom id = none := by
  unfold InMemory.GetRoom
  rw [h]

theorem GetSession_absent (m : InMemory) (sessID roomID : String)
    (h : lookupKey m.rooms (m.key roomID) = none) :
    m.GetSession sessID roomID = (Sess.zero, some .ErrRoomNotFound) := by
  unfold InMemory.GetSession
  rw [h]

theorem GetSession_present (m : InMemory) (sessID roomID : String) (row : MemRoom)
    (h : lookupKey m.rooms (m.key roomID) = some row) :
    m.GetSession sessID roomID
      = match lookupKey row.Sessions sessID with
        | some handle => ({ ID := sessID, Handle := handle }, none)
        | none => (Sess.zero, none) := by
  unfold InMemory.GetSession
  rw [h]
  cases hl : lookupKey row.Sessions sessID <;> simp [hl]

/-- C13 (the claim fails, by a slip of the code). GetRoom of an id that has no room in
the store does not return the error ErrRoomNotFound: the map lookup gives a nil pointer,
and the return statement reads out.Room through it, which is a nil pointer dereference.
This is so for every store m and every id absent from it, and for every store m0 after
RemoveRoom(id), while RoomExists(id) reports false in both. -/
theorem C13_GetRoom_absent_faults (m m0 : InMemory) (id : String)
    (h : lookupKey m.rooms (m.key id) = none) :
    m.GetRoom id = none ∧ m.RoomExists id = (false, none) ∧
    (m0.RemoveRoom id).1.GetRoom id = none ∧
    (m0.RemoveRoom id).1.RoomExists id = (false, none) := by
  refine ⟨GetRoom_absent m id h, ?_, GetRoom_absent _ id ?_, ?_⟩
  · simp [InMemory.RoomExists, h]
  · simp [InMemory.RemoveRoom, lookupKey_deleteKey_self]
  · simp [InMemory.RoomExists, InMemory.RemoveRoom, lookupKey_deleteKey_self]

/-- C13, at the example: the id nosuch in the example store, and the id nosuch after its
removal from the example store. -/
theorem C13_GetRoom_absent_faults_witness :
    lookupKey exStore.rooms (exStore.key "nosuch") = none ∧
    exStore.GetRoom "nosuch" = none ∧ exStore.RoomExists "nosuch" = (false, none) ∧
    (exStore.RemoveRoom "nosuch").1.GetRoom "nosuch" = none ∧
    (exStore.RemoveRoom "nosuch").1.RoomExists "nosuch" = (false, none) :=
  ⟨by decide, C13_GetRoom_absent_faults exStore exStore "nosuch" (by decide)⟩

/-- C14. After AddRoom(r, ttl) on any store: the call returned no error, RoomExists(r.ID)
is true, GetRoom(r.ID) returns exactly r with no error, the entry of r.ID is r with no
session and the expiry created_at + ttl, so that GetSession(s, r.ID) finds no session for
any s; the key formatting is the same and the entry under every other key (row, sessions
and expiry) is the one from before. -/
theorem C14_AddRoom_then_get (m : InMemory) (r : StoreRoom) (ttl : Duration) :
    (m.AddRoom r ttl).2 = none ∧
    (m.AddRoom r ttl).1.RoomExists r.ID = (true, none) ∧
    (m.AddRoom r ttl).1.GetRoom r.ID = some (r, none) ∧
    lookupKey (m.AddRoom r ttl).1.rooms (m.key r.ID)
      = some { Room := r, Sessions := [], Expire := r.CreatedAt + ttl } ∧
    (∀ s, (m.AddRoom r ttl).1.GetSession s r.ID = (Sess.zero, none)) ∧
    (m.AddRoom r ttl).1.key = m.key ∧
    (∀ k, k ≠ m.key r.ID → lookupKey (m.AddRoom r ttl).1.rooms k = lookupKey m.rooms k) ∧
    (∀ id, m.key id ≠ m.key r.ID →
      (m.AddRoom r ttl).1.RoomExists id = m.RoomExists id ∧
      (m.AddRoom r ttl).1.GetRoom id = m.GetRoom id ∧
      ∀ s, (m.AddRoom r ttl).1.GetSession s id = m.GetSession s id) := by
  have hself : lookupKey (m.AddRoom r ttl).1.rooms (m.key r.ID)
      = some { Room := r, Sessions := [], Expire := r.CreatedAt + ttl } := by
    simp [InMemory.AddRoom, lookupKey_setKey_self, timeAdd]
  have hne : ∀ k, k ≠ m.key r.ID →
      lookupKey (m.AddRoom r ttl).1.rooms k = lookupKey m.rooms k := by
    intro k hk
    simp [InMemory.AddRoom, lookupKey_setKey_ne _ _ _ _ hk]
  have hkey : (m.AddRoom r ttl).1.key = m.key := rfl
  refine ⟨rfl, ?_, ?_, hself, ?_, hkey, hne, ?_⟩
  · simp [InMemory.RoomExists, hkey, hself]
  · simp [InMemory.GetRoom, hkey, hself]
  · intro s
    rw [GetSession_present _ s r.ID _ (by rw [hkey]; exact hself)]
    rfl
  · intro id hid
    refine ⟨?_, ?_, ?_⟩
    · simp only [InMemory.RoomExists, hkey, hne _ hid]
    · simp only [InMemory.GetRoom, hkey, hne _ hid]
    · intro s
      simp only [InMemory.GetSession, hkey, hne _ hid]

/-- C16. After RemoveRoom(id) on any store: the call returned no error, RoomExists(id) is
false, GetSession(s, id) reports ErrRoomNotFound for every s, the key formatting is the
same and the entry under every other key (row, sessions and expiry) is the one from
before; when id had no room, the map of rooms is unchanged. -/
theorem C16_RemoveRoom_cascades (m : InMemory) (id : String) :
    (m.RemoveRoom id).2 = none ∧
    (m.RemoveRoom id).1.RoomExists id = (false, none) ∧
    (∀ s, (m.RemoveRoom id).1.GetSession s id = (Sess.zero, some .ErrRoomNotFound)) ∧
    (m.RemoveRoom id).1.key = m.key ∧
    (∀ k, k ≠ m.key id → lookupKey (m.RemoveRoom id).1.rooms k = lookupKey m.rooms k) ∧
    (∀ id1, m.key id1 ≠ m.key id →
      (m.RemoveRoom id).1.RoomExists id1 = m.RoomExists id1 ∧
      (m.RemoveRoom id).1.GetRoom id1 = m.GetRoom id1 ∧
      ∀ s, (m.RemoveRoom id).1.GetSession s id1 = m.GetSession s id1) ∧
    (m.RoomExists id = (false, none) →
      (m.RemoveRoom id).1.rooms = m.rooms ∧ (m.RemoveRoom id).2 = none) := by
  have hkey : (m.RemoveRoom id).1.key = m.key := rfl
  have hself : lookupKey (m.RemoveRoom id).1.rooms (m.key id) = none := by
    simp [InMemory.RemoveRoom, lookupKey_deleteKey_self]
  have hne : ∀ k, k ≠ m.key id →
      lookupKey (m.RemoveRoom id).1.rooms k = lookupKey m.rooms k := by
    intro k hk
    simp [InMemory.RemoveRoom, lookupKey_deleteKey_ne _ _ _ hk]
  refine ⟨rfl, ?_, ?_, hkey, hne, ?_, ?_⟩
  · simp [InMemory.RoomExists, hkey, hself]
  · intro s
    exact GetSession_absent _ s id (by rw [hkey]; exact hself)
  · intro id1 hid
    refine ⟨?_, ?_, ?_⟩
    · simp only [InMemory.RoomExists, hkey, hne _ hid]
    · simp only [InMemory.GetRoom, hkey, hne _ hid]
    · intro s
      simp only [InMemory.GetSession, hkey, hne _ hid]
  · intro hex
    have hnone : lookupKey m.rooms (m.key id) = none := by
      simp only [InMemory.RoomExists, Prod.mk.injEq, and_true] at hex
      cases hl : lookupKey m.rooms (m.key id) with
      | none => rfl
      | some v => rw [hl] at hex; simp at hex
    exact ⟨by simp [InMemory.RemoveRoom, deleteKey_of_lookup_none _ _ hnone], rfl⟩

theorem uniqueKeys_New (key : String → String) : (InMemory.New key).uniqueKeys := by
  simp [InMemory.uniqueKeys, InMemory.New]

theorem uniqueKeys_preserved (m : InMemory) (h : m.uniqueKeys) :
    (∀ r ttl, (m.AddRoom r ttl).1.uniqueKeys) ∧
    (∀ id ttl, (m.ExtendRoomTTL id ttl).1.uniqueKeys) ∧
    (∀ id, (m.RemoveRoom id).1.uniqueKeys) ∧
    (∀ s hd id ttl, (m.AddSession s hd id ttl).1.uniqueKeys) ∧
    (∀ s id, (m.RemoveSession s id).1.uniqueKeys) ∧
    (∀ id, (m.ClearSessions id).1.uniqueKeys) ∧
    (∀ now, (m.cleanup now).uniqueKeys) := by
  unfold InMemory.uniqueKeys at h
  refine ⟨?_, ?_, ?_, ?_, ?_, ?_, ?_⟩
  · intro r ttl
    exact nodup_keys_setKey _ _ _ h
  · intro id ttl
    unfold InMemory.ExtendRoomTTL
    cases lookupKey m.rooms (m.key id) with
    | none => exact h
    | some row => exact nodup_keys_setKey _ _ _ h
  · intro id
    exact nodup_keys_deleteKey _ _ h
  · intro s hd id ttl
    unfold InMemory.AddSession
    cases lookupKey m.rooms (m.key id) with
    | none => exact h
    | some row => exact nodup_keys_setKey _ _ _ h
  · intro s id
    unfold InMemory.RemoveSession
    cases lookupKey m.rooms (m.key id) with
    | none => exact h
    | some row => exact nodup_keys_setKey _ _ _ h
  · intro id
    unfold InMemory.ClearSessions
    cases lookupKey m.rooms (m.key id) with
    | none => exact h
    | some row => exact nodup_keys_setKey _ _ _ h
  · intro now
    exact nodup_keys_filter _ _ h

theorem cleanup_lookup (m : InMemory) (now : Time) (k : String) (h : m.uniqueKeys) :
    lookupKey (m.cleanup now).rooms k
      = match lookupKey m.rooms k with
        | some row => if row.Expire < now then none else some row
        | none => none := by
  unfold InMemory.cleanup
  simp only []
  rw [lookupKey_filter _ _ k h]
  cases lookupKey m.rooms k with
  | none => rfl
  | some row =>
    by_cases hlt : row.Expire < now <;> simp [timeBefore, hlt]

/-- C18. In a store whose map has one entry per key (as every Go map has; New gives such
a store and every operation keeps it so), a run of cleanup at the clock reading now
removes exactly the rooms whose expiry is strictly before now: the entry of such a room is
gone, so that RoomExists reports false and GetSession reports ErrRoomNotFound for each of
its sessions; the entry of a room whose expiry is now or later, in particular equal to
now, is kept with the same row, sessions and expiry; no entry appears. The expiry is
created_at + ttl after AddRoom, and each ExtendRoomTTL adds its ttl to it. -/
theorem C18_cleanup_removes_expired (m : InMemory) (now : Time) (huniq : m.uniqueKeys) :
    (m.cleanup now).key = m.key ∧ (m.cleanup now).uniqueKeys ∧
    (∀ k row, lookupKey m.rooms k = some row → row.Expire < now →
      lookupKey (m.cleanup now).rooms k = none) ∧
    (∀ k row, lookupKey m.rooms k = some row → now ≤ row.Expire →
      lookupKey (m.cleanup now).rooms k = some row) ∧
    (∀ k, lookupKey m.rooms k = none → lookupKey (m.cleanup now).rooms k = none) ∧
    (∀ id row, lookupKey m.rooms (m.key id) = some row → row.Expire < now →
      (m.cleanup now).RoomExists id = (false, none) ∧
      ∀ s, (m.cleanup now).GetSession s id = (Sess.zero, some .ErrRoomNotFound)) ∧
    (∀ id row, lookupKey m.rooms (m.key id) = some row → now ≤ row.Expire →
      (m.cleanup now).RoomExists id = m.RoomExists id ∧
      (m.cleanup now).GetRoom id = m.GetRoom id ∧
      ∀ s, (m.cleanup now).GetSession s id = m.GetSession s id) ∧
    (∀ r ttl, lookupKey (m.AddRoom r ttl).1.rooms (m.key r.ID)
      = some { Room := r, Sessions := [], Expire := r.CreatedAt + ttl }) ∧
    (∀ id ttl row, lookupKey m.rooms (m.key id) = some row →
      lookupKey (m.ExtendRoomTTL id ttl).1.rooms (m.key id)
        = some { row with Expire := row.Expire + ttl }) := by
  have hkey : (m.cleanup now).key = m.key := rfl
  have hgone : ∀ k row, lookupKey m.rooms k = some row → row.Expire < now →
      lookupKey (m.cleanup now).rooms k = none := by
    intro k row hl hlt
    rw [cleanup_lookup m now k huniq, hl]
    simp [hlt]
  have hkept : ∀ k row, lookupKey m.rooms k = some row → now ≤ row.Expire →
      lookupKey (m.cleanup now).rooms k = some row := by
    intro k row hl hle
    rw [cleanup_lookup m now k huniq, hl]
    simp [not_lt.mpr hle]
  refine ⟨hkey, (uniqueKeys_preserved m huniq).2.2.2.2.2.2 now, hgone, hkept, ?_, ?_, ?_, ?_, ?_⟩
  · intro k hl
    rw [cleanup_lookup m now k huniq, hl]
  · intro id row hl hlt
    have h1 := hgone _ row hl hlt
    refine ⟨?_, fun s => GetSession_absent _ s id (by rw [hkey]; exact h1)⟩
    simp [InMemory.RoomExists, hkey, h1]
  · intro id row hl hle
    have h1 := hkept _ row hl hle
    refine ⟨?_, ?_, ?_⟩
    · simp only [InMemory.RoomExists, hkey, h1, hl]
    · simp only [InMemory.GetRoom, hkey, h1, hl]
    · intro s
      simp only [InMemory.GetSession, hkey, h1, hl]
  · intro r ttl
    simp [InMemory.AddRoom, lookupKey_setKey_self, timeAdd]
  · intro id ttl row hl
    exact (ExtendRoomTTL_present m id ttl row hl).2.2.1

/-- C18, at the example store, whose room lobby expires at 10 seconds, swept at the
clock reading 10 seconds: the room is kept; one nanosecond later it is removed. -/
theorem C18_cleanup_removes_expired_witness :
    exStore.uniqueKeys ∧
    lookupKey (exStore.cleanup (10 * Second)).rooms "room:lobby"
      = lookupKey exStore.rooms "room:lobby" ∧
    lookupKey (exStore.cleanup (10 * Second + 1)).rooms "room:lobby" = none :=
  ⟨by unfold InMemory.uniqueKeys; decide,
    ((C18_cleanup_removes_expired exStore (10 * Second)
      (by unfold InMemory.uniqueKeys; decide)).2.2.2.1 "room:lobby" _ rfl (by decide)).trans
      (by decide),
    (C18_cleanup_removes_expired exStore (10 * Second + 1)
      (by unfold InMemory.uniqueKeys; decide)).2.2.1 "room:lobby" _ rfl (by decide)⟩

theorem dictionary_length : dictionary.length = 62 := by decide

theorem dictionaryAt_mod (v : Nat) :
    ∃ c, dictionaryAt (v % dictionary.length) = some c ∧ c ∈ dictionary.toList := by
  have hlt : v % dictionary.length < dictionary.toList.length :=
    Nat.mod_lt _ (by decide)
  refine ⟨dictionary.toList.get ⟨_, hlt⟩, ?_, List.get_mem _ _ _⟩
  unfold dictionaryAt
  exact List.get?_eq_get hlt

theorem guidChars_total (bytes : List Nat) :
    ∃ cs, guidChars bytes = some cs ∧ cs.length = bytes.length ∧
      (∀ c ∈ cs, c ∈ dictionary.toList) ∧
      ∀ i, cs.get? i = (bytes.get? i).bind (fun v => dictionaryAt (v % dictionary.length)) := by
  induction bytes with
  | nil => exact ⟨[], rfl, rfl, by simp, by simp⟩
  | cons v vs ih =>
    obtain ⟨c, hc, hmem⟩ := dictionaryAt_mod v
    obtain ⟨cs, hcs, hlen, hall, hget⟩ := ih
    refine ⟨c :: cs, ?_, ?_, ?_, ?_⟩
    · simp only [guidChars, hc, hcs]
    · simp [hlen]
    · intro d hd
      rcases List.mem_cons.mp hd with h | h
      · rw [h]; exact hmem
      · exact hall d h
    · intro i
      cases i with
      | zero => simp [hc]
      | succ j => simpa using hget j

theorem GenerateGUID_spec (w : World) (n : Int) (src : Nat → Nat) (hn : 0 ≤ n)
    (hsrc : w.rand w.randCalls = some src) :
    ∃ cs, GenerateGUID w n = .ok ((String.mk cs, none), (w.randRead n.toNat).2) ∧
      guidChars ((List.range n.toNat).map (fun i => src i % 256)) = some cs := by
  obtain ⟨cs, hcs, -⟩ := guidChars_total ((List.range n.toNat).map (fun i => src i % 256))
  refine ⟨cs, ?_, hcs⟩
  have hr : (w.randRead n.toNat).1 = some ((List.range n.toNat).map (fun i => src i % 256)) := by
    simp [World.randRead, hsrc]
  unfold GenerateGUID
  rw [if_neg (not_lt.mpr hn), hr]
  simp only [hcs]

/-- C20. For every n >= 0 and every call of rand.Read that delivers its n bytes,
GenerateGUID(n) returns, without error, a string of exactly n characters, each of them in
the dictionary; the character at position i is dictionary[v % 62] for the byte v at
position i. The dictionary is the 62 characters 0-9, A-Z, a-z, and for every byte v the
index v % len(dictionary) is within its bounds. The call reads the random source once. -/
theorem C20_guid_length_and_alphabet (w : World) (n : Int) (src : Nat → Nat) (hn : 0 ≤ n)
    (hsrc : w.rand w.randCalls = some src) :
    ∃ s, GenerateGUID w n = .ok ((s, none), (w.randRead n.toNat).2) ∧
      (s.length : Int) = n ∧
      (∀ c ∈ s.toList, c ∈ dictionary.toList) ∧
      (∀ i, i < n.toNat → s.toList.get? i = dictionaryAt ((src i % 256) % 62)) ∧
      (w.randRead n.toNat).2.randCalls = w.randCalls + 1 ∧
      dictionary.length = 62 ∧
      (∀ c ∈ dictionary.toList, c.isAlphanum = true) ∧
      dictionary.toList.Nodup ∧
      ∀ v, v % dictionary.length < dictionary.length ∧
        ∃ c, dictionaryAt (v % dictionary.length) = some c := by
  obtain ⟨cs, hg, hcs⟩ := GenerateGUID_spec w n src hn hsrc
  obtain ⟨cs1, hcs1, hlen, hall, hget⟩ :=
    guidChars_total ((List.range n.toNat).map (fun i => src i % 256))
  have hsame : cs1 = cs := Option.some.inj (hcs1.symm.trans hcs)
  subst hsame
  refine ⟨String.mk cs1, hg, ?_, hall, ?_, rfl, by decide, by decide, by decide, ?_⟩
  · have h1 : (String.mk cs1).length = n.toNat := by
      simp [String.length, hlen]
    rw [h1]
    exact Int.toNat_of_nonneg hn
  · intro i hi
    have h2 := hget i
    simp only [dictionary_length] at h2
    rw [show (String.mk cs1).toList = cs1 from rfl, h2]
    have h3 : (List.range n.toNat)[i]? = some i := by
      rw [List.getElem?_eq_getElem (by simpa using hi)]
      simp
    simp [h3]
  · intro v
    obtain ⟨c, hc, -⟩ := dictionaryAt_mod v
    exact ⟨Nat.mod_lt _ (by decide), c, hc⟩

/-- C20, at the example state, for five characters. -/
theorem C20_guid_length_and_alphabet_witness :
    (0 : Int) ≤ 5 ∧ exWorld.rand exWorld.randCalls = some (fun i => 7 * i + 0) ∧
    ∃ s, GenerateGUID exWorld 5 = .ok ((s, none), (exWorld.randRead (5 : Int).toNat).2) ∧
      (s.length : Int) = 5 ∧
      (∀ c ∈ s.toList, c ∈ dictionary.toList) ∧
      (∀ i, i < (5 : Int).toNat → s.toList.get? i = dictionaryAt (((7 * i + 0) % 256) % 62)) ∧
      (exWorld.randRead (5 : Int).toNat).2.randCalls = exWorld.randCalls + 1 ∧
      dictionary.length = 62 ∧
      (∀ c ∈ dictionary.toList, c.isAlphanum = true) ∧
      dictionary.toList.Nodup ∧
      ∀ v, v % dictionary.length < dictionary.length ∧
        ∃ c, dictionaryAt (v % dictionary.length) = some c :=
  ⟨by decide, rfl, C20_guid_length_and_alphabet exWorld 5 (fun i => 7 * i + 0) (by decide) rfl⟩

theorem GenerateGUID_cases (w : World) (n : Int) (hn : 0 ≤ n) :
    (w.rand w.randCalls = none ∧
      GenerateGUID w n = .ok (("", some (.other "rand.Read")), (w.randRead n.toNat).2)) ∨
    (∃ src cs, w.rand w.randCalls = some src ∧
      guidChars ((List.range n.toNat).map (fun i => src i % 256)) = some cs ∧
      GenerateGUID w n = .ok ((String.mk cs, none), (w.randRead n.toNat).2)) := by
  cases hsrc : w.rand w.randCalls with
  | none =>
    left
    refine ⟨rfl, ?_⟩
    have hr : (w.randRead n.toNat).1 = none := by simp [World.randRead, hsrc]
    unfold GenerateGUID
    rw [if_neg (not_lt.mpr hn), hr]
  | some src =>
    right
    obtain ⟨cs, hg, hcs⟩ := GenerateGUID_spec w n src hn hsrc
    exact ⟨src, cs, rfl, hcs, hg⟩

theorem candidateAt_eq (w : World) (n : Int) (i : Nat) (hn : 0 ≤ n) :
    candidateAt w n i
      = match w.rand (w.randCalls + i) with
        | none => none
        | some src =>
          (guidChars ((List.range n.toNat).map (fun j => src j % 256))).map String.mk := by
  unfold candidateAt
  rcases GenerateGUID_cases { w with randCalls := w.randCalls + i } n hn with
    ⟨hr, hg⟩ | ⟨src, cs, hr, hcs, hg⟩
  · rw [hg]
    have hr1 : w.rand (w.randCalls + i) = none := hr
    simp [hr1]
  · rw [hg]
    have hr1 : w.rand (w.randCalls + i) = some src := hr
    simp [hr1, hcs]

theorem candidateAt_shift (w w1 : World) (n : Int) (i : Nat) (hn : 0 ≤ n)
    (hrand : w1.rand = w.rand) (hcalls : w1.randCalls = w.randCalls + 1) :
    candidateAt w1 n i = candidateAt w n (i + 1) := by
  rw [candidateAt_eq w1 n i hn, candidateAt_eq w n (i + 1) hn, hrand, hcalls,
    Nat.add_assoc, Nat.add_comm 1 i]

theorem generateRoomIDLoop_spec (length : Int) (hn : 0 ≤ length) (tries : Nat) (w : World) :
    (Hub.generateRoomIDLoop length tries w).isOk = true ∧
    (Hub.generateRoomIDLoop length tries w).state.2.hub = w.hub ∧
    (Hub.generateRoomIDLoop length tries w).state.2.rand = w.rand ∧
    (Hub.generateRoomIDLoop length tries w).state.2.randCalls ≤ w.randCalls + tries ∧
    (∀ id, (Hub.generateRoomIDLoop length tries w).state.1 = (id, none) →
      w.hub.Store.RoomExists id = (false, none) ∧
      ∃ k, k < tries ∧
        (Hub.generateRoomIDLoop length tries w).state.2.randCalls = w.randCalls + (k + 1) ∧
        candidateAt w length k = some id ∧
        ∀ i, i < k → ∃ c, candidateAt w length i = some c ∧
          w.hub.Store.RoomExists c = (true, none)) ∧
    ((∀ i, i < tries → ∃ c, candidateAt w length i = some c ∧
        w.hub.Store.RoomExists c = (true, none)) →
      (Hub.generateRoomIDLoop length tries w).state.1
          = ("", some (.other "unable to generate unique room ID")) ∧
        (Hub.generateRoomIDLoop length tries w).state.2.randCalls = w.randCalls + tries) := by
  induction tries generalizing w with
  | zero =>
    refine ⟨rfl, rfl, rfl, le_refl _, ?_, fun _ => ⟨rfl, rfl⟩⟩
    intro id h
    simp [Hub.generateRoomIDLoop, Outcome.state] at h
  | succ t ih =>
    have hc0 := candidateAt_eq w length 0 hn
    rw [Nat.add_zero] at hc0
    rcases GenerateGUID_cases w length hn with ⟨hr, hg⟩ | ⟨src, cs, hr, hcs, hg⟩
    · have hl : Hub.generateRoomIDLoop length (t + 1) w
          = .ok (("", some (.other "error generating room ID")),
              (w.randRead length.toNat).2.emit
                (.logPrintf "error generating room ID: %v" [])) := by
        simp only [Hub.generateRoomIDLoop, hg]
      rw [hl]
      refine ⟨rfl, rfl, rfl, ?_, ?_, ?_⟩
      · show w.randCalls + 1 ≤ w.randCalls + (t + 1)
        omega
      · intro id h
        simp [Outcome.state] at h
      · intro hall
        obtain ⟨c, hc, -⟩ := hall 0 (Nat.succ_pos t)
        rw [hc0, hr] at hc
        simp at hc
    · have hcand : candidateAt w length 0 = some (String.mk cs) := by
        rw [hc0, hr]
        simp [hcs]
      cases hex : (lookupKey w.hub.Store.rooms (w.hub.Store.key (String.mk cs))).isSome with
      | false =>
        have hl : Hub.generateRoomIDLoop length (t + 1) w
            = .ok ((String.mk cs, none), (w.randRead length.toNat).2) := by
          simp only [Hub.generateRoomIDLoop, hg, InMemory.RoomExists]
          have : (lookupKey (w.randRead length.toNat).2.hub.Store.rooms
              ((w.randRead length.toNat).2.hub.Store.key (String.mk cs))).isSome = false := hex
          rw [this]
        rw [hl]
        refine ⟨rfl, rfl, rfl, ?_, ?_, ?_⟩
        · show w.randCalls + 1 ≤ w.randCalls + (t + 1)
          omega
        · intro id h
          have hid : String.mk cs = id := by
            simpa [Outcome.state] using h
          subst hid
          refine ⟨by simp [InMemory.RoomExists, hex], 0, Nat.succ_pos t, rfl, hcand, ?_⟩
          intro i hi
          exact absurd hi (Nat.not_lt_zero i)
        · intro hall
          obtain ⟨c, hc, hce⟩ := hall 0 (Nat.succ_pos t)
          rw [hcand] at hc
          have hcs2 : String.mk cs = c := Option.some.inj hc
          subst hcs2
          simp [InMemory.RoomExists, hex] at hce
      | true =>
        have hl : Hub.generateRoomIDLoop length (t + 1) w
            = Hub.generateRoomIDLoop length t (w.randRead length.toNat).2 := by
          simp only [Hub.generateRoomIDLoop, hg, InMemory.RoomExists]
          have : (lookupKey (w.randRead length.toNat).2.hub.Store.rooms
              ((w.randRead length.toNat).2.hub.Store.key (String.mk cs))).isSome = true := hex
          rw [this]
        rw [hl]
        obtain ⟨i1, i2, i3, i4, i5, i6⟩ := ih (w.randRead length.toNat).2
        have hhub : (w.randRead length.toNat).2.hub = w.hub := rfl
        have hrand : (w.randRead length.toNat).2.rand = w.rand := rfl
        have hcalls : (w.randRead length.toNat).2.randCalls = w.randCalls + 1 := rfl
        have htaken : w.hub.Store.RoomExists (String.mk cs) = (true, none) := by
          simp [InMemory.RoomExists, hex]
        refine ⟨i1, i2.trans hhub, i3.trans hrand, ?_, ?_, ?_⟩
        · rw [hcalls] at i4
          omega
        · intro id h
          obtain ⟨j1, k, hk, j2, j3, j4⟩ := i5 id h
          rw [hhub] at j1
          refine ⟨j1, k + 1, Nat.succ_lt_succ hk, ?_, ?_, ?_⟩
          · rw [j2, hcalls]
            omega
          · rw [← candidateAt_shift w _ length k hn hrand hcalls]
            exact j3
          · intro i hi
            cases i with
            | zero => exact ⟨_, hcand, htaken⟩
            | succ j =>
              obtain ⟨c, hc, hce⟩ := j4 j (Nat.lt_of_succ_lt_succ hi)
              rw [hhub] at hce
              rw [candidateAt_shift w _ length j hn hrand hcalls] at hc
              exact ⟨c, hc, hce⟩
        · intro hall
          have hall1 : ∀ i, i < t → ∃ c,
              candidateAt (w.randRead length.toNat).2 length i = some c ∧
                (w.randRead length.toNat).2.hub.Store.RoomExists c = (true, none) := by
            intro i hi
            obtain ⟨c, hc, hce⟩ := hall (i + 1) (Nat.succ_lt_succ hi)
            refine ⟨c, ?_, hce⟩
            rw [candidateAt_shift w _ length i hn hrand hcalls]
            exact hc
          obtain ⟨j1, j2⟩ := i6 hall1
          refine ⟨j1, ?_⟩
          rw [j2, hcalls]
          omega

/-- C19 (the claim as stated fails): the id that generateRoomID returns can be the id of
a room in the live registry of the hub. In the example the row of the room lobby has
expired and the store sweeper has removed it, the room is still registered, and the
random bytes spell lobby: generateRoomID(5, 5) returns lobby without error, and
Hub.AddRoom then registers a second room under that id in place of the first. -/
theorem C19_id_of_live_room_returned :
    exLucky.act .storeCleanup = some (.ok exSwept) ∧
    lookupKey exSwept.hub.rooms "lobby" = some 1 ∧
    exSwept.hub.Store.RoomExists "lobby" = (false, none) ∧
    (Hub.generateRoomID exSwept 5 5).isOk = true ∧
    (Hub.generateRoomID exSwept 5 5).state.1 = ("lobby", none) ∧
    lookupKey (Hub.generateRoomID exSwept 5 5).state.2.hub.rooms "lobby" = some 1 ∧
    (Hub.AddRoom exSwept exBcrypt 2 "Second" "pw").isOk = true ∧
    (Hub.AddRoom exSwept exBcrypt 2 "Second" "pw").state.1.2 = none ∧
    lookupKey (Hub.AddRoom exSwept exBcrypt 2 "Second" "pw").state.2.hub.rooms "lobby"
      = some 2 := by
  refine ⟨rfl, ?_, ?_, ?_, ?_, ?_, ?_, ?_, ?_⟩ <;> decide

/-- C19 (amended). For a length that is not negative, generateRoomID(length, 5) returns,
leaves the store and the registry as they are and calls GenerateGUID at most 5 times.
When it returns an id without error, that id is at that moment the id of no room in the
Store (the registry of live rooms is not consulted): it is the first of the candidates,
at most 5, that Store.RoomExists reports free, every candidate before it being taken in
the Store. When all 5 candidates are taken in the Store it returns the error unable to
generate unique room ID. -/
theorem C19_id_free_in_store (w : World) (length : Int) (hlen : 0 ≤ length) :
    (Hub.generateRoomID w length 5).isOk = true ∧
    (Hub.generateRoomID w length 5).state.2.hub = w.hub ∧
    (Hub.generateRoomID w length 5).state.2.randCalls ≤ w.randCalls + 5 ∧
    (∀ id, (Hub.generateRoomID w length 5).state.1 = (id, none) →
      (Hub.generateRoomID w length 5).state.2.hub.Store.RoomExists id = (false, none) ∧
      ∃ k, k < 5 ∧
        (Hub.generateRoomID w length 5).state.2.randCalls = w.randCalls + (k + 1) ∧
        candidateAt w length k = some id ∧
        ∀ i, i < k → ∃ c, candidateAt w length i = some c ∧
          w.hub.Store.RoomExists c = (true, none)) ∧
    ((∀ i, i < 5 → ∃ c, candidateAt w length i = some c ∧
        w.hub.Store.RoomExists c = (true, none)) →
      (Hub.generateRoomID w length 5).state.1
          = ("", some (.other "unable to generate unique room ID")) ∧
        (Hub.generateRoomID w length 5).state.2.randCalls = w.randCalls + 5) := by
  obtain ⟨i1, i2, -, i4, i5, i6⟩ := generateRoomIDLoop_spec length hlen 5 w
  refine ⟨i1, i2, i4, ?_, i6⟩
  intro id h
  obtain ⟨j1, j2⟩ := i5 id h
  refine ⟨?_, j2⟩
  have hh : (Hub.generateRoomID w length 5).state.2.hub = w.hub := i2
  rw [hh]
  exact j1

/-- C19 (amended), at the examples: in the example state the first candidate, 07ELS, is
free in the store and is returned; with random bytes that spell lobby at each call and
the room lobby in the store, all 5 candidates are taken and the error is returned. -/
theorem C19_id_free_in_store_witness :
    (0 : Int) ≤ 5 ∧
    (Hub.generateRoomID exWorld 5 5).state.1 = ("07ELS", none) ∧
    (Hub.generateRoomID exWorld 5 5).state.2.hub.Store.RoomExists "07ELS" = (false, none) ∧
    (Hub.generateRoomID exLucky 5 5).state.1
      = ("", some (.other "unable to generate unique room ID")) ∧
    (Hub.generateRoomID exLucky 5 5).state.2.randCalls = exLucky.randCalls + 5 :=
  ⟨by decide, by decide,
    ((C19_id_free_in_store exWorld 5 (by decide)).2.2.2.1 "07ELS" (by decide)).1,
    (C19_id_free_in_store exLucky 5 (by decide)).2.2.2.2
      (fun i hi => ⟨"lobby", by
        have h : i = 0 ∨ i = 1 ∨ i = 2 ∨ i = 3 ∨ i = 4 := by omega
        rcases h with h | h | h | h | h <;> subst h <;> decide, by decide⟩)⟩

theorem storeAndInit_spec (w : World) (ptr : Nat) (id name : String) (pwdHash : List Nat)
    (predefined : Bool) (hcache : 0 ≤ w.hub.cfg.MaxCachedMessages) :
    (Hub.storeAndInit w ptr id name pwdHash predefined).isOk = true ∧
    (Hub.storeAndInit w ptr id name pwdHash predefined).state.1
      = (NewRoom ptr id name pwdHash w.hub.cfg predefined, none) ∧
    (Hub.storeAndInit w ptr id name pwdHash predefined).state.1.1.isSome = true ∧
    (Hub.storeAndInit w ptr id name pwdHash predefined).state.2.hub.Store
      = (w.hub.Store.AddRoom
          { ID := id, Name := name, CreatedAt := w.clock w.clockReads, Password := pwdHash }
          w.hub.cfg.RoomAge).1 ∧
    (Hub.storeAndInit w ptr id name pwdHash predefined).state.2.hub.rooms
      = setKey w.hub.rooms id ptr := by
  have hnew : NewRoom ptr id name pwdHash w.hub.cfg predefined
      = some
        { ptr := ptr
          ID := id
          Name := name
          Password := pwdHash
          Predefined := predefined
          PredefinedUsers := []
          peers := []
          broadcastQ := { buf := [], cap := 100, closed := false }
          hasGrowlHandler := false
          growlTokens := newTokenStore
          peerQ := { buf := [], cap := 100, closed := false }
          forwardQ := { buf := [], cap := 100, closed := false }
          closed := false
          payloadCache := []
          timestamp := 0
          motd := "" } := by
    unfold NewRoom
    rw [if_neg (not_lt.mpr hcache)]
  have hcfg : ∀ st, ((w.now.2).setStore st).hub.cfg = w.hub.cfg := fun _ => rfl
  simp only [Hub.storeAndInit, InMemory.AddRoom, Hub.initRoom, hcfg, hnew, Outcome.mapValue]
  exact ⟨rfl, rfl, rfl, rfl, rfl⟩

/-- C15 (the claim fails): AddRoom on an id that the store already holds returns no
error and replaces the entry. In the example store the room lobby has the session s0 and
the expiry 10 seconds: after AddRoom of another room with the id lobby the call has
returned a nil error, GetRoom returns the new row, the session s0 is gone and the expiry
is the new created_at + ttl; the same happens through Hub.AddPredefinedRoom, which
reports success. -/
theorem C15_existing_room_overwritten :
    exStore.GetSession "s0" "lobby" = ({ ID := "s0", Handle := "zoe" }, none) ∧
    (exStore.AddRoom { ID := "lobby", Name := "Other", CreatedAt := 50, Password := [1] } 7).2
      = none ∧
    (exStore.AddRoom { ID := "lobby", Name := "Other", CreatedAt := 50, Password := [1] } 7).1.GetRoom
        "lobby"
      = some ({ ID := "lobby", Name := "Other", CreatedAt := 50, Password := [1] }, none) ∧
    (exStore.AddRoom { ID := "lobby", Name := "Other", CreatedAt := 50, Password := [1] } 7).1.GetSession
        "s0" "lobby"
      = (Sess.zero, none) ∧
    (exStore.AddRoom { ID := "lobby", Name := "Other", CreatedAt := 50, Password := [1] } 7).1.rooms
      = [("room:lobby",
          { Room := { ID := "lobby", Name := "Other", CreatedAt := 50, Password := [1] }
            Sessions := []
            Expire := 57 })] ∧
    (Hub.AddPredefinedRoom exWorld exBcrypt 2 "lobby" "Other" "pw").isOk = true ∧
    (Hub.AddPredefinedRoom exWorld exBcrypt 2 "lobby" "Other" "pw").state.1.2 = none ∧
    (Hub.AddPredefinedRoom exWorld exBcrypt 2 "lobby" "Other" "pw").state.2.hub.Store.GetSession
        "s0" "lobby"
      = (Sess.zero, none) ∧
    (Hub.AddPredefinedRoom exWorld exBcrypt 2 "lobby" "Other" "pw").state.2.hub.Store.rooms
      = [("room:lobby",
          { Room := { ID := "lobby", Name := "Other", CreatedAt := 1000, Password := [112, 119] }
            Sessions := []
            Expire := 1000 + 10 * Second })] := by
  refine ⟨?_, ?_, ?_, ?_, ?_, ?_, ?_, ?_, ?_⟩ <;> decide

/-- C15 (amended). InMemory.AddRoom never fails: it returns a nil error, and when the
store already holds a room with the same id the entry of that id is replaced by the room
given, with no session (GetSession finds none) and the expiry created_at + ttl, while the
entry of every other key (row, sessions and expiry) stays as it was. Hub.AddPredefinedRoom, when the password
is hashed and the cache size is not negative, reports success and has made that same
call of Store.AddRoom with the clock reading as created_at and cfg.RoomAge as ttl, so it
too replaces an entry that exists. -/
theorem C15_AddRoom_replaces_entry (m : InMemory) (r : StoreRoom) (ttl : Duration)
    (w : World) (bcryptGenerate : String → Nat → Option (List Nat))
    (ptr : Nat) (ID name password : String) (pwdHash : List Nat)
    (hhash : bcryptGenerate password 8 = some pwdHash)
    (hcache : 0 ≤ w.hub.cfg.MaxCachedMessages) :
    (m.AddRoom r ttl).2 = none ∧
    (∀ row, lookupKey m.rooms (m.key r.ID) = some row →
      lookupKey (m.AddRoom r ttl).1.rooms (m.key r.ID)
        = some { Room := r, Sessions := [], Expire := r.CreatedAt + ttl } ∧
      ∀ s, (m.AddRoom r ttl).1.GetSession s r.ID = (Sess.zero, none)) ∧
    (∀ k, k ≠ m.key r.ID → lookupKey (m.AddRoom r ttl).1.rooms k = lookupKey m.rooms k) ∧
    (Hub.AddPredefinedRoom w bcryptGenerate ptr ID name password).isOk = true ∧
    (Hub.AddPredefinedRoom w bcryptGenerate ptr ID name password).state.1.2 = none ∧
    (Hub.AddPredefinedRoom w bcryptGenerate ptr ID name password).state.1.1.isSome = true ∧
    (Hub.AddPredefinedRoom w bcryptGenerate ptr ID name password).state.2.hub.Store
      = (w.hub.Store.AddRoom
          { ID := ID, Name := name, CreatedAt := w.clock w.clockReads, Password := pwdHash }
          w.hub.cfg.RoomAge).1 := by
  have hp : Hub.AddPredefinedRoom w bcryptGenerate ptr ID name password
      = Hub.storeAndInit w ptr ID name pwdHash true := by
    simp only [Hub.AddPredefinedRoom, hhash]
  obtain ⟨s1, s2, s3, s4, -⟩ := storeAndInit_spec w ptr ID name pwdHash true hcache
  rw [hp]
  have hself : lookupKey (m.AddRoom r ttl).1.rooms ((m.AddRoom r ttl).1.key r.ID)
      = some { Room := r, Sessions := [], Expire := r.CreatedAt + ttl } := by
    simp [InMemory.AddRoom, lookupKey_setKey_self, timeAdd]
  refine ⟨rfl, ?_, ?_, s1, ?_, s3, s4⟩
  · intro row _
    refine ⟨hself, fun s => ?_⟩
    rw [GetSession_present _ s r.ID _ hself]
    rfl
  · intro k hk
    simp [InMemory.AddRoom, lookupKey_setKey_ne _ _ _ _ hk]
  · rw [s2]

/-- C15 (amended), at the example store and state, for the id lobby, which the store
holds. -/
theorem C15_AddRoom_replaces_entry_witness :
    lookupKey exStore.rooms (exStore.key "lobby") ≠ none ∧
    (exStore.AddRoom { ID := "lobby", Name := "Other", CreatedAt := 50, Password := [1] } 7).2
      = none ∧
    (Hub.AddPredefinedRoom exWorld exBcrypt 2 "lobby" "Other" "pw").state.1.2 = none :=
  ⟨by decide,
    (C15_AddRoom_replaces_entry exStore
      { ID := "lobby", Name := "Other", CreatedAt := 50, Password := [1] } 7 exWorld exBcrypt 2
      "lobby" "Other" "pw" _ (by rfl) (by decide)).1,
    (C15_AddRoom_replaces_entry exStore
      { ID := "lobby", Name := "Other", CreatedAt := 50, Password := [1] } 7 exWorld exBcrypt 2
      "lobby" "Other" "pw" _ (by rfl) (by decide)).2.2.2.2.1⟩

set_option maxRecDepth 100000 in
theorem guidPreimages_count :
    ∀ c ∈ dictionary.toList,
      (guidPreimages c).length = if c ∈ "01234567".toList then 5 else 4 := by
  decide

/-- C26. GenerateGUID replaces each random byte v by the dictionary character at index
v mod 62, and since 256 = 4 * 62 + 8 the mapping is not uniform: over the 256 byte values
each of the first 8 characters of the dictionary, 0 to 7, has exactly 5 preimages and each
of the other 54 characters has exactly 4, so that for a uniformly random byte each of 0 to
7 is produced with probability 5/256 and every other character with probability 4/256. -/
theorem C26_guid_characters_not_uniform :
    (∀ bytes : List Nat, ∃ cs, guidChars bytes = some cs ∧
      ∀ i, cs.get? i = (bytes.get? i).bind (fun v => dictionaryAt (v % 62))) ∧
    256 = 4 * dictionary.length + 8 ∧
    dictionary.toList.take 8 = "01234567".toList ∧
    (dictionary.toList.drop 8).length = 54 ∧
    dictionary.toList.Nodup ∧
    (∀ c ∈ dictionary.toList.take 8,
      (guidPreimages c).length = 5 ∧ guidCharProb c = 5 / 256) ∧
    (∀ c ∈ dictionary.toList.drop 8,
      (guidPreimages c).length = 4 ∧ guidCharProb c = 4 / 256) ∧
    (∀ c, c ∉ dictionary.toList → guidPreimages c = []) := by
  refine ⟨?_, by decide, by decide, by decide, by decide, ?_, ?_, ?_⟩
  · intro bytes
    obtain ⟨cs, hcs, -, -, hget⟩ := guidChars_total bytes
    refine ⟨cs, hcs, fun i => ?_⟩
    rw [hget i, dictionary_length]
  · intro c hc
    have hmem : c ∈ dictionary.toList := List.mem_of_mem_take hc
    have h8 : c ∈ "01234567".toList := by
      have : dictionary.toList.take 8 = "01234567".toList := by decide
      rw [← this]; exact hc
    have hlen := guidPreimages_count c hmem
    rw [if_pos h8] at hlen
    refine ⟨hlen, ?_⟩
    unfold guidCharProb
    rw [hlen]
    norm_num
  · intro c hc
    have hmem : c ∈ dictionary.toList := List.mem_of_mem_drop hc
    have h8 : c ∉ "01234567".toList := by
      have hnd : dictionary.toList.Nodup := by decide
      have ht : dictionary.toList.take 8 = "01234567".toList := by decide
      rw [← ht]
      intro hin
      have hdisj := List.disjoint_take_drop hnd (le_refl 8)
      exact hdisj hin hc
    have hlen := guidPreimages_count c hmem
    rw [if_neg h8] at hlen
    refine ⟨hlen, ?_⟩
    unfold guidCharProb
    rw [hlen]
    norm_num
  · intro c hc
    unfold guidPreimages
    rw [List.filter_eq_nil_iff]
    intro v _
    obtain ⟨d, hd, hdm⟩ := dictionaryAt_mod v
    rw [hd]
    intro h
    have h1 : d = c := by simpa using h
    exact hc (h1 ▸ hdm)

theorem GenerateGUID_32 (w : World) :
    (w.rand w.randCalls = none ∧
      GenerateGUID w 32 = .ok (("", some (.other "rand.Read")), (w.randRead 32).2)) ∨
    (∃ src cs, w.rand w.randCalls = some src ∧ cs.length = 32 ∧
      (∀ c ∈ cs, c ∈ dictionary.toList) ∧
      guidChars ((List.range 32).map (fun i => src i % 256)) = some cs ∧
      GenerateGUID w 32 = .ok ((String.mk cs, none), (w.randRead 32).2)) := by
  rcases GenerateGUID_cases w 32 (by decide) with h | ⟨src, cs, h1, h2, h3⟩
  · exact Or.inl h
  · refine Or.inr ⟨src, cs, h1, ?_, ?_, h2, h3⟩
    · obtain ⟨cs1, e1, e2, -, -⟩ :=
        guidChars_total ((List.range (32 : Int).toNat).map (fun i => src i % 256))
      have : cs1 = cs := Option.some.inj (e1.symm.trans h2)
      subst this
      simpa using e2
    · obtain ⟨cs1, e1, -, e3, -⟩ :=
        guidChars_total ((List.range (32 : Int).toNat).map (fun i => src i % 256))
      have : cs1 = cs := Option.some.inj (e1.symm.trans h2)
      subst this
      exact e3

theorem createToken_spec (w : World) (handle : String) :
    ∃ uid, createToken w handle
        = .ok (uid, ((w.randRead 32).2.now.2).setRoom
            { w.room with
              growlTokens :=
                { tokens := setKey w.room.growlTokens.tokens handle
                    { handle := handle, token := uid,
                      expires := w.clock w.clockReads + Minute * 10 } } }) ∧
      (w.rand w.randCalls = none → uid = "") ∧
      (∀ src, w.rand w.randCalls = some src →
        uid.length = 32 ∧ (∀ c ∈ uid.toList, c ∈ dictionary.toList) ∧
        guidChars ((List.range 32).map (fun i => src i % 256)) = some uid.toList) := by
  rcases GenerateGUID_32 w with ⟨hr, hg⟩ | ⟨src, cs, hr, hlen, hall, hcs, hg⟩
  · refine ⟨"", ?_, fun _ => rfl, ?_⟩
    · simp only [createToken, hg]
      rfl
    · intro src hsrc
      rw [hr] at hsrc
      cases hsrc
  · refine ⟨String.mk cs, ?_, ?_, ?_⟩
    · simp only [createToken, hg]
      rfl
    · intro hn
      rw [hr] at hn
      cases hn
    · intro src1 hsrc
      rw [hr] at hsrc
      cases hsrc
      exact ⟨by simpa [String.length] using hlen, hall, hcs⟩
theorem getOrCreateToken_spec (w : World) (handle : String) :
    ∃ entry w1, getOrCreateToken w handle = .ok (entry.token, w1) ∧
      w1.room.growlTokens.tokens = setKey w.room.growlTokens.tokens handle entry ∧
      w1.clock = w.clock ∧ w1.hub = w.hub ∧
      ((∃ tok, lookupKey w.room.growlTokens.tokens handle = some tok ∧
          ¬ tok.expires < w.clock w.clockReads ∧
          entry = { tok with expires := tok.expires + Minute * 10 } ∧
          w1.clockReads = w.clockReads + 1 ∧ w1.randCalls = w.randCalls) ∨
        (lookupKey w.room.growlTokens.tokens handle = none ∧
          entry.handle = handle ∧ entry.expires = w.clock w.clockReads + Minute * 10 ∧
          w1.clockReads = w.clockReads + 1 ∧ w1.randCalls = w.randCalls + 1 ∧
          (∀ src, w.rand w.randCalls = some src →
            entry.token.length = 32 ∧ (∀ c ∈ entry.token.toList, c ∈ dictionary.toList) ∧
            guidChars ((List.range 32).map (fun i => src i % 256))
              = some entry.token.toList) ∧
          (w.rand w.randCalls = none → entry.token = "")) ∨
        (∃ tok, lookupKey w.room.growlTokens.tokens handle = some tok ∧
          tok.expires < w.clock w.clockReads ∧
          entry.handle = handle ∧
          entry.expires = w.clock (w.clockReads + 1) + Minute * 10 ∧
          w1.clockReads = w.clockReads + 2 ∧ w1.randCalls = w.randCalls + 1 ∧
          (∀ src, w.rand w.randCalls = some src →
            entry.token.length = 32 ∧ (∀ c ∈ entry.token.toList, c ∈ dictionary.toList) ∧
            guidChars ((List.range 32).map (fun i => src i % 256))
              = some entry.token.toList) ∧
          (w.rand w.randCalls = none → entry.token = ""))) := by
  cases hl : lookupKey w.room.growlTokens.tokens handle with
  | none =>
    obtain ⟨uid, hc, hnone, hsrc⟩ := createToken_spec w handle
    refine ⟨{ handle := handle, token := uid,
              expires := w.clock w.clockReads + Minute * 10 },
      ((w.randRead 32).2.now.2).setRoom
        { w.room with
          growlTokens :=
            { tokens := setKey w.room.growlTokens.tokens handle
                { handle := handle, token := uid,
                  expires := w.clock w.clockReads + Minute * 10 } } }, ?_, rfl, rfl, rfl,
      Or.inr (Or.inl ⟨rfl, rfl, rfl, rfl, rfl, hsrc, hnone⟩)⟩
    simp only [getOrCreateToken, hl]
    exact hc
  | some tok =>
    by_cases hexp : tok.expires < w.clock w.clockReads
    · obtain ⟨uid, hc, hnone, hsrc⟩ := createToken_spec w.now.2 handle
      refine ⟨{ handle := handle, token := uid,
                expires := w.clock (w.clockReads + 1) + Minute * 10 },
        ((w.now.2.randRead 32).2.now.2).setRoom
          { w.room with
            growlTokens :=
              { tokens := setKey w.room.growlTokens.tokens handle
                  { handle := handle, token := uid,
                    expires := w.clock (w.clockReads + 1) + Minute * 10 } } },
        ?_, rfl, rfl, rfl,
        Or.inr (Or.inr ⟨tok, rfl, hexp, rfl, rfl, rfl, rfl, hsrc, hnone⟩)⟩
      have hb : timeBefore tok.expires w.now.1 = true := by
        simp [timeBefore, World.now, hexp]
      simp only [getOrCreateToken, hl, hb]
      exact hc
    · refine ⟨{ tok with expires := tok.expires + Minute * 10 },
        w.now.2.setRoom
          { w.room with
            growlTokens :=
              { tokens := setKey w.room.growlTokens.tokens handle
                  { tok with expires := tok.expires + Minute * 10 } } },
        ?_, rfl, rfl, rfl, Or.inl ⟨tok, rfl, hexp, rfl, rfl, rfl⟩⟩
      have hb : timeBefore tok.expires w.now.1 = false := by
        simp [timeBefore, World.now, hexp]
      simp only [getOrCreateToken, hl, hb]
      rfl

/-- C25 (the code departs from the claim when rand.Read fails). For every state of the
token store, handle h and clock: if the store holds an entry for h whose expiry is not
before the clock reading, getOrCreateToken(h) returns the token of that entry, which
stays the same, and moves its expiry forward by exactly 10 minutes; otherwise (no entry,
or an entry whose expiry is before the reading) it stores and returns a token under the
handle h with the expiry 10 minutes after the clock reading taken for it: when rand.Read
delivers its bytes, a token of 32 characters of the dictionary made from those bytes, as
the claim says; when rand.Read fails, the error of GenerateGUID is dropped and the token
is the empty string. In every case the call returns and the entries of all other handles
are unchanged. -/
theorem C25_token_reused_or_created (w : World) (h : String) :
    (getOrCreateToken w h).isOk = true ∧
    (∀ tok, lookupKey w.room.growlTokens.tokens h = some tok →
      ¬ tok.expires < w.clock w.clockReads →
      (getOrCreateToken w h).state.1 = tok.token ∧
      lookupKey (getOrCreateToken w h).state.2.room.growlTokens.tokens h
        = some { tok with expires := tok.expires + Minute * 10 }) ∧
    (lookupKey w.room.growlTokens.tokens h = none →
      lookupKey (getOrCreateToken w h).state.2.room.growlTokens.tokens h
        = some { handle := h, token := (getOrCreateToken w h).state.1,
                 expires := w.clock w.clockReads + Minute * 10 }) ∧
    (∀ tok, lookupKey w.room.growlTokens.tokens h = some tok →
      tok.expires < w.clock w.clockReads →
      lookupKey (getOrCreateToken w h).state.2.room.growlTokens.tokens h
        = some { handle := h, token := (getOrCreateToken w h).state.1,
                 expires := w.clock (w.clockReads + 1) + Minute * 10 }) ∧
    ((∀ tok, lookupKey w.room.growlTokens.tokens h = some tok →
        tok.expires < w.clock w.clockReads) →
      (∀ src, w.rand w.randCalls = some src →
        (getOrCreateToken w h).state.1.length = 32 ∧
        (∀ c ∈ (getOrCreateToken w h).state.1.toList, c ∈ dictionary.toList) ∧
        guidChars ((List.range 32).map (fun i => src i % 256))
          = some (getOrCreateToken w h).state.1.toList) ∧
      (w.rand w.randCalls = none → (getOrCreateToken w h).state.1 = "")) ∧
    (∀ h1, h1 ≠ h →
      lookupKey (getOrCreateToken w h).state.2.room.growlTokens.tokens h1
        = lookupKey w.room.growlTokens.tokens h1) := by
  obtain ⟨entry, w1, hg, htok, -, -, hcases⟩ := getOrCreateToken_spec w h
  rw [hg]
  simp only [Outcome.state, Outcome.isOk, htok, lookupKey_setKey_self]
  refine ⟨trivial, ?_, ?_, ?_, ?_, ?_⟩
  · intro tok hl hlive
    rcases hcases with ⟨tok1, h1, -, h3, -⟩ | ⟨h1, -⟩ | ⟨tok1, h1, h2, -⟩
    · rw [hl] at h1
      cases h1
      rw [h3]
      exact ⟨rfl, rfl⟩
    · rw [hl] at h1
      cases h1
    · rw [hl] at h1
      cases h1
      exact absurd h2 hlive
  · intro hl
    rcases hcases with ⟨tok1, h1, -⟩ | ⟨-, h2, h3, -⟩ | ⟨tok1, h1, -⟩
    · rw [hl] at h1
      cases h1
    · rw [← h2, ← h3]
    · rw [hl] at h1
      cases h1
  · intro tok hl hexp
    rcases hcases with ⟨tok1, h1, h2, -⟩ | ⟨h1, -⟩ | ⟨tok1, -, -, h2, h3, -⟩
    · rw [hl] at h1
      cases h1
      exact absurd hexp h2
    · rw [hl] at h1
      cases h1
    · rw [← h2, ← h3]
  · intro hold
    rcases hcases with ⟨tok1, h1, h2, -⟩ | ⟨-, -, -, -, -, h6, h7⟩ |
      ⟨tok1, -, -, -, -, -, -, h6, h7⟩
    · exact absurd (hold tok1 h1) h2
    · exact ⟨h6, h7⟩
    · exact ⟨h6, h7⟩
  · intro h1 hne
    exact lookupKey_setKey_ne _ _ _ _ hne

/-- C25, at the example state with a source of random bytes that fails: the token store
holds no entry for alice, and getOrCreateToken for alice stores and returns the empty
string, not a token of 32 characters; checkToken of the empty string then returns
alice. -/
theorem C25_token_reused_or_created_witness :
    exNoRand.rand exNoRand.randCalls = none ∧
    lookupKey exNoRand.room.growlTokens.tokens "alice" = none ∧
    (getOrCreateToken exNoRand "alice").isOk = true ∧
    (getOrCreateToken exNoRand "alice").state.1 = "" ∧
    (getOrCreateToken exNoRand "alice").state.1.length ≠ 32 ∧
    (getOrCreateToken exNoRand "alice").state.2.room.growlTokens.tokens
      = [("alice", { handle := "alice", token := "", expires := 1000 + Minute * 10 })] ∧
    (checkToken (getOrCreateToken exNoRand "alice").state.2 "").1 = "alice" :=
  ⟨rfl, by decide, (C25_token_reused_or_created exNoRand "alice").1,
    ((C25_token_reused_or_created exNoRand "alice").2.2.2.2.1
      (fun tok hl => by
        rw [show lookupKey exNoRand.room.growlTokens.tokens "alice" = none from by decide] at hl
        cases hl)).2 rfl,
    by decide, by decide, by decide⟩

theorem mem_deleteKey {κ ν : Type} [DecidableEq κ] (l : List (κ × ν)) (k : κ) (e : κ × ν)
    (h : e ∈ deleteKey l k) : e ∈ l ∧ e.1 ≠ k := by
  induction l with
  | nil => simp [deleteKey] at h
  | cons x rest ih =>
    obtain ⟨k1, v⟩ := x
    by_cases hk : k1 = k
    · simp only [deleteKey, hk, if_true] at h
      exact ⟨List.mem_cons_of_mem _ (ih h).1, (ih h).2⟩
    · simp only [deleteKey, hk, if_false, List.mem_cons] at h
      rcases h with h | h
      · subst h
        exact ⟨List.mem_cons_self _ _, hk⟩
      · exact ⟨List.mem_cons_of_mem _ (ih h).1, (ih h).2⟩

theorem lookupKey_mem {κ ν : Type} [DecidableEq κ] (l : List (κ × ν)) (k : κ) (v : ν)
    (h : lookupKey l k = some v) : (k, v) ∈ l := by
  induction l with
  | nil => simp [lookupKey] at h
  | cons x rest ih =>
    obtain ⟨k1, v1⟩ := x
    by_cases hk : k1 = k
    · simp only [lookupKey, hk, if_true, Option.some.injEq] at h
      subst hk
      subst h
      exact List.mem_cons_self _ _
    · simp only [lookupKey, hk, if_false] at h
      exact List.mem_cons_of_mem _ (ih h)

theorem checkTokenLoop_no_match (tokvalue : String) (l : List (String × loginToken))
    (w : World) (h : ∀ e ∈ l, e.2.token ≠ tokvalue) :
    checkTokenLoop tokvalue l w = ("", w) := by
  induction l with
  | nil => rfl
  | cons x rest ih =>
    obtain ⟨k, tok⟩ := x
    have hne : ¬ tok.token = tokvalue := h (k, tok) (List.mem_cons_self _ _)
    simp only [checkTokenLoop, hne, if_false]
    exact ih (fun e he => h e (List.mem_cons_of_mem _ he))

theorem checkToken_no_match (w : World) (tokvalue : String)
    (h : ∀ e ∈ w.room.growlTokens.tokens, e.2.token ≠ tokvalue) :
    checkToken w tokvalue = ("", w) :=
  checkTokenLoop_no_match tokvalue _ w h

/-- C24 (the claim as stated fails): a token store that holds, for alice, a live token
with the value that getOrCreateToken then gives to bob. Checking the token returned for
bob returns bob, and checking the same value a second time returns alice, not the empty
string. -/
theorem C24_second_check_finds_other_handle :
    (getOrCreateToken exSameToken "bob").isOk = true ∧
    (getOrCreateToken exSameToken "bob").state.1 = "07ELSZgnu18FMTahov29GNUbipw3AHOV" ∧
    (checkToken (getOrCreateToken exSameToken "bob").state.2
      "07ELSZgnu18FMTahov29GNUbipw3AHOV").1 = "bob" ∧
    (checkToken
      (checkToken (getOrCreateToken exSameToken "bob").state.2
        "07ELSZgnu18FMTahov29GNUbipw3AHOV").2
      "07ELSZgnu18FMTahov29GNUbipw3AHOV").1 = "alice" := by
  refine ⟨?_, ?_, ?_, ?_⟩ <;> decide

/-- C24 (amended). For every token store whose entries are under the handle they carry,
and every handle h: when no entry of another handle holds the token value that
getOrCreateToken(h) returns, and the entry of h has not expired at the clock reading of
the check, checking that token returns h and removes the entry of h, the entries of the
other handles staying as they were, and checking the same token value a second time
returns the empty string and changes no entry. -/
theorem C24_token_round_trip (w : World) (h : String)
    (hkeyed : w.room.growlTokens.keyedByHandle)
    (hfresh : ∀ e ∈ w.room.growlTokens.tokens, e.1 ≠ h →
      e.2.token ≠ (getOrCreateToken w h).state.1)
    (hlive : ∀ e ∈ (getOrCreateToken w h).state.2.room.growlTokens.tokens, e.1 = h →
      ¬ e.2.expires < (getOrCreateToken w h).state.2.clock
        (getOrCreateToken w h).state.2.clockReads) :
    (getOrCreateToken w h).isOk = true ∧
    (checkToken (getOrCreateToken w h).state.2 (getOrCreateToken w h).state.1).1 = h ∧
    lookupKey (checkToken (getOrCreateToken w h).state.2
      (getOrCreateToken w h).state.1).2.room.growlTokens.tokens h = none ∧
    (∀ h1, h1 ≠ h →
      lookupKey (checkToken (getOrCreateToken w h).state.2
          (getOrCreateToken w h).state.1).2.room.growlTokens.tokens h1
        = lookupKey w.room.growlTokens.tokens h1) ∧
    (checkToken
      (checkToken (getOrCreateToken w h).state.2 (getOrCreateToken w h).state.1).2
      (getOrCreateToken w h).state.1).1 = "" ∧
    (checkToken
      (checkToken (getOrCreateToken w h).state.2 (getOrCreateToken w h).state.1).2
      (getOrCreateToken w h).state.1).2.room.growlTokens.tokens
      = (checkToken (getOrCreateToken w h).state.2
          (getOrCreateToken w h).state.1).2.room.growlTokens.tokens := by
  obtain ⟨entry, w1, hg, htok, -, -, hcases⟩ := getOrCreateToken_spec w h
  rw [hg] at hfresh hlive ⊢
  simp only [Outcome.state, Outcome.isOk] at hfresh hlive ⊢
  have hhandle : entry.handle = h := by
    rcases hcases with ⟨tok, h1, -, h3, -⟩ | ⟨-, h2, -⟩ | ⟨tok, -, -, h2, -⟩
    · rw [h3]
      exact hkeyed (h, tok) (lookupKey_mem _ _ _ h1)
    · exact h2
    · exact h2
  have hnotexp : timeBefore entry.expires w1.now.1 = false := by
    have := hlive (h, entry) (by rw [htok]; exact List.mem_cons_self _ _) rfl
    simp [timeBefore, World.now, this]
  have hfirst : checkToken w1 entry.token
      = (h, w1.now.2.setRoom
          { w1.now.2.room with
            growlTokens :=
              { tokens := deleteKey w1.now.2.room.growlTokens.tokens h } }) := by
    unfold checkToken
    rw [htok]
    simp only [setKey, checkTokenLoop, if_true, hnotexp, hhandle]
    rfl
  have htok2 : (checkToken w1 entry.token).2.room.growlTokens.tokens
      = deleteKey (setKey w.room.growlTokens.tokens h entry) h := by
    rw [hfirst, ← htok]
    rfl
  have hrest : ∀ e ∈ deleteKey (setKey w.room.growlTokens.tokens h entry) h,
      e.2.token ≠ entry.token := by
    intro e he
    obtain ⟨hm, hk⟩ := mem_deleteKey _ _ _ he
    rcases List.mem_cons.mp hm with heq | hm1
    · exact absurd (by rw [heq]) hk
    · exact hfresh e (mem_deleteKey _ _ _ hm1).1 hk
  have hsecond : checkToken (checkToken w1 entry.token).2 entry.token
      = ("", (checkToken w1 entry.token).2) :=
    checkToken_no_match _ _ (by rw [htok2]; exact hrest)
  refine ⟨trivial, ?_, ?_, ?_, ?_, ?_⟩
  · rw [hfirst]
  · rw [htok2]
    exact lookupKey_deleteKey_self _ _
  · intro h1 hne
    rw [htok2, lookupKey_deleteKey_ne _ _ _ hne, lookupKey_setKey_ne _ _ _ _ hne]
  · rw [hsecond]
  · rw [hsecond]

/-- C24 (amended), at the example: the token store holds a token for alice, and the token
for bob is created, checked and checked again. -/
theorem C24_token_round_trip_witness :
    exTokAlice.room.growlTokens.tokens ≠ [] ∧
    (checkToken (getOrCreateToken exTokAlice "bob").state.2
      (getOrCreateToken exTokAlice "bob").state.1).1 = "bob" ∧
    (checkToken
      (checkToken (getOrCreateToken exTokAlice "bob").state.2
        (getOrCreateToken exTokAlice "bob").state.1).2
      (getOrCreateToken exTokAlice "bob").state.1).1 = "" :=
  ⟨by decide,
    (C24_token_round_trip exTokAlice "bob"
      (by unfold tokenStore.keyedByHandle; decide) (by decide) (by decide)).2.1,
    (C24_token_round_trip exTokAlice "bob"
      (by unfold tokenStore.keyedByHandle; decide) (by decide) (by decide)).2.2.2.2.1⟩

theorem Login_cases (w : World) (roomPwd handle handlePwd : String) (roomAge : Duration) :
    (w.bcryptCompare w.room.Password roomPwd = false ∧
      Room.Login w roomPwd handle handlePwd roomAge
        = .ok (("", some .ErrInvalidRoomPassword), w)) ∨
    (w.bcryptCompare w.room.Password roomPwd = true ∧
      w.room.PredefinedUsers.any
        (fun u => decide (u.Name = handle) && decide (u.Password ≠ handlePwd)) = true ∧
      Room.Login w roomPwd handle handlePwd roomAge
        = .ok (("", some .ErrInvalidUserPassword), w)) ∨
    (w.bcryptCompare w.room.Password roomPwd = true ∧
      w.room.PredefinedUsers.any
        (fun u => decide (u.Name = handle) && decide (u.Password ≠ handlePwd)) = false ∧
      w.room.closed = true ∧
      Room.Login w roomPwd handle handlePwd roomAge = .blocked (("", none), w)) ∨
    (w.bcryptCompare w.room.Password roomPwd = true ∧
      w.room.PredefinedUsers.any
        (fun u => decide (u.Name = handle) && decide (u.Password ≠ handlePwd)) = false ∧
      w.room.closed = false ∧ handleConnected w.room.peers handle = true ∧
      Room.Login w roomPwd handle handlePwd roomAge
        = .ok (("", some .ErrAlreadyConnected), w)) ∨
    (w.bcryptCompare w.room.Password roomPwd = true ∧
      w.room.PredefinedUsers.any
        (fun u => decide (u.Name = handle) && decide (u.Password ≠ handlePwd)) = false ∧
      w.room.closed = false ∧ handleConnected w.room.peers handle = false ∧
      ((w.rand w.randCalls = none ∧
          Room.Login w roomPwd handle handlePwd roomAge
            = .ok (("", some (.other "error generating session ID")),
                (w.randRead 32).2.emit (.logPrintf "error generating session ID: %v" []))) ∨
        (∃ src cs, w.rand w.randCalls = some src ∧ cs.length = 32 ∧
          guidChars ((List.range 32).map (fun i => src i % 256)) = some cs ∧
          ((lookupKey w.hub.Store.rooms (w.hub.Store.key w.room.ID) = none ∧
              Room.Login w roomPwd handle handlePwd roomAge
                = .ok (("", some (.other "error storing session")),
                    ((w.randRead 32).2.setStore w.hub.Store).emit
                      (.logPrintf "error creating session: %v" []))) ∨
            (∃ row, lookupKey w.hub.Store.rooms (w.hub.Store.key w.room.ID) = some row ∧
              Room.Login w roomPwd handle handlePwd roomAge
                = .ok ((String.mk cs, none),
                    (w.randRead 32).2.setStore
                      (w.hub.Store.AddSession (String.mk cs) handle w.room.ID roomAge).1)))))) := by
  unfold Room.Login
  cases hc : w.bcryptCompare w.room.Password roomPwd with
  | false => exact Or.inl ⟨rfl, by simp⟩
  | true =>
    right
    cases ha : w.room.PredefinedUsers.any
        (fun u => decide (u.Name = handle) && decide (u.Password ≠ handlePwd)) with
    | true => exact Or.inl ⟨rfl, rfl, by simp [ha]⟩
    | false =>
      right
      cases hcl : w.room.closed with
      | true => exact Or.inl ⟨rfl, rfl, rfl, by simp [ha]⟩
      | false =>
        right
        cases hcon : handleConnected w.room.peers handle with
        | true => exact Or.inl ⟨rfl, rfl, rfl, rfl, by simp [ha]⟩
        | false =>
          refine Or.inr ⟨rfl, rfl, rfl, rfl, ?_⟩
          rcases GenerateGUID_32 w with ⟨hr, hg⟩ | ⟨src, cs, hr, hlen, -, hcs, hg⟩
          · exact Or.inl ⟨hr, by simp [ha, hg]⟩
          · refine Or.inr ⟨src, cs, hr, hlen, hcs, ?_⟩
            have hst : (w.randRead 32).2.hub.Store = w.hub.Store := rfl
            have hid : (w.randRead 32).2.room.ID = w.room.ID := rfl
            cases hl : lookupKey w.hub.Store.rooms (w.hub.Store.key w.room.ID) with
            | none =>
              refine Or.inl ⟨rfl, ?_⟩
              simp [ha, hg, hst, hid, InMemory.AddSession, hl]
            | some row =>
              refine Or.inr ⟨row, rfl, ?_⟩
              simp [ha, hg, hst, hid, InMemory.AddSession, hl]
theorem any_mismatch_iff (users : List PredefinedUser) (handle handlePwd : String) :
    users.any (fun u => decide (u.Name = handle) && decide (u.Password ≠ handlePwd)) = true ↔
      ∃ u ∈ users, u.Name = handle ∧ u.Password ≠ handlePwd := by
  simp [List.any_eq_true]

theorem handleConnected_iff (peers : List Peer) (handle : String) :
    handleConnected peers handle = true ↔ ∃ p ∈ peers, p.Handle = handle := by
  simp [handleConnected, List.any_eq_true]

theorem AddSession_then_get (m : InMemory) (sessID handle roomID : String) (ttl : Duration)
    (row : MemRoom) (h : lookupKey m.rooms (m.key roomID) = some row) :
    (m.AddSession sessID handle roomID ttl).2 = none ∧
    (m.AddSession sessID handle roomID ttl).1.GetSession sessID roomID
      = ({ ID := sessID, Handle := handle }, none) := by
  have hl : lookupKey (m.AddSession sessID handle roomID ttl).1.rooms
      ((m.AddSession sessID handle roomID ttl).1.key roomID)
      = some { row with Sessions := setKey row.Sessions sessID handle } := by
    simp [InMemory.AddSession, h, lookupKey_setKey_self]
  refine ⟨by simp [InMemory.AddSession, h], ?_⟩
  rw [GetSession_present _ sessID roomID _ hl]
  simp [lookupKey_setKey_self]

/-- C21. Room.Login, in a state where a room whose loop has returned has no peers:
it returns ErrInvalidRoomPassword when the room password does not match the stored hash;
otherwise it returns ErrInvalidUserPassword exactly when the handle names a predefined
user whose password differs from the user password supplied, and for a handle that names
no predefined user the user password is ignored; otherwise it returns ErrAlreadyConnected
exactly when a peer with that handle is in the peer set. Whenever the call does not
return a session id the Store is unchanged. It returns a session id only when none of
the three applies, and then the id has 32 characters, the Store is the one from before
with the one call AddSession(id, handle, room id) applied, and GetSession(id, room id)
gives the session with that id and handle. When none of the three applies, the loop is
running, rand.Read delivers and the room is in the Store, the call does return a session
id. -/
theorem C21_login_outcomes (w : World) (roomPwd handle handlePwd : String)
    (roomAge : Duration) (hinv : w.room.closed = true → w.room.peers = []) :
    (w.bcryptCompare w.room.Password roomPwd = false →
      Room.Login w roomPwd handle handlePwd roomAge
        = .ok (("", some .ErrInvalidRoomPassword), w)) ∧
    (w.bcryptCompare w.room.Password roomPwd = true →
      ((∃ u ∈ w.room.PredefinedUsers, u.Name = handle ∧ u.Password ≠ handlePwd) ↔
        Room.Login w roomPwd handle handlePwd roomAge
          = .ok (("", some .ErrInvalidUserPassword), w))) ∧
    ((∀ u ∈ w.room.PredefinedUsers, u.Name ≠ handle) → ∀ pwd2,
      Room.Login w roomPwd handle pwd2 roomAge
        = Room.Login w roomPwd handle handlePwd roomAge) ∧
    (w.bcryptCompare w.room.Password roomPwd = true →
      (¬ ∃ u ∈ w.room.PredefinedUsers, u.Name = handle ∧ u.Password ≠ handlePwd) →
      ((∃ p ∈ w.room.peers, p.Handle = handle) ↔
        Room.Login w roomPwd handle handlePwd roomAge
          = .ok (("", some .ErrAlreadyConnected), w))) ∧
    (¬ ((Room.Login w roomPwd handle handlePwd roomAge).isOk = true ∧
        (Room.Login w roomPwd handle handlePwd roomAge).state.1.2 = none) →
      (Room.Login w roomPwd handle handlePwd roomAge).state.2.hub.Store = w.hub.Store) ∧
    ((Room.Login w roomPwd handle handlePwd roomAge).isOk = true →
      (Room.Login w roomPwd handle handlePwd roomAge).state.1.2 = none →
      w.bcryptCompare w.room.Password roomPwd = true ∧
      (¬ ∃ u ∈ w.room.PredefinedUsers, u.Name = handle ∧ u.Password ≠ handlePwd) ∧
      (¬ ∃ p ∈ w.room.peers, p.Handle = handle) ∧
      (Room.Login w roomPwd handle handlePwd roomAge).state.1.1.length = 32 ∧
      (Room.Login w roomPwd handle handlePwd roomAge).state.2.hub.Store
        = (w.hub.Store.AddSession (Room.Login w roomPwd handle handlePwd roomAge).state.1.1
            handle w.room.ID roomAge).1 ∧
      (w.hub.Store.AddSession (Room.Login w roomPwd handle handlePwd roomAge).state.1.1
            handle w.room.ID roomAge).2 = none ∧
      (Room.Login w roomPwd handle handlePwd roomAge).state.2.hub.Store.GetSession
          (Room.Login w roomPwd handle handlePwd roomAge).state.1.1 w.room.ID
        = ({ ID := (Room.Login w roomPwd handle handlePwd roomAge).state.1.1,
             Handle := handle }, none)) ∧
    (w.bcryptCompare w.room.Password roomPwd = true →
      (¬ ∃ u ∈ w.room.PredefinedUsers, u.Name = handle ∧ u.Password ≠ handlePwd) →
      (¬ ∃ p ∈ w.room.peers, p.Handle = handle) →
      w.room.closed = false →
      w.rand w.randCalls ≠ none →
      w.hub.Store.RoomExists w.room.ID = (true, none) →
      (Room.Login w roomPwd handle handlePwd roomAge).isOk = true ∧
        (Room.Login w roomPwd handle handlePwd roomAge).state.1.2 = none) := by
  have hany := any_mismatch_iff w.room.PredefinedUsers handle handlePwd
  have hcon := handleConnected_iff w.room.peers handle
  refine ⟨?_, ?_, ?_, ?_, ?_, ?_, ?_⟩
  · intro hc
    rcases Login_cases w roomPwd handle handlePwd roomAge with
      ⟨_, hL⟩ | ⟨c, _⟩ | ⟨c, _⟩ | ⟨c, _⟩ | ⟨c, _⟩
    · exact hL
    all_goals (rw [hc] at c; cases c)
  · intro hc
    rcases Login_cases w roomPwd handle handlePwd roomAge with
      ⟨c, _⟩ | ⟨_, ha, hL⟩ | ⟨_, ha, _, hL⟩ | ⟨_, ha, _, _, hL⟩ | ⟨_, ha, _, _, hL⟩
    · rw [hc] at c; cases c
    · exact ⟨fun _ => hL, fun _ => hany.mp ha⟩
    · rw [hL]
      refine ⟨fun hex => ?_, fun h => by cases h⟩
      rw [hany.mpr hex] at ha; cases ha
    · rw [hL]
      refine ⟨fun hex => ?_, fun h => by simp at h⟩
      rw [hany.mpr hex] at ha; cases ha
    · refine ⟨fun hex => ?_, fun h => ?_⟩
      · rw [hany.mpr hex] at ha; cases ha
      · rcases hL with ⟨_, hL⟩ | ⟨_, _, _, _, _, ⟨_, hL⟩ | ⟨_, _, hL⟩⟩ <;>
          rw [hL] at h <;> simp at h
  · intro hno pwd2
    have h1 : ∀ pwd, w.room.PredefinedUsers.any
        (fun u => decide (u.Name = handle) && decide (u.Password ≠ pwd)) = false := by
      intro pwd
      cases hb : w.room.PredefinedUsers.any
          (fun u => decide (u.Name = handle) && decide (u.Password ≠ pwd)) with
      | false => rfl
      | true =>
        obtain ⟨u, hu, hn, -⟩ := (any_mismatch_iff _ handle pwd).mp hb
        exact absurd hn (hno u hu)
    unfold Room.Login
    rw [h1 pwd2, h1 handlePwd]
  · intro hc hnm
    have ha : w.room.PredefinedUsers.any
        (fun u => decide (u.Name = handle) && decide (u.Password ≠ handlePwd)) = false := by
      cases hb : w.room.PredefinedUsers.any
          (fun u => decide (u.Name = handle) && decide (u.Password ≠ handlePwd)) with
      | false => rfl
      | true => exact absurd (hany.mp hb) hnm
    rcases Login_cases w roomPwd handle handlePwd roomAge with
      ⟨c, _⟩ | ⟨_, a, _⟩ | ⟨_, _, hcl, hL⟩ | ⟨_, _, _, hp, hL⟩ | ⟨_, _, _, hp, hL⟩
    · rw [hc] at c; cases c
    · rw [ha] at a; cases a
    · rw [hL]
      refine ⟨fun hex => ?_, fun h => by cases h⟩
      obtain ⟨p, hp, -⟩ := hex
      rw [hinv hcl] at hp
      cases hp
    · exact ⟨fun _ => hL, fun _ => hcon.mp hp⟩
    · refine ⟨fun hex => ?_, fun h => ?_⟩
      · rw [hcon.mpr hex] at hp; cases hp
      · rcases hL with ⟨_, hL⟩ | ⟨_, _, _, _, _, ⟨_, hL⟩ | ⟨_, _, hL⟩⟩ <;>
          rw [hL] at h <;> simp at h
  · intro hnot
    rcases Login_cases w roomPwd handle handlePwd roomAge with
      ⟨_, hL⟩ | ⟨_, _, hL⟩ | ⟨_, _, _, hL⟩ | ⟨_, _, _, _, hL⟩ | ⟨_, _, _, _, hL⟩
    · rw [hL]; rfl
    · rw [hL]; rfl
    · rw [hL]; rfl
    · rw [hL]; rfl
    · rcases hL with ⟨_, hL⟩ | ⟨_, _, _, _, _, ⟨_, hL⟩ | ⟨_, _, hL⟩⟩
      · rw [hL]; rfl
      · rw [hL]; rfl
      · rw [hL] at hnot
        exact absurd ⟨rfl, rfl⟩ hnot
  · intro hok hnone
    rcases Login_cases w roomPwd handle handlePwd roomAge with
      ⟨_, hL⟩ | ⟨_, _, hL⟩ | ⟨_, _, _, hL⟩ | ⟨_, _, _, _, hL⟩ | ⟨hc, ha, _, hp, hL⟩
    · rw [hL] at hnone; simp [Outcome.state] at hnone
    · rw [hL] at hnone; simp [Outcome.state] at hnone
    · rw [hL] at hok; simp [Outcome.isOk] at hok
    · rw [hL] at hnone; simp [Outcome.state] at hnone
    · rcases hL with ⟨_, hL⟩ | ⟨_, cs, _, hlen, _, ⟨_, hL⟩ | ⟨row, hrow, hL⟩⟩
      · rw [hL] at hnone; simp [Outcome.state] at hnone
      · rw [hL] at hnone; simp [Outcome.state] at hnone
      · rw [hL]
        obtain ⟨s1, s2⟩ := AddSession_then_get w.hub.Store (String.mk cs) handle w.room.ID
          roomAge row hrow
        refine ⟨hc, ?_, ?_, ?_, rfl, s1, s2⟩
        · intro hex
          rw [hany.mpr hex] at ha; cases ha
        · intro hex
          rw [hcon.mpr hex] at hp; cases hp
        · simpa [Outcome.state, String.length] using hlen
  · intro hc hnm hnp hcl hrand hex
    have ha : w.room.PredefinedUsers.any
        (fun u => decide (u.Name = handle) && decide (u.Password ≠ handlePwd)) = false := by
      cases hb : w.room.PredefinedUsers.any
          (fun u => decide (u.Name = handle) && decide (u.Password ≠ handlePwd)) with
      | false => rfl
      | true => exact absurd (hany.mp hb) hnm
    have hp : handleConnected w.room.peers handle = false := by
      cases hb : handleConnected w.room.peers handle with
      | false => rfl
      | true => exact absurd (hcon.mp hb) hnp
    rcases Login_cases w roomPwd handle handlePwd roomAge with
      ⟨c, _⟩ | ⟨_, a, _⟩ | ⟨_, _, c, _⟩ | ⟨_, _, _, p, _⟩ | ⟨_, _, _, _, hL⟩
    · rw [hc] at c; cases c
    · rw [ha] at a; cases a
    · rw [hcl] at c; cases c
    · rw [hp] at p; cases p
    · rcases hL with ⟨hr, _⟩ | ⟨_, _, _, _, _, ⟨hl, _⟩ | ⟨_, _, hL⟩⟩
      · exact absurd hr hrand
      · simp [InMemory.RoomExists, hl] at hex
      · rw [hL]
        exact ⟨rfl, rfl⟩

/-- C21, at the example state with alice in the room: a login for the handle alice with
the room password is refused with ErrAlreadyConnected and the state is unchanged. -/
theorem C21_login_outcomes_witness :
    (exAliceIn.room.closed = true → exAliceIn.room.peers = []) ∧
    exAliceIn.bcryptCompare exAliceIn.room.Password "pw" = true ∧
    (∃ p ∈ exAliceIn.room.peers, p.Handle = "alice") ∧
    Room.Login exAliceIn "pw" "alice" "" Minute
      = .ok (("", some .ErrAlreadyConnected), exAliceIn) :=
  ⟨by decide, by decide, ⟨alice, by decide, rfl⟩,
    ((C21_login_outcomes exAliceIn "pw" "alice" "" Minute (by decide)).2.2.2.1 (by decide)
      (by decide)).mp ⟨alice, by decide, rfl⟩⟩

theorem respondJSON_status (data : RespData) (err : Option Err) (statusCode : Nat)
    (h : statusCode ≠ 0) :
    respStatus (respondJSON [] data err statusCode) = some statusCode ∧
    respCookies (respondJSON [] data err statusCode) = [] ∧
    ∀ name value path, HttpCall.SetCookie name value path ∉ respondJSON [] data err statusCode := by
  simp [respondJSON, h, respStatus, respCookies]

/-- C22 (the claim fails for ErrAlreadyConnected): alice is a live peer of the example
room, and a login with the right room password for the handle alice makes Room.Login
return ErrAlreadyConnected; handleLogin answers it with the status 500, not 403, and the
text of that error. -/
theorem C22_already_connected_answered_500 :
    alice ∈ exAliceIn.room.peers ∧
    (Room.Login exAliceIn "pw" "alice" "" exAliceIn.hub.cfg.RoomAge).state.1
      = ("", some .ErrAlreadyConnected) ∧
    (handleLogin exAliceIn [] false
        (some { Name := "", Handle := "alice", Password := "pw", UserPwd := "" })).state.1
      = [.WriteHeader 500, .HeaderSet "Content-Type" "application/json; charset=utf-8",
         .Write { Error := some .ErrAlreadyConnected, Data := .null }] ∧
    respStatus (handleLogin exAliceIn [] false
        (some { Name := "", Handle := "alice", Password := "pw", UserPwd := "" })).state.1
      = some 500 := by
  refine ⟨?_, ?_, ?_, ?_⟩ <;> decide

/-- C22 (amended). Whenever Room.Login fails, handleLogin sets no session cookie. It
answers with the status 403 and the text incorrect password when the error is
ErrInvalidRoomPassword or ErrInvalidUserPassword, and with the status 500 and the text of
the error in every other case, ErrAlreadyConnected included: a login for a handle held by
a live peer is answered 500. The state is the one Room.Login left. -/
theorem C22_login_errors_answered (w w0 w1 : World) (req : reqRoom) (handle s : String)
    (e : Err) (hh : loginHandle w req = .ok ((handle, none), w0))
    (hL : Room.Login w0 req.Password handle req.UserPwd w0.hub.cfg.RoomAge
      = .ok ((s, some e), w1)) :
    (e = .ErrInvalidRoomPassword ∨ e = .ErrInvalidUserPassword →
      handleLogin w [] false (some req)
        = .ok (respondJSON [] .null (some (.other "incorrect password")) StatusForbidden, w1) ∧
      respStatus (handleLogin w [] false (some req)).state.1 = some 403) ∧
    (e ≠ .ErrInvalidRoomPassword → e ≠ .ErrInvalidUserPassword →
      handleLogin w [] false (some req)
        = .ok (respondJSON [] .null (some e) StatusInternalServerError, w1) ∧
      respStatus (handleLogin w [] false (some req)).state.1 = some 500) ∧
    (e = .ErrAlreadyConnected →
      respStatus (handleLogin w [] false (some req)).state.1 = some 500) ∧
    respCookies (handleLogin w [] false (some req)).state.1 = [] ∧
    (∀ name value path,
      HttpCall.SetCookie name value path ∉ (handleLogin w [] false (some req)).state.1) := by
  have h403 : e = .ErrInvalidRoomPassword ∨ e = .ErrInvalidUserPassword →
      handleLogin w [] false (some req)
        = .ok (respondJSON [] .null (some (.other "incorrect password")) StatusForbidden,
            w1) := by
    intro he
    have hc : (some e = some Err.ErrInvalidRoomPassword ∨
        some e = some Err.ErrInvalidUserPassword) := by
      rcases he with he | he
      · exact Or.inl (by rw [he])
      · exact Or.inr (by rw [he])
    simp only [handleLogin, hh, hL, Bool.false_eq_true, if_false, if_pos hc]
  have h500 : e ≠ .ErrInvalidRoomPassword → e ≠ .ErrInvalidUserPassword →
      handleLogin w [] false (some req)
        = .ok (respondJSON [] .null (some e) StatusInternalServerError, w1) := by
    intro h1 h2
    have hc : ¬ (some e = some Err.ErrInvalidRoomPassword ∨
        some e = some Err.ErrInvalidUserPassword) := by
      intro h
      rcases h with h | h
      · exact h1 (Option.some.inj h)
      · exact h2 (Option.some.inj h)
    simp only [handleLogin, hh, hL, Bool.false_eq_true, if_false, if_neg hc]
  have s403 := respondJSON_status .null (some (.other "incorrect password")) StatusForbidden
    (by decide)
  have s500 := respondJSON_status .null (some e) StatusInternalServerError (by decide)
  refine ⟨fun he => ⟨h403 he, ?_⟩, fun h1 h2 => ⟨h500 h1 h2, ?_⟩, fun he => ?_, ?_, ?_⟩
  · rw [h403 he]
    exact s403.1
  · rw [h500 h1 h2]
    exact s500.1
  · rw [h500 (by rw [he]; decide) (by rw [he]; decide)]
    exact s500.1
  · by_cases hc : e = .ErrInvalidRoomPassword ∨ e = .ErrInvalidUserPassword
    · rw [h403 hc]
      exact s403.2.1
    · rw [h500 (fun h => hc (Or.inl h)) (fun h => hc (Or.inr h))]
      exact s500.2.1
  · by_cases hc : e = .ErrInvalidRoomPassword ∨ e = .ErrInvalidUserPassword
    · rw [h403 hc]
      exact s403.2.2
    · rw [h500 (fun h => hc (Or.inl h)) (fun h => hc (Or.inr h))]
      exact s500.2.2

/-- C22 (amended), at the examples: a login for alice, who is in the room, is answered
500, and a login with a wrong room password is answered 403; neither sets a cookie. -/
theorem C22_login_errors_answered_witness :
    respStatus (handleLogin exAliceIn [] false
        (some { Name := "", Handle := "alice", Password := "pw", UserPwd := "" })).state.1
      = some 500 ∧
    respStatus (handleLogin exAliceIn [] false
        (some { Name := "", Handle := "bob", Password := "wrong", UserPwd := "" })).state.1
      = some 403 ∧
    respCookies (handleLogin exAliceIn [] false
        (some { Name := "", Handle := "bob", Password := "wrong", UserPwd := "" })).state.1
      = [] :=
  ⟨(C22_login_errors_answered exAliceIn exAliceIn exAliceIn
      { Name := "", Handle := "alice", Password := "pw", UserPwd := "" } "alice" ""
      .ErrAlreadyConnected rfl rfl).2.2.1 rfl,
    ((C22_login_errors_answered exAliceIn exAliceIn exAliceIn
      { Name := "", Handle := "bob", Password := "wrong", UserPwd := "" } "bob" ""
      .ErrInvalidRoomPassword rfl rfl).1 (Or.inl rfl)).2,
    (C22_login_errors_answered exAliceIn exAliceIn exAliceIn
      { Name := "", Handle := "bob", Password := "wrong", UserPwd := "" } "bob" ""
      .ErrInvalidRoomPassword rfl rfl).2.2.2.1⟩

theorem touchLimiter_store (st : UploadState) (ptr : Nat) (roomID : String)
    (h : st.store.RlCount ≠ 0 ∨ lookupKey st.roomLimiters roomID ≠ none) :
    ∃ x st1, touchLimiter st ptr roomID = .ok (x, st1) ∧ st1.store = st.store ∧
      lookupKey st1.roomLimiters roomID = some x := by
  unfold touchLimiter
  cases hl : lookupKey st.roomLimiters roomID with
  | none =>
    have hc : st.store.RlCount ≠ 0 := by
      rcases h with h | h
      · exact h
      · exact absurd hl h
    simp only [if_neg hc]
    exact ⟨_, _, rfl, rfl, lookupKey_setKey_self _ _ _⟩
  | some x =>
    exact ⟨_, _, rfl, rfl, lookupKey_setKey_self _ _ _⟩

/-- C23 (the code departs from the claim). Whenever the form is parsed and the upload rate
limiter of the room denies the request, handleUpload makes its error from the text of
http.StatusTooManyRequests, but responds with the HTTP status 400, not 429, with that
text, Too Many Requests, as the error of the envelope and an empty result. As the claim
says, it stores no file: the upload store is unchanged. This is so when the limiter of
the room exists or store.RlCount is not 0. -/
theorem C23_rate_limited_stores_nothing (st : UploadState) (ptr : Nat) (req : UploadReq)
    (hparse : req.parseErr = none) (hdeny : req.allow = false)
    (hlim : st.store.RlCount ≠ 0 ∨ lookupKey st.roomLimiters req.roomID ≠ none) :
    (handleUpload st ptr [] req).isOk = true ∧
    (handleUpload st ptr [] req).state.1
      = respondJSON [] (.files []) (some (.other "Too Many Requests")) StatusBadRequest ∧
    respStatus (handleUpload st ptr [] req).state.1 = some 400 ∧
    (handleUpload st ptr [] req).state.2.store = st.store ∧
    (handleUpload st ptr [] req).state.2.store.added = st.store.added ∧
    StatusText StatusTooManyRequests = "Too Many Requests" ∧
    respStatus (handleUpload st ptr [] req).state.1 ≠ some StatusTooManyRequests := by
  obtain ⟨x, st1, ht, hs, -⟩ := touchLimiter_store st ptr req.roomID hlim
  have hu : handleUpload st ptr [] req
      = .ok (respondJSON [] (.files []) (some (.other "Too Many Requests")) StatusBadRequest,
          st1) := by
    simp only [handleUpload, hparse, ht, hdeny, uploadRespond]
    rfl
  rw [hu]
  have hst := (respondJSON_status (.files []) (some (.other "Too Many Requests"))
    StatusBadRequest (by decide)).1
  refine ⟨rfl, rfl, hst, hs, congrArg UploadStore.added hs, by decide, ?_⟩
  simp only [Outcome.state]
  rw [hst]
  decide

/-- C23, at the example: an upload of one image that the rate limiter of the room denies
is answered with the status 400 and the error text Too Many Requests, and no file reaches
the store; the same upload, when allowed, stores the file. -/
theorem C23_rate_limited_stores_nothing_witness :
    (exUploadReq false).allow = false ∧
    (handleUpload exUploadState 1 [] (exUploadReq false)).state.1
      = [.WriteHeader 400, .HeaderSet "Content-Type" "application/json; charset=utf-8",
         .Write { Error := some (.other "Too Many Requests"), Data := .files [] }] ∧
    respStatus (handleUpload exUploadState 1 [] (exUploadReq false)).state.1 = some 400 ∧
    (handleUpload exUploadState 1 [] (exUploadReq false)).state.2.store.added
      = exUploadState.store.added ∧
    (handleUpload exUploadState 1 [] (exUploadReq true)).state.2.store.added
      ≠ exUploadState.store.added :=
  ⟨rfl, by decide,
    (C23_rate_limited_stores_nothing exUploadState 1 (exUploadReq false) rfl rfl
      (Or.inl (by decide))).2.2.1,
    (C23_rate_limited_stores_nothing exUploadState 1 (exUploadReq false) rfl rfl
      (Or.inl (by decide))).2.2.2.2.1,
    by decide⟩

theorem GetSession_eq_answer (m : InMemory) (sessID roomID : String) :
    m.GetSession sessID roomID = sessionAnswer sessID (m.sessionView (m.key roomID) sessID) := by
  unfold InMemory.GetSession InMemory.sessionView
  cases lookupKey m.rooms (m.key roomID) with
  | none => rfl
  | some row =>
    simp only [Option.map_some']
    cases lookupKey row.Sessions sessID <;> rfl

theorem applyOp_key (m : InMemory) (op : StoreOp) : (m.applyOp op).key = m.key := by
  cases op with
  | AddRoom r ttl => rfl
  | ExtendRoomTTL id ttl =>
    simp only [InMemory.applyOp, InMemory.ExtendRoomTTL]
    cases lookupKey m.rooms (m.key id) <;> rfl
  | RemoveRoom id => rfl
  | AddSession s h id ttl =>
    simp only [InMemory.applyOp, InMemory.AddSession]
    cases lookupKey m.rooms (m.key id) <;> rfl
  | RemoveSession s id =>
    simp only [InMemory.applyOp, InMemory.RemoveSession]
    cases lookupKey m.rooms (m.key id) <;> rfl
  | ClearSessions id =>
    simp only [InMemory.applyOp, InMemory.ClearSessions]
    cases lookupKey m.rooms (m.key id) <;> rfl
  | cleanup now => rfl

theorem applyOp_uniqueKeys (m : InMemory) (op : StoreOp) (h : m.uniqueKeys) :
    (m.applyOp op).uniqueKeys := by
  obtain ⟨h1, h2, h3, h4, h5, h6, h7⟩ := uniqueKeys_preserved m h
  cases op with
  | AddRoom r ttl => exact h1 r ttl
  | ExtendRoomTTL id ttl => exact h2 id ttl
  | RemoveRoom id => exact h3 id
  | AddSession s hd id ttl => exact h4 s hd id ttl
  | RemoveSession s id => exact h5 s id
  | ClearSessions id => exact h6 id
  | cleanup now => exact h7 now

theorem sessionView_setKey_self (m : InMemory) (k sessID : String) (row : MemRoom) :
    ({ m with rooms := setKey m.rooms k row } : InMemory).sessionView k sessID
      = some (row.Expire, lookupKey row.Sessions sessID) := by
  simp [InMemory.sessionView, lookupKey_setKey_self]

theorem sessionView_setKey_ne (m : InMemory) (k k1 sessID : String) (row : MemRoom)
    (h : k1 ≠ k) :
    ({ m with rooms := setKey m.rooms k1 row } : InMemory).sessionView k sessID
      = m.sessionView k sessID := by
  have h2 : k ≠ k1 := fun e => h e.symm
  simp [InMemory.sessionView, lookupKey_setKey_ne _ _ _ _ h2]

theorem applyOp_sessionView (m : InMemory) (k sessID : String) (op : StoreOp)
    (huniq : m.uniqueKeys) :
    (m.applyOp op).sessionView k sessID
      = sessionStep m.key k sessID (m.sessionView k sessID) op := by
  cases op with
  | AddRoom r ttl =>
    simp only [InMemory.applyOp, InMemory.AddRoom, sessionStep]
    by_cases hk : m.key r.ID = k
    · subst hk
      rw [if_pos rfl, sessionView_setKey_self]
      simp [timeAdd, lookupKey]
    · rw [if_neg hk, sessionView_setKey_ne _ _ _ _ _ hk]
  | ExtendRoomTTL id ttl =>
    simp only [InMemory.applyOp, InMemory.ExtendRoomTTL, sessionStep]
    by_cases hk : m.key id = k
    · subst hk
      rw [if_pos rfl]
      cases hl : lookupKey m.rooms (m.key id) with
      | none => simp [InMemory.sessionView, hl]
      | some row =>
        simp only []
        rw [sessionView_setKey_self]
        simp [InMemory.sessionView, hl, timeAdd]
    · rw [if_neg hk]
      cases hl : lookupKey m.rooms (m.key id) with
      | none => rfl
      | some row =>
        simp only []
        rw [sessionView_setKey_ne _ _ _ _ _ hk]
  | RemoveRoom id =>
    simp only [InMemory.applyOp, InMemory.RemoveRoom, sessionStep]
    by_cases hk : m.key id = k
    · subst hk
      rw [if_pos rfl]
      simp [InMemory.sessionView, lookupKey_deleteKey_self]
    · rw [if_neg hk]
      have h2 : k ≠ m.key id := fun e => hk e.symm
      simp [InMemory.sessionView, lookupKey_deleteKey_ne _ _ _ h2]
  | AddSession s hd id ttl =>
    simp only [InMemory.applyOp, InMemory.AddSession, sessionStep]
    by_cases hk : m.key id = k
    · subst hk
      cases hl : lookupKey m.rooms (m.key id) with
      | none =>
        simp only []
        by_cases hs : s = sessID <;> simp [InMemory.sessionView, hl, hs]
      | some row =>
        simp only []
        rw [sessionView_setKey_self]
        by_cases hs : s = sessID
        · subst hs
          simp [InMemory.sessionView, hl, lookupKey_setKey_self]
        · have hs2 : sessID ≠ s := fun e => hs e.symm
          simp [InMemory.sessionView, hl, hs, lookupKey_setKey_ne _ _ _ _ hs2]
    · have hc : ¬ (m.key id = k ∧ s = sessID) := fun h => hk h.1
      rw [if_neg hc]
      cases hl : lookupKey m.rooms (m.key id) with
      | none => rfl
      | some row =>
        simp only []
        rw [sessionView_setKey_ne _ _ _ _ _ hk]
  | RemoveSession s id =>
    simp only [InMemory.applyOp, InMemory.RemoveSession, sessionStep]
    by_cases hk : m.key id = k
    · subst hk
      cases hl : lookupKey m.rooms (m.key id) with
      | none =>
        simp only []
        by_cases hs : s = sessID <;> simp [InMemory.sessionView, hl, hs]
      | some row =>
        simp only []
        rw [sessionView_setKey_self]
        by_cases hs : s = sessID
        · subst hs
          simp [InMemory.sessionView, hl, lookupKey_deleteKey_self]
        · have hs2 : sessID ≠ s := fun e => hs e.symm
          simp [InMemory.sessionView, hl, hs, lookupKey_deleteKey_ne _ _ _ hs2]
    · have hc : ¬ (m.key id = k ∧ s = sessID) := fun h => hk h.1
      rw [if_neg hc]
      cases hl : lookupKey m.rooms (m.key id) with
      | none => rfl
      | some row =>
        simp only []
        rw [sessionView_setKey_ne _ _ _ _ _ hk]
  | ClearSessions id =>
    simp only [InMemory.applyOp, InMemory.ClearSessions, sessionStep]
    by_cases hk : m.key id = k
    · subst hk
      rw [if_pos rfl]
      cases hl : lookupKey m.rooms (m.key id) with
      | none => simp [InMemory.sessionView, hl]
      | some row =>
        simp only []
        rw [sessionView_setKey_self]
        simp [InMemory.sessionView, hl, lookupKey]
    · rw [if_neg hk]
      cases hl : lookupKey m.rooms (m.key id) with
      | none => rfl
      | some row =>
        simp only []
        rw [sessionView_setKey_ne _ _ _ _ _ hk]
  | cleanup now =>
    simp only [InMemory.applyOp, sessionStep, InMemory.sessionView]
    rw [cleanup_lookup m now k huniq]
    cases hl : lookupKey m.rooms k with
    | none => rfl
    | some row =>
      by_cases hlt : row.Expire < now <;> simp [hlt]

theorem applyOps_sessionView (ops : List StoreOp) (m : InMemory) (k sessID : String)
    (huniq : m.uniqueKeys) :
    (m.applyOps ops).key = m.key ∧ (m.applyOps ops).uniqueKeys ∧
    (m.applyOps ops).sessionView k sessID
      = sessionAfter m.key k sessID (m.sessionView k sessID) ops := by
  induction ops generalizing m with
  | nil => exact ⟨rfl, huniq, rfl⟩
  | cons op rest ih =>
    obtain ⟨h1, h2, h3⟩ := ih (m.applyOp op) (applyOp_uniqueKeys m op huniq)
    simp only [InMemory.applyOps, sessionAfter]
    refine ⟨h1.trans (applyOp_key m op), h2, ?_⟩
    rw [h3, applyOp_key, applyOp_sessionView m k sessID op huniq]

/-- C17 (the claim as stated fails): the room lobby is added, the session s0 of zoe is
stored for it with AddSession, and AddRoom is called again with the id lobby. The room is
present and the session was not removed by RemoveSession or ClearSessions, yet
GetSession(s0, lobby) returns the empty session with a nil error, not the session of
zoe. -/
theorem C17_session_dropped_by_AddRoom :
    ((InMemory.New (fun id => "room:" ++ id)).applyOps (exSessionLost.take 2)).GetSession
        "s0" "lobby"
      = ({ ID := "s0", Handle := "zoe" }, none) ∧
    ((InMemory.New (fun id => "room:" ++ id)).applyOps exSessionLost).RoomExists "lobby"
      = (true, none) ∧
    ((InMemory.New (fun id => "room:" ++ id)).applyOps exSessionLost).GetSession "s0" "lobby"
      = (Sess.zero, none) := by
  refine ⟨?_, ?_, ?_⟩ <;> decide

/-- C17 (amended). In every state of the store reached by calls of the store from a state
with one entry per key, GetSession(s, r) returns the error ErrRoomNotFound exactly when
the room r is absent (RoomExists reports false), and then with the empty session. When r
is present it returns the session with id s and handle h, and a nil error, if h is the
handle most recently stored for s in r by AddSession and not since removed by
RemoveSession or ClearSessions, or dropped with the sessions of the room by an AddRoom
for r; otherwise it returns the empty session and a nil error. AddSession, RemoveSession
and ClearSessions on an absent room return ErrRoomNotFound and leave the store
unchanged. -/
theorem C17_sessions_follow_store_calls (m : InMemory) (roomID sessID : String)
    (ops : List StoreOp) (huniq : m.uniqueKeys) :
    (((m.applyOps ops).GetSession sessID roomID).2 = some .ErrRoomNotFound ↔
      (m.applyOps ops).RoomExists roomID = (false, none)) ∧
    ((m.applyOps ops).RoomExists roomID = (false, none) ↔
      sessionAfter m.key (m.key roomID) sessID (m.sessionView (m.key roomID) sessID) ops
        = none) ∧
    (m.applyOps ops).GetSession sessID roomID
      = sessionAnswer sessID
          (sessionAfter m.key (m.key roomID) sessID (m.sessionView (m.key roomID) sessID)
            ops) ∧
    ((m.applyOps ops).RoomExists roomID = (false, none) →
      (m.applyOps ops).GetSession sessID roomID = (Sess.zero, some .ErrRoomNotFound) ∧
      (∀ handle ttl, (m.applyOps ops).AddSession sessID handle roomID ttl
        = (m.applyOps ops, some .ErrRoomNotFound)) ∧
      (m.applyOps ops).RemoveSession sessID roomID = (m.applyOps ops, some .ErrRoomNotFound) ∧
      (m.applyOps ops).ClearSessions roomID = (m.applyOps ops, some .ErrRoomNotFound)) := by
  obtain ⟨hkey, -, hview⟩ := applyOps_sessionView ops m (m.key roomID) sessID huniq
  have hans := GetSession_eq_answer (m.applyOps ops) sessID roomID
  rw [hkey, hview] at hans
  have hex : (m.applyOps ops).RoomExists roomID = (false, none) ↔
      lookupKey (m.applyOps ops).rooms ((m.applyOps ops).key roomID) = none := by
    cases hl : lookupKey (m.applyOps ops).rooms ((m.applyOps ops).key roomID) <;>
      simp [InMemory.RoomExists, hl]
  have hnone : lookupKey (m.applyOps ops).rooms ((m.applyOps ops).key roomID) = none ↔
      sessionAfter m.key (m.key roomID) sessID (m.sessionView (m.key roomID) sessID) ops
        = none := by
    rw [← hview, hkey]
    cases hl : lookupKey (m.applyOps ops).rooms (m.key roomID) <;>
      simp [InMemory.sessionView, hl]
  refine ⟨?_, hex.trans hnone, hans, ?_⟩
  · rw [hex.trans hnone, hans]
    cases hs : sessionAfter m.key (m.key roomID) sessID
        (m.sessionView (m.key roomID) sessID) ops with
    | none => simp [sessionAnswer]
    | some x =>
      obtain ⟨e, hd⟩ := x
      cases hd <;> simp [sessionAnswer]
  · intro habs
    have hl := hex.mp habs
    refine ⟨GetSession_absent _ sessID roomID hl, fun handle ttl => ?_, ?_, ?_⟩
    · simp only [InMemory.AddSession, hl]
    · simp only [InMemory.RemoveSession, hl]
    · simp only [InMemory.ClearSessions, hl]

/-- C17 (amended), at the example store, which holds the session s0 of zoe for the room
lobby: after AddSession of s1 for amy the store answers amy for s1 and still zoe for s0;
after RemoveSession of s0 it answers the empty session for s0; after RemoveRoom it
answers ErrRoomNotFound. -/
theorem C17_sessions_follow_store_calls_witness :
    exStore.uniqueKeys ∧
    (exStore.applyOps [.AddSession "s1" "amy" "lobby" 10]).GetSession "s1" "lobby"
      = ({ ID := "s1", Handle := "amy" }, none) ∧
    (exStore.applyOps [.AddSession "s1" "amy" "lobby" 10]).GetSession "s0" "lobby"
      = ({ ID := "s0", Handle := "zoe" }, none) ∧
    (exStore.applyOps [.AddSession "s1" "amy" "lobby" 10, .RemoveSession "s0" "lobby"]).GetSession
        "s0" "lobby"
      = (Sess.zero, none) ∧
    (exStore.applyOps [.RemoveRoom "lobby"]).GetSession "s0" "lobby"
      = (Sess.zero, some .ErrRoomNotFound) :=
  ⟨by unfold InMemory.uniqueKeys; decide,
    (C17_sessions_follow_store_calls exStore "lobby" "s1" [.AddSession "s1" "amy" "lobby" 10]
      (by unfold InMemory.uniqueKeys; decide)).2.2.1.trans (by decide),
    (C17_sessions_follow_store_calls exStore "lobby" "s0" [.AddSession "s1" "amy" "lobby" 10]
      (by unfold InMemory.uniqueKeys; decide)).2.2.1.trans (by decide),
    (C17_sessions_follow_store_calls exStore "lobby" "s0"
      [.AddSession "s1" "amy" "lobby" 10, .RemoveSession "s0" "lobby"]
      (by unfold InMemory.uniqueKeys; decide)).2.2.1.trans (by decide),
    (C17_sessions_follow_store_calls exStore "lobby" "s0" [.RemoveRoom "lobby"]
      (by unfold InMemory.uniqueKeys; decide)).2.2.1.trans (by decide)⟩

end Niltalk
